import Mathlib

/-!
Verification development for the Library Organizer Engine
(`src/server/services/OrganizerService.ts` of hifi-music-vault).

The service is embedded shallowly:

* Absolute filesystem paths are canonical segment lists (`Path`); the host is
  assumed POSIX (the source targets macOS: `open -R` in
  `revealInFileExplorer`), so `'/'` is the only separator and backslashes are
  ordinary characters, exactly as in Node's posix `path` module.
* The filesystem is an explicit state (`St`): a finite map from paths to file
  data, a set of explicitly created directories (parents of existing entries
  exist implicitly), and a trace of performed I/O events.
* Each async service method becomes a function in the monad
  `M α = St → Except Err α × St`; `throw` is `Except.error`, and JS
  `try/catch` is the `attempt` combinator.
* The JSON inventory file is modelled as structured data (`FData.json`):
  `fs.readJson`/`fs.outputJson` transport the track list directly, which
  abstracts JSON (de)serialisation but nothing else.  Audio files are opaque
  `FData.blob`s.  Playlist files are real strings and every line-level
  string operation of the source (split on newline, trim, startsWith,
  backslash replacement) is reproduced character by character.
* `fs-extra` semantics are modelled faithfully where the engine relies on
  them: `copy` with `overwrite: false` silently does nothing when the
  destination exists, while `move` with `overwrite: false` rejects.
-/

namespace HMV

deriving instance DecidableEq for Except

/-- Filesystem path, as the canonical list of segments from the root. -/
abbrev Path := List String

/-- Whitespace for the purposes of JS `String.prototype.trim`. -/
def wsChar (c : Char) : Bool :=
  c = ' ' || c = '\t' || c = '\n' || c = '\r'

/-- JS `s.trim()`: remove whitespace from both ends. -/
def jsTrimS (s : String) : String :=
  String.mk (((s.data.dropWhile wsChar).reverse.dropWhile wsChar).reverse)

/-- JS `s.startsWith("#")`: the first character is a hash. -/
def startsWithHash (s : String) : Bool :=
  match s.data with
  | [] => false
  | c :: _ => c = '#'

/-- JS `s.startsWith(pre)`. -/
def startsWithS (s pre : String) : Bool :=
  pre.data.isPrefixOf s.data

/-- JS `s.endsWith(suf)`. -/
def endsWithS (s suf : String) : Bool :=
  suf.data.isSuffixOf s.data

/-- Substring search: does `sub` occur in `hay`? -/
def containsSub (sub : List Char) : List Char → Bool
  | [] => sub.isPrefixOf []
  | c :: t => sub.isPrefixOf (c :: t) || containsSub sub t

/-- JS `s.includes(sub)`. -/
def jsIncludes (s sub : String) : Bool :=
  containsSub sub.data s.data

/-- JS `s.replace(/\\/g, "/")`: every backslash becomes a forward slash. -/
def slashify (s : String) : String :=
  String.mk (s.data.map fun c => if c = '\\' then '/' else c)

/-- Character-level split on a separator, keeping empty pieces
(JS `s.split(sep)` semantics). -/
def splitSep (sep : Char) : List Char → List (List Char)
  | [] => [[]]
  | c :: cs =>
    let r := splitSep sep cs
    if c = sep then [] :: r
    else
      match r with
      | [] => [[c]]
      | h :: t => (c :: h) :: t

/-- JS `s.split("\n")`. -/
def splitNl (s : String) : List String :=
  (splitSep '\n' s.data).map String.mk

/-- JS `s.split("/")`. -/
def splitSlash (s : String) : List String :=
  (splitSep '/' s.data).map String.mk

/-- JS `parts.join("\n")`. -/
def joinNl : List String → String
  | [] => ""
  | [l] => l
  | l :: ls => l ++ "\n" ++ joinNl ls

/-- JS `parts.join("/")`. -/
def joinSlash : List String → String
  | [] => ""
  | [l] => l
  | l :: ls => l ++ "/" ++ joinSlash ls

/-- Node `path.relative(base, target)` on resolved segment paths, as a
segment list (`".."` entries climb out of `base`). -/
def relSegs : Path → Path → List String
  | b :: bs, t :: ts =>
    if b = t then relSegs bs ts
    else List.replicate (bs.length + 1) ".." ++ (t :: ts)
  | [], ts => ts
  | bs, [] => List.replicate bs.length ".."

/-- The string `path.relative(base, target).split(path.sep).join("/")`
computed by the source for every playlist line. -/
def relStr (base target : Path) : String :=
  joinSlash (relSegs base target)

/-- One normalisation step of Node's `path.join`/`path.normalize`:
`".."` pops, `"."` and empty segments vanish. -/
def applySeg (acc : Path) (seg : String) : Path :=
  if seg = ".." then acc.dropLast
  else if seg = "." then acc
  else if seg = "" then acc
  else acc ++ [seg]

/-- Node `path.join(base, rel)` with an absolute `base` (segments) and a
relative string `rel`, normalised. -/
def joinNorm (base : Path) (rel : String) : Path :=
  (splitSlash rel).foldl applySeg base

/-- Node `path.resolve(base, rel)`: like `joinNorm`, except an absolute
`rel` (leading slash) restarts from the root. -/
def resolveAt (base : Path) (rel : String) : Path :=
  match splitSlash rel with
  | "" :: rest => rest.foldl applySeg []
  | segs => segs.foldl applySeg base

/-- Node `path.basename`: the last path segment. -/
def basenameOf (p : Path) : String :=
  (p.getLast?).getD ""

/-- Node `path.parse(file).name`: the file name without its final
extension; a lone leading dot is part of the name. -/
def parseName (file : String) : String :=
  match file.data.reverse.splitOn '.' with
  | [] => file
  | [_] => file
  | first :: _ =>
    if first.length + 1 = file.data.length then file
    else String.mk (file.data.take (file.data.length - first.length - 1))

/-- Node `path.extname`: the final extension including the dot, empty if
none. -/
def extnameOf (file : String) : String :=
  match file.data.reverse.splitOn '.' with
  | [] => ""
  | [_] => ""
  | first :: _ =>
    if first.length + 1 = file.data.length then ""
    else String.mk ('.' :: first.reverse)

/-- JS `new Set(list)` materialised as the list of first occurrences in
order. -/
def jsSetList : List String → List String
  | [] => []
  | x :: xs => x :: (jsSetList xs).filter (fun y => y ≠ x)

/-- The `SongMetadata` interface of the source: one inventory entry. -/
structure Song where
  title : String
  artist : String
  album : String
  year : Option Nat
  trackNo : String
  genre : List String
  format : String
  absPath : Path
  relPath : Option String
deriving DecidableEq, Repr

/-- The `ScanResult` interface of the source: one scan proposal. -/
structure ScanResult where
  file : Path
  metadata : Song
  proposedPath : Path
  playlists : List String
deriving DecidableEq, Repr

/-- Contents of a filesystem entry: playlist files are text, the inventory
database is structured JSON (serialisation abstracted), audio files are
opaque blobs. -/
inductive FData where
  | text (s : String)
  | json (inv : List Song)
  | blob (id : Nat)
deriving DecidableEq, Repr

/-- The string `fs.readFile(..., "utf-8")` would yield.  Non-text data is
rendered as the empty string; no claim depends on reading a non-text file
as text. -/
def FData.asText : FData → String
  | .text s => s
  | .json _ => ""
  | .blob _ => ""

/-- One performed I/O action, recorded so that "performs no I/O" claims
are about actions and not merely about net state change. -/
inductive Ev where
  | statE (p : Path)
  | readE (p : Path)
  | writeE (p : Path)
  | mkdirE (p : Path)
  | removeE (p : Path)
  | moveE (src dest : Path)
  | copyE (src dest : Path)
  | listE (p : Path)
  | rmdirE (p : Path)
deriving DecidableEq, Repr

/-- Error kinds thrown by the engine (the source throws `Error` with a
message; the constructor distinguishes the spec's taxonomy). -/
inductive Err where
  | notFound (msg : String)
  | protectedPlaylist (msg : String)
  | ioFailure (msg : String)
  | parseFailure (msg : String)
deriving DecidableEq, Repr

/-- Filesystem state: files with contents, explicitly created directories,
and the trace of I/O events performed so far. -/
structure St where
  files : List (Path × FData)
  dirs : List Path
  trace : List Ev
deriving DecidableEq, Repr

/-- Record an I/O event. -/
def St.log (s : St) (e : Ev) : St :=
  { s with trace := s.trace ++ [e] }

/-- Content of the file at `p`, if a file is there. -/
def St.file? (s : St) (p : Path) : Option FData :=
  (s.files.find? (fun e => e.1 = p)).map (fun e => e.2)

/-- A file exists at `p`. -/
def St.isFile (s : St) (p : Path) : Bool :=
  (s.file? p).isSome

/-- A directory exists at `p`: explicitly created, or an ancestor of any
existing entry. -/
def St.isDir (s : St) (p : Path) : Bool :=
  s.dirs.any (fun d => p.isPrefixOf d) ||
  s.files.any (fun e => p.isPrefixOf e.1 && p ≠ e.1)

/-- `fs.pathExists`-style existence. -/
def St.existsPath (s : St) (p : Path) : Bool :=
  s.isFile p || s.isDir p

/-- Write `d` at `p`: replace the entry in place, or append when absent. -/
def setEntry : List (Path × FData) → Path → FData → List (Path × FData)
  | [], p, d => [(p, d)]
  | e :: fs, p, d => if e.1 = p then (p, d) :: fs else e :: setEntry fs p d

/-- The computation monad: explicit state passing with `Error`-style
short-circuiting, mirroring the async methods of the source. -/
def M (α : Type) : Type := St → Except Err α × St

instance : Monad M where
  pure a := fun s => (Except.ok a, s)
  bind x f := fun s =>
    match x s with
    | (Except.ok a, s') => f a s'
    | (Except.error e, s') => (Except.error e, s')

/-- JS `throw`. -/
def throwE {α : Type} (e : Err) : M α := fun s => (Except.error e, s)

/-- JS `try { x } catch { ... }`: an error is swallowed, state changes made
before it persist. -/
def attempt {α : Type} (x : M α) : M (Option α) := fun s =>
  match x s with
  | (Except.ok a, s') => (Except.ok (some a), s')
  | (Except.error _, s') => (Except.ok none, s')

/-- `fs.pathExists`. -/
def fsPathExists (p : Path) : M Bool := fun s =>
  (Except.ok (s.existsPath p), s.log (.statE p))

/-- `fs.readFile(p, "utf-8")`. -/
def fsReadFile (p : Path) : M String := fun s =>
  match s.file? p with
  | some d => (Except.ok d.asText, s.log (.readE p))
  | none => (Except.error (.ioFailure "ENOENT readFile"), s.log (.readE p))

/-- `fs.outputFile` / `fs.writeFile`: write text, creating parents
implicitly. -/
def fsOutputFile (p : Path) (c : String) : M Unit := fun s =>
  (Except.ok (),
    { files := setEntry s.files p (.text c), dirs := s.dirs,
      trace := s.trace ++ [.writeE p] })

/-- `fs.readJson` on the inventory database. -/
def fsReadJson (p : Path) : M (List Song) := fun s =>
  match s.file? p with
  | some (.json inv) => (Except.ok inv, s.log (.readE p))
  | some _ => (Except.error (.parseFailure "invalid JSON"), s.log (.readE p))
  | none => (Except.error (.ioFailure "ENOENT readJson"), s.log (.readE p))

/-- `fs.outputJson` on the inventory database (2-space indentation is a
presentation detail outside the model). -/
def fsOutputJson (p : Path) (inv : List Song) : M Unit := fun s =>
  (Except.ok (),
    { files := setEntry s.files p (.json inv), dirs := s.dirs,
      trace := s.trace ++ [.writeE p] })

/-- `fs.ensureDir`: no-op when the path exists as a directory, error when a
file is in the way, otherwise create. -/
def fsEnsureDir (p : Path) : M Unit := fun s =>
  if s.isFile p then (Except.error (.ioFailure "EEXIST ensureDir"), s.log (.mkdirE p))
  else if s.isDir p then (Except.ok (), s.log (.mkdirE p))
  else (Except.ok (),
    { files := s.files, dirs := s.dirs ++ [p], trace := s.trace ++ [.mkdirE p] })

/-- `fs.remove`: delete the entry and anything beneath it; never errors. -/
def fsRemove (p : Path) : M Unit := fun s =>
  (Except.ok (),
    { files := s.files.filter (fun e => ¬ p.isPrefixOf e.1),
      dirs := s.dirs.filter (fun d => ¬ p.isPrefixOf d),
      trace := s.trace ++ [.removeE p] })

/-- `fs.move(src, dest)` with the default `overwrite: false`: rejects when
the destination exists, errors when the source file is missing (directory
sources are outside the engine's use and modelled as I/O failures). -/
def fsMove (src dest : Path) : M Unit := fun s =>
  if s.existsPath dest then
    (Except.error (.ioFailure "dest already exists"), s.log (.moveE src dest))
  else
    match s.file? src with
    | some d =>
      (Except.ok (),
        { files := setEntry (s.files.filter (fun e => e.1 ≠ src)) dest d,
          dirs := s.dirs,
          trace := s.trace ++ [.moveE src dest] })
    | none => (Except.error (.ioFailure "ENOENT move"), s.log (.moveE src dest))

/-- `fs.copy(src, dest, { overwrite: false })`: fs-extra documents that the
copy silently does nothing when the destination exists (no `errorOnExist`). -/
def fsCopy (src dest : Path) : M Unit := fun s =>
  match s.file? src with
  | some d =>
    if s.existsPath dest then (Except.ok (), s.log (.copyE src dest))
    else
      (Except.ok (),
        { files := setEntry s.files dest d, dirs := s.dirs,
          trace := s.trace ++ [.copyE src dest] })
  | none => (Except.error (.ioFailure "ENOENT copy"), s.log (.copyE src dest))

/-- Immediate child name of `p` along entry `q`, if `q` lies beneath `p`. -/
def childName (p q : Path) : Option String :=
  if p.isPrefixOf q then (q.drop p.length).head? else none

/-- `fs.readdir`: names of the immediate children (deterministic order:
file-table order, then directory-table order, first occurrences). -/
def fsReaddir (p : Path) : M (List String) := fun s =>
  if s.isFile p then (Except.error (.ioFailure "ENOTDIR readdir"), s.log (.listE p))
  else if s.isDir p then
    (Except.ok (jsSetList
      ((s.files.map (fun e => e.1) ++ s.dirs).filterMap (childName p))),
      s.log (.listE p))
  else (Except.error (.ioFailure "ENOENT readdir"), s.log (.listE p))

/-- `fs.stat(p)` then `.isDirectory()`. -/
def fsStatIsDir (p : Path) : M Bool := fun s =>
  if s.existsPath p then (Except.ok (s.isDir p), s.log (.statE p))
  else (Except.error (.ioFailure "ENOENT stat"), s.log (.statE p))

/-- `fs.rmdir` on a directory already checked to be empty. -/
def fsRmdir (p : Path) : M Unit := fun s =>
  (Except.ok (),
    { files := s.files, dirs := s.dirs.filter (fun d => d ≠ p),
      trace := s.trace ++ [.rmdirE p] })

/-- `CONFIG.PLAYLIST_HEADER`. -/
def playlistHeader : String := "#EXTM3U\n"

/-- The reserved Master playlist name. -/
def masterName : String := "00_Master_Library"

/-- `path.join(libraryPath, "Playlists")`. -/
def playlistDirOf (libraryPath : Path) : Path := libraryPath ++ ["Playlists"]

/-- `path.join(libraryPath, "library_db.json")`. -/
def dbPathOf (libraryPath : Path) : Path := libraryPath ++ ["library_db.json"]

/-- `OrganizerService.safeMove`. -/
def safeMove (source dest : Path) : M Path := do
  let ex ← fsPathExists dest
  if ex then
    pure dest
  else do
    fsEnsureDir dest.dropLast
    fsMove source dest
    pure dest

/-- `OrganizerService.generateMasterPlaylist`. -/
def generateMasterPlaylist (inventory : List Song) (libraryPath : Path) :
    M Unit := do
  let playlistDir := playlistDirOf libraryPath
  fsEnsureDir playlistDir
  let lines := inventory.map (fun song => relStr playlistDir song.absPath)
  fsOutputFile (playlistDir ++ [masterName ++ ".m3u8"])
    (playlistHeader ++ joinNl lines)

/-- JS `Map.get(k)` on an insertion-ordered association list. -/
def mapGet (m : List (String × List String)) (k : String) :
    Option (List String) :=
  (m.find? (fun e => e.1 = k)).map (fun e => e.2)

/-- `genreMap.get(cleanG)!.push(rel)` preceded by `if (!genreMap.has(...))
genreMap.set(...)`: push `v` onto key `k`, inserting the key on first use. -/
def mapPush (m : List (String × List String)) (k v : String) :
    List (String × List String) :=
  if m.any (fun e => e.1 = k) then
    m.map (fun e => if e.1 = k then (e.1, e.2 ++ [v]) else e)
  else m ++ [(k, [v])]

/-- Like `mapPush` but the value set avoids duplicates
(`customPlaylists.get(pl)!.add(relToPl)` on a JS `Set`). -/
def mapAddSet (m : List (String × List String)) (k v : String) :
    List (String × List String) :=
  if m.any (fun e => e.1 = k) then
    m.map (fun e =>
      if e.1 = k then (e.1, if e.2.contains v then e.2 else e.2 ++ [v]) else e)
  else m ++ [(k, [v])]

/-- The genre name sanitisation `genre.replace(/[/\\?%*:|"<>]/g, "-")`. -/
def sanitizeName (s : String) : String :=
  String.mk (s.data.map fun c =>
    if c ∈ ['/', '\\', '?', '%', '*', ':', '|', '"', '<', '>'] then '-' else c)

/-- The genre map built by `generateGenrePlaylists`: trimmed genre value to
the pushed relative paths, in insertion order. -/
def genreMapOf (playlistDir : Path) (inventory : List Song) :
    List (String × List String) :=
  inventory.foldl (fun m song =>
    song.genre.foldl (fun m g =>
      mapPush m (jsTrimS g) (relStr playlistDir song.absPath)) m) []

/-- File name of the genre playlist for trimmed genre value `g`. -/
def genreFileName (g : String) : String :=
  "Genre_" ++ sanitizeName g ++ ".m3u8"

/-- The write loop of `generateGenrePlaylists`. -/
def writeGenreLoop (playlistDir : Path) :
    List (String × List String) → M Unit
  | [] => pure ()
  | (g, tracks) :: rest => do
    fsOutputFile (playlistDir ++ [genreFileName g])
      (playlistHeader ++ joinNl tracks)
    writeGenreLoop playlistDir rest

/-- `OrganizerService.generateGenrePlaylists`. -/
def generateGenrePlaylists (inventory : List Song) (libraryPath : Path) :
    M Unit := do
  let playlistDir := playlistDirOf libraryPath
  writeGenreLoop playlistDir (genreMapOf playlistDir inventory)

/-- `OrganizerService.appendCustomPlaylists`. -/
def appendCustomPlaylists (playlistDir : Path) :
    List (String × List String) → M Unit
  | [] => pure ()
  | (name, tracks) :: rest => do
    let filePath := playlistDir ++ [jsTrimS name ++ ".m3u8"]
    let ex ← fsPathExists filePath
    let existingLines ←
      if ex then do
        let content ← fsReadFile filePath
        pure ((splitNl content).filter fun l => l ≠ "" && !startsWithHash l)
      else pure []
    let allTracks := jsSetList (existingLines ++ tracks)
    fsOutputFile filePath (playlistHeader ++ joinNl allTracks)
    appendCustomPlaylists playlistDir rest

/-- The per-proposal loop of `OrganizerService.organize`: move each file,
append the remapped track to the inventory, and accumulate custom playlist
hints. -/
def orgLoop (libraryPath playlistDir : Path) :
    List ScanResult → List Song → List (String × List String) →
    M (List Song × List (String × List String))
  | [], inv, cps => pure (inv, cps)
  | item :: rest, inv, cps => do
    let finalPath ← safeMove item.file item.proposedPath
    let rel := relStr libraryPath finalPath
    let updatedSong : Song :=
      { item.metadata with absPath := finalPath, relPath := some rel }
    let relToPl := relStr playlistDir finalPath
    let cps := item.playlists.foldl (fun m pl => mapAddSet m pl relToPl) cps
    orgLoop libraryPath playlistDir rest (inv ++ [updatedSong]) cps

/-- `OrganizerService.organize`. -/
def organize (results : List ScanResult) (libraryPath : Path) : M Unit := do
  fsEnsureDir libraryPath
  let playlistDir := playlistDirOf libraryPath
  fsEnsureDir playlistDir
  let dbPath := dbPathOf libraryPath
  let exDb ← fsPathExists dbPath
  let inv0 ← if exDb then fsReadJson dbPath else pure []
  let (inventory, customPlaylists) ←
    orgLoop libraryPath playlistDir results inv0 []
  fsOutputJson dbPath inventory
  generateMasterPlaylist inventory libraryPath
  generateGenrePlaylists inventory libraryPath
  appendCustomPlaylists playlistDir customPlaylists

/-- The remapped inventory entry `organize` records for one proposal:
`safeMove` always returns the proposed destination, so the new song is the
proposal's metadata with the proposed path and its library-relative
form. -/
def updatedSongOf (libraryPath : Path) (item : ScanResult) : Song :=
  { item.metadata with
    absPath := item.proposedPath
    relPath := some (relStr libraryPath item.proposedPath) }

/-- `OrganizerService.addToPlaylist`. -/
def addToPlaylist (name : String) (tracks : List Path) (libraryPath : Path) :
    M Unit := do
  let playlistDir := playlistDirOf libraryPath
  fsEnsureDir playlistDir
  let filePath := playlistDir ++ [jsTrimS name ++ ".m3u8"]
  let ex ← fsPathExists filePath
  let existingLines ←
    if ex then do
      let content ← fsReadFile filePath
      pure ((splitNl content).filter fun l => l ≠ "" && !startsWithHash l)
    else pure []
  let newRelativePaths := tracks.map (fun trackPath => relStr playlistDir trackPath)
  let allTracks := jsSetList (existingLines ++ newRelativePaths)
  fsOutputFile filePath (playlistHeader ++ joinNl allTracks)

/-- `OrganizerService.removeFromPlaylist`.  Note that when the primary
`.m3u8` is absent the source throws `NotFound` on both sides of the legacy
`.m3u` existence check. -/
def removeFromPlaylist (name : String) (trackPath : Path)
    (libraryPath : Path) : M Unit := do
  if jsIncludes name masterName then
    throwE (.protectedPlaylist "Cannot modify the Master Library playlist")
  else do
    let playlistDir := playlistDirOf libraryPath
    let filePath := playlistDir ++ [name ++ ".m3u8"]
    let ex ← fsPathExists filePath
    if !ex then do
      let legacyPath := playlistDir ++ [name ++ ".m3u"]
      let exL ← fsPathExists legacyPath
      if exL then throwE (.notFound ("Playlist " ++ name ++ " not found"))
      else throwE (.notFound ("Playlist " ++ name ++ " not found"))
    else do
      let content ← fsReadFile filePath
      let lines := (splitNl content).filter fun l =>
        jsTrimS l ≠ "" && !startsWithHash l
      let relPathToRemove := relStr playlistDir trackPath
      let newLines := lines.filter fun line =>
        ¬ (slashify (jsTrimS line) = slashify relPathToRemove)
      fsOutputFile filePath (playlistHeader ++ joinNl newLines)

/-- `OrganizerService.deletePlaylist`. -/
def deletePlaylist (name : String) (libraryPath : Path) : M Unit := do
  if jsIncludes name masterName then
    throwE (.protectedPlaylist "Cannot delete the Master Library playlist")
  else do
    let playlistDir := playlistDirOf libraryPath
    let filePath := playlistDir ++ [name ++ ".m3u8"]
    let ex ← fsPathExists filePath
    if ex then fsRemove filePath
    else do
      let legacyPath := playlistDir ++ [name ++ ".m3u"]
      let exL ← fsPathExists legacyPath
      if exL then fsRemove legacyPath
      else throwE (.notFound ("Playlist " ++ name ++ " not found"))

/-- Result row of `listPlaylists`. -/
structure PlaylistInfo where
  name : String
  count : Nat
  path : Path
deriving DecidableEq, Repr

/-- The file loop of `listPlaylists`. -/
def listLoop (playlistDir : Path) : List String → M (List PlaylistInfo)
  | [] => pure []
  | file :: rest => do
    if jsIncludes file masterName then listLoop playlistDir rest
    else if endsWithS file ".m3u8" || endsWithS file ".m3u" then do
      let filePath := playlistDir ++ [file]
      let content ← fsReadFile filePath
      let lineCount := ((splitNl content).filter fun l =>
        jsTrimS l ≠ "" && !startsWithHash l).length
      let others ← listLoop playlistDir rest
      pure ({ name := parseName file, count := lineCount, path := filePath } :: others)
    else listLoop playlistDir rest

/-- `OrganizerService.listPlaylists`. -/
def listPlaylists (libraryPath : Path) : M (List PlaylistInfo) := do
  let playlistDir := playlistDirOf libraryPath
  let ex ← fsPathExists playlistDir
  if !ex then pure []
  else do
    let files ← fsReaddir playlistDir
    listLoop playlistDir files

/-- Inventory lookup map of `getPlaylistDetails`: `Map.set` keyed by
`path.resolve(song.absPath)` (canonical already), later entries winning. -/
def invLookup (inventory : List Song) (p : Path) : Option Song :=
  inventory.reverse.find? (fun song => song.absPath = p)

/-- `OrganizerService.getPlaylistDetails`. -/
def getPlaylistDetails (name : String) (libraryPath : Path) :
    M (List Song) := do
  let playlistDir := playlistDirOf libraryPath
  let dbPath := dbPathOf libraryPath
  let primary := playlistDir ++ [name ++ ".m3u8"]
  let exP ← fsPathExists primary
  let filePath ←
    if exP then pure primary
    else do
      let legacy := playlistDir ++ [name ++ ".m3u"]
      let exL ← fsPathExists legacy
      if exL then pure legacy
      else throwE (.notFound ("Playlist " ++ name ++ " not found"))
  let exDb ← fsPathExists dbPath
  let inventory ← if exDb then fsReadJson dbPath else pure []
  let content ← fsReadFile filePath
  let lines := (splitNl content).filter fun l =>
    jsTrimS l ≠ "" && !startsWithHash l
  pure (lines.map fun line =>
    let absP := resolveAt playlistDir (jsTrimS line)
    match invLookup inventory absP with
    | some metadata => metadata
    | none =>
      { title := parseName (basenameOf absP), artist := "Unknown",
        album := "Unknown", year := none, trackNo := "00", genre := [],
        format := extnameOf (basenameOf absP), absPath := absP,
        relPath := none })

/-- Transfer mode of the export engine. -/
inductive Mode where
  | copy
  | move
deriving DecidableEq, Repr

/-- Mutual recursion of `cleanupEmptyDirs` over the directory tree, made
terminating with explicit fuel (one unit per tree level); the engine always
supplies enough fuel. -/
def cleanupGo : Nat → Path → M Unit
  | 0, _ => pure ()
  | Nat.succ fuel, startDir => do
    let ex ← fsPathExists startDir
    if !ex then pure ()
    else do
      let files ← fsReaddir startDir
      if files.length > 0 then
        files.foldlM (fun _ f => do
          let fullPath := startDir ++ [f]
          let isD ← fsStatIsDir fullPath
          if isD then cleanupGo fuel fullPath else pure ()) ()
      else pure ()
      let remaining ← fsReaddir startDir
      if remaining.length = 0 then fsRmdir startDir else pure ()

/-- Fuel bound: deeper than any entry of the state. -/
def St.depth (s : St) : Nat :=
  ((s.files.map (fun e => e.1.length) ++ s.dirs.map List.length).foldl
    Nat.max 0) + 1

/-- `OrganizerService.cleanupEmptyDirs`. -/
def cleanupEmptyDirs (startDir : Path) : M Unit := fun s =>
  cleanupGo (s.depth) startDir s

/-- The destination path computed per track by the export loops: the
library-relative structure under `destination` when `preserveStructure` is
set and the track has a non-empty `relPath` (JS truthiness), otherwise the
flat base name. -/
def destOf (destination : Path) (preserveStructure : Bool) (track : Song) :
    Path :=
  match preserveStructure, track.relPath with
  | true, some rp =>
    if rp = "" then destination ++ [basenameOf track.absPath]
    else joinNorm destination rp
  | true, none => destination ++ [basenameOf track.absPath]
  | false, _ => destination ++ [basenameOf track.absPath]

/-- Outcome of one export-loop iteration body (before the `catch`). -/
inductive ItemRes where
  | missing
  | done (movedFrom : Option Path)
deriving DecidableEq, Repr

/-- Body of one iteration of the export loops (`exportPlaylist` and
`exportLibrary` share it verbatim). -/
def expItem (destination : Path) (mode : Mode) (preserveStructure : Bool)
    (track : Song) : M ItemRes := do
  let ex ← fsPathExists track.absPath
  if !ex then pure .missing
  else do
    let destPath := destOf destination preserveStructure track
    fsEnsureDir destPath.dropLast
    if mode = .copy then do
      fsCopy track.absPath destPath
      pure (.done none)
    else do
      fsMove track.absPath destPath
      pure (.done (some track.absPath))

/-- The export loop: per-track `try/catch`, counting successes and
failures and collecting `tracksToRemove`. -/
def expLoop (destination : Path) (mode : Mode) (preserveStructure : Bool) :
    List Song → Nat × Nat × List Path → M (Nat × Nat × List Path)
  | [], acc => pure acc
  | track :: rest, (succ, fail, moved) => do
    let r ← attempt (expItem destination mode preserveStructure track)
    match r with
    | some .missing =>
      expLoop destination mode preserveStructure rest (succ, fail + 1, moved)
    | some (.done mp) =>
      expLoop destination mode preserveStructure rest
        (succ + 1, fail, moved ++ mp.toList)
    | none =>
      expLoop destination mode preserveStructure rest (succ, fail + 1, moved)

/-- `OrganizerService.exportPlaylist`; the JS result object
`{ SuccessCount, FailCount }` is the pair. -/
def exportPlaylist (name : String) (destination : Path) (mode : Mode)
    (preserveStructure : Bool) (libraryPath : Path) : M (Nat × Nat) := do
  if jsIncludes name masterName then
    throwE (.protectedPlaylist "Cannot export/move the Master Library playlist")
  else do
    let dbPath := dbPathOf libraryPath
    let tracks ← getPlaylistDetails name libraryPath
    fsEnsureDir destination
    let (succ, fail, moved) ←
      expLoop destination mode preserveStructure tracks (0, 0, [])
    if mode = .move ∧ moved ≠ [] then do
      let exDb ← fsPathExists dbPath
      if exDb then do
        let inventory ← fsReadJson dbPath
        let inv2 := inventory.filter (fun song => !moved.contains song.absPath)
        if inv2.length ≠ inventory.length then do
          fsOutputJson dbPath inv2
          generateMasterPlaylist inv2 libraryPath
          generateGenrePlaylists inv2 libraryPath
        else pure ()
      else pure ()
      deletePlaylist name libraryPath
      cleanupEmptyDirs libraryPath
      pure (succ, fail)
    else pure (succ, fail)

/-- The per-playlist scan loop of `getPlaylistsForTrack`. -/
def pftLoop (playlistDir : Path) (relPathToCheck : String) :
    List String → M (List String)
  | [] => pure []
  | file :: rest => do
    if endsWithS file ".m3u8" || endsWithS file ".m3u" then do
      let playlistName := parseName file
      if startsWithS playlistName "00_Master" || startsWithS playlistName "Genre_" then
        pftLoop playlistDir relPathToCheck rest
      else do
        let content ← fsReadFile (playlistDir ++ [file])
        let lines := (splitNl content).filter fun l =>
          jsTrimS l ≠ "" && !startsWithHash l
        let hit := lines.any fun line =>
          slashify (jsTrimS line) = slashify relPathToCheck
        let others ← pftLoop playlistDir relPathToCheck rest
        pure (if hit then playlistName :: others else others)
    else pftLoop playlistDir relPathToCheck rest

/-- `OrganizerService.getPlaylistsForTrack`. -/
def getPlaylistsForTrack (trackPath : Path) (libraryPath : Path) :
    M (List String) := do
  let playlistDir := playlistDirOf libraryPath
  let ex ← fsPathExists playlistDir
  if !ex then pure []
  else do
    let files ← fsReaddir playlistDir
    pftLoop playlistDir (relStr playlistDir trackPath) files

/-- The file-name filter of the `exportLibrary` sweep: a recognised
playlist extension, and neither the `00_Master` nor the `Genre_` prefix.
Note the Master check is a *prefix* check on the file name, not an
equality with the Master name. -/
def sweepCond (file : String) : Bool :=
  (endsWithS file ".m3u8" || endsWithS file ".m3u") &&
    !startsWithS file "00_Master" && !startsWithS file "Genre_"

/-- The line filter of the `exportLibrary` sweep: keep comment lines,
blank lines, and lines whose joined absolute path was not moved. -/
def sweepKeep (playlistDir : Path) (moved : List Path) (line : String) :
    Bool :=
  startsWithHash line || jsTrimS line = "" ||
    !moved.contains (joinNorm playlistDir (jsTrimS line))

/-- The content the sweep writes back for a file previously holding `c`. -/
def sweepContent (playlistDir : Path) (moved : List Path) (c : String) :
    String :=
  joinNl ((splitNl c).filter (sweepKeep playlistDir moved))

/-- The custom-playlist reconciliation sweep of `exportLibrary` (move
mode): rewrite every playlist file passing `sweepCond` dropping lines
whose joined absolute path was moved; header and blank lines survive. -/
def sweepLoop (playlistDir : Path) (moved : List Path) :
    List String → M Unit
  | [] => pure ()
  | file :: rest => do
    if sweepCond file then do
      let playlistPath := playlistDir ++ [file]
      let content ← fsReadFile playlistPath
      fsOutputFile playlistPath (sweepContent playlistDir moved content)
      sweepLoop playlistDir moved rest
    else sweepLoop playlistDir moved rest

/-- `OrganizerService.exportLibrary`. -/
def exportLibrary (destination : Path) (mode : Mode)
    (preserveStructure : Bool) (libraryPath : Path) : M (Nat × Nat) := do
  let dbPath := dbPathOf libraryPath
  let exDb ← fsPathExists dbPath
  if !exDb then throwE (.notFound "Library database not found")
  else do
    let inventory ← fsReadJson dbPath
    fsEnsureDir destination
    let (succ, fail, moved) ←
      expLoop destination mode preserveStructure inventory (0, 0, [])
    if mode = .move ∧ moved ≠ [] then do
      let updatedInventory :=
        inventory.filter (fun song => !moved.contains song.absPath)
      fsOutputJson dbPath updatedInventory
      generateMasterPlaylist updatedInventory libraryPath
      generateGenrePlaylists updatedInventory libraryPath
      let playlistDir := playlistDirOf libraryPath
      let exPl ← fsPathExists playlistDir
      if exPl then do
        let files ← fsReaddir playlistDir
        sweepLoop playlistDir moved files
        pure (succ, fail)
      else pure (succ, fail)
    else pure (succ, fail)

/-- The entry lines of a playlist file as read by `removeFromPlaylist`,
`getPlaylistDetails`, `listPlaylists` and `getPlaylistsForTrack`: non-blank
(after trim) lines that do not start with a hash. -/
def playlistEntryLines (c : String) : List String :=
  (splitNl c).filter fun l => jsTrimS l ≠ "" && !startsWithHash l

/-- The lines `addToPlaylist` (and `appendCustomPlaylists`) treats as
already present: non-empty lines not starting with a hash (note: no trim
here, unlike the readers). -/
def addEntryLines (c : String) : List String :=
  (splitNl c).filter fun l => l ≠ "" && !startsWithHash l

/-- The content `removeFromPlaylist` writes back: the canonical header plus
the surviving entry lines (those whose normalised form differs from the
normalised relative path of the track being removed). -/
def removeResultContent (playlistDir track : Path) (c : String) : String :=
  playlistHeader ++ joinNl ((playlistEntryLines c).filter fun line =>
    ¬ (slashify (jsTrimS line) = slashify (relStr playlistDir track)))

/-- Frame property: a computation never changes or removes an existing
file's content (it may create new files). -/
def PreservesFiles {α : Type} (m : M α) : Prop :=
  ∀ s q d, s.file? q = some d → ((m s).2).file? q = some d

/-! ### Concrete library states used by witnesses and counterexamples -/

/-- A sample inventory track with one genre. -/
def tJazz : Song :=
  { title := "t", artist := "A", album := "Al", year := none, trackNo := "01",
    genre := ["Jazz"], format := ".mp3",
    absPath := ["lib", "A", "Al", "01 - t.mp3"],
    relPath := some "A/Al/01 - t.mp3" }

/-- An empty library root with no Playlists directory. -/
def stNoPl : St := { files := [], dirs := [["lib"]], trace := [] }

/-- A state with one track file outside any playlist. -/
def stC8 : St :=
  { files := [(["inbox", "s.mp3"], .blob 1), (["lib", "A", "x.mp3"], .blob 2)],
    dirs := [["lib"]], trace := [] }

/-- A proposal whose source file is missing. -/
def scanGone : ScanResult :=
  { file := ["inbox", "gone.mp3"], metadata := tJazz,
    proposedPath := ["lib", "A", "Al", "01 - t.flac"], playlists := [] }

/-- A proposal whose source file exists. -/
def scanThere : ScanResult :=
  { file := ["inbox", "there.mp3"], metadata := tJazz,
    proposedPath := ["lib", "B", "Bl", "02 - u.mp3"], playlists := [] }

/-- A state holding only the second proposal's source file. -/
def stC1 : St :=
  { files := [(["inbox", "there.mp3"], .blob 2)], dirs := [["lib"]],
    trace := [] }

/-- A library with one custom playlist file in the primary extension. -/
def stPlFoo : St :=
  { files := [(["lib", "Playlists", "Foo.m3u8"],
      .text "#EXTM3U\n../a.mp3\n../b.mp3")],
    dirs := [["lib", "Playlists"]], trace := [] }

/-- A library whose only playlist file carries the legacy extension. -/
def stPlLegacy : St :=
  { files := [(["lib", "Playlists", "Foo.m3u"], .text "#EXTM3U\n../x.mp3")],
    dirs := [["lib", "Playlists"]], trace := [] }

/-- A library with one track whose flat-export destination already holds a
different file. -/
def stC7 : St :=
  { files := [(["lib", "library_db.json"], .json [tJazz]),
      (["lib", "A", "Al", "01 - t.mp3"], .blob 1),
      (["dst", "01 - t.mp3"], .blob 9)],
    dirs := [["lib"]], trace := [] }

/-- A playlist file holding an extended-info comment line between the
header and the entries. -/
def stPlMessy : St :=
  { files := [(["lib", "Playlists", "P.m3u8"],
      .text "#EXTM3U\n#EXTINF:1,x\n../a.mp3")],
    dirs := [["lib", "Playlists"]], trace := [] }

/-- A second sample track, with a different genre, whose audio file will
be missing at export time. -/
def tRock : Song :=
  { title := "r", artist := "R", album := "Rl", year := none, trackNo := "02",
    genre := ["Rock"], format := ".mp3",
    absPath := ["lib", "R", "r.mp3"],
    relPath := some "R/r.mp3" }

/-- A proposal whose source file exists and that carries a custom playlist
hint. -/
def scanRoad : ScanResult :=
  { file := ["inbox", "there.mp3"], metadata := tJazz,
    proposedPath := ["lib", "B", "Bl", "02 - u.mp3"], playlists := ["Road"] }

/-- A library whose Playlists directory holds a custom playlist named
`00_Masterpieces` (not the Master name, no `Genre_` prefix) and a second
custom playlist `Mine`, both pointing at the inventory's only track. -/
def stC6 : St :=
  { files := [(["lib", "library_db.json"], .json [tJazz]),
      (["lib", "A", "Al", "01 - t.mp3"], .blob 1),
      (["lib", "Playlists", "00_Masterpieces.m3u8"],
        .text "#EXTM3U\n../A/Al/01 - t.mp3"),
      (["lib", "Playlists", "Mine.m3u8"],
        .text "#EXTM3U\n../A/Al/01 - t.mp3")],
    dirs := [["lib", "Playlists"]], trace := [] }

/-- A library holding a previously generated genre playlist for the only
track's genre. -/
def stC2x : St :=
  { files := [(["lib", "library_db.json"], .json [tJazz]),
      (["lib", "A", "Al", "01 - t.mp3"], .blob 1),
      (["lib", "Playlists", "Genre_Jazz.m3u8"],
        .text "#EXTM3U\n../A/Al/01 - t.mp3")],
    dirs := [["lib", "Playlists"]], trace := [] }

/-- An organise-ready library: an empty inventory database and the source
file of one proposal. -/
def stC2o : St :=
  { files := [(["lib", "library_db.json"], .json []),
      (["inbox", "there.mp3"], .blob 2)],
    dirs := [["lib"]], trace := [] }

/-- An export-ready library with two inventoried tracks, only the first of
which still has its audio file. -/
def stC2e : St :=
  { files := [(["lib", "library_db.json"], .json [tJazz, tRock]),
      (["lib", "A", "Al", "01 - t.mp3"], .blob 1)],
    dirs := [["lib", "Playlists"]], trace := [] }

/-! ### Proof toolkit -/

theorem bind_apply {α β : Type} (x : M α) (f : α → M β) (s : St) :
    (x >>= f) s =
      match x s with
      | (Except.ok a, s') => f a s'
      | (Except.error e, s') => (Except.error e, s') := rfl

theorem pure_apply {α : Type} (a : α) (s : St) :
    (pure a : M α) s = (Except.ok a, s) := rfl

@[simp] theorem log_files (s : St) (e : Ev) : (s.log e).files = s.files := rfl

@[simp] theorem log_dirs (s : St) (e : Ev) : (s.log e).dirs = s.dirs := rfl

@[simp] theorem file?_log (s : St) (e : Ev) (p : Path) :
    (s.log e).file? p = s.file? p := rfl

@[simp] theorem isFile_log (s : St) (e : Ev) (p : Path) :
    (s.log e).isFile p = s.isFile p := rfl

@[simp] theorem isDir_log (s : St) (e : Ev) (p : Path) :
    (s.log e).isDir p = s.isDir p := rfl

@[simp] theorem existsPath_log (s : St) (e : Ev) (p : Path) :
    (s.log e).existsPath p = s.existsPath p := rfl

theorem existsPath_false_parts {s : St} {p : Path}
    (h : s.existsPath p = false) : s.isFile p = false ∧ s.isDir p = false := by
  have := h
  simp only [St.existsPath, Bool.or_eq_false_iff] at this
  exact this

theorem isFile_existsPath {s : St} {p : Path} (h : s.isFile p = true) :
    s.existsPath p = true := by
  simp [St.existsPath, h]

theorem find?_setEntry (fs : List (Path × FData)) (p q : Path) (d : FData) :
    (setEntry fs p d).find? (fun e => e.1 = q) =
      if p = q then some (p, d) else fs.find? (fun e => e.1 = q) := by
  induction fs with
  | nil =>
    by_cases h : p = q <;> simp [setEntry, List.find?, h]
  | cons e fs ih =>
    by_cases he : e.1 = p
    · by_cases hq : p = q
      · simp [setEntry, he, hq, List.find?]
      · have hne : ¬ (e.1 = q) := fun h => hq (he ▸ h)
        simp [setEntry, he, hq, List.find?, hne]
    · by_cases hq : e.1 = q
      · have hnp : ¬ (p = q) := fun h => he (h ▸ hq)
        have hqp : ¬ (q = p) := fun h => hnp h.symm
        simp [setEntry, he, hq, List.find?, hnp, hqp]
      · simp [setEntry, he, hq, List.find?, ih]

theorem file?_mk (files : List (Path × FData)) (dirs : List Path)
    (tr : List Ev) (q : Path) :
    (St.mk files dirs tr).file? q =
      (files.find? (fun e => e.1 = q)).map (fun e => e.2) := rfl

theorem find?_filter_ne (fs : List (Path × FData)) (p : Path) :
    (fs.filter (fun e => e.1 ≠ p)).find? (fun e => e.1 = p) = none := by
  rw [List.find?_eq_none]
  intro a ha
  have := List.of_mem_filter ha
  simpa using this

/-! ### Claim theorems -/

/-- C10: for a library root whose Playlists directory does not exist,
`listPlaylists` and `getPlaylistsForTrack` both return the empty list
(`Except.ok []`) instead of failing with a NotFound error. -/
theorem claim_C10 (lib track : Path) (s : St)
    (h : s.existsPath (playlistDirOf lib) = false) :
    (listPlaylists lib s).1 = Except.ok [] ∧
    (getPlaylistsForTrack track lib s).1 = Except.ok [] := by
  constructor
  · simp [listPlaylists, bind_apply, fsPathExists, h, pure_apply]
  · simp [getPlaylistsForTrack, bind_apply, fsPathExists, h, pure_apply]

/-- C10 witness: on a concrete library with no Playlists directory both
operations return the empty list. -/
theorem claim_C10_witness :
    (listPlaylists ["lib"] stNoPl).1 = Except.ok [] ∧
    (getPlaylistsForTrack ["lib", "x.mp3"] ["lib"] stNoPl).1 = Except.ok [] :=
  claim_C10 ["lib"] ["lib", "x.mp3"] stNoPl (by decide)

/-- C4: `removeFromPlaylist`, `deletePlaylist` and the export/transfer
operation, called on the reserved Master name, each fail with the
ProtectedPlaylist error and leave the state — including the I/O event
trace — untouched, i.e. they perform no I/O. -/
theorem claim_C4 (lib track dest : Path) (mode : Mode) (ps : Bool) (s : St) :
    removeFromPlaylist masterName track lib s =
      (Except.error (Err.protectedPlaylist
        "Cannot modify the Master Library playlist"), s) ∧
    deletePlaylist masterName lib s =
      (Except.error (Err.protectedPlaylist
        "Cannot delete the Master Library playlist"), s) ∧
    exportPlaylist masterName dest mode ps lib s =
      (Except.error (Err.protectedPlaylist
        "Cannot export/move the Master Library playlist"), s) := by
  refine ⟨?_, ?_, ?_⟩ <;> rfl

/-- C8: when the source is an existing file (and the destination parent is
not blocked by a file, the destination being a proper path), `safeMove`
returns the destination; if anything already exists at the destination the
file table and directory table are untouched (the existing destination
wins, nothing is moved or overwritten); otherwise the destination's parent
directory exists afterwards, the source's content now lives at the
destination, and the source entry is gone. -/
theorem claim_C8 (src dest : Path) (s : St)
    (hsrc : s.isFile src = true) (hpar : s.isFile dest.dropLast = false)
    (hne : dest ≠ []) :
    (safeMove src dest s).1 = Except.ok dest ∧
    (s.existsPath dest = true →
      (safeMove src dest s).2.files = s.files ∧
      (safeMove src dest s).2.dirs = s.dirs) ∧
    (s.existsPath dest = false →
      (safeMove src dest s).2.file? dest = s.file? src ∧
      (safeMove src dest s).2.file? src = none ∧
      (safeMove src dest s).2.isDir dest.dropLast = true) := by
  obtain ⟨d, hd⟩ : ∃ d, s.file? src = some d := by
    cases hfd : s.file? src with
    | none => rw [St.isFile, hfd] at hsrc; simp at hsrc
    | some d => exact ⟨d, rfl⟩
  cases hex : s.existsPath dest with
  | true =>
    have hsm : safeMove src dest s = (Except.ok dest, s.log (.statE dest)) := by
      simp [safeMove, bind_apply, fsPathExists, hex, pure_apply]
    refine ⟨by rw [hsm], fun _ => by rw [hsm]; exact ⟨rfl, rfl⟩,
      fun h => by simp at h⟩
  | false =>
    have hns : src ≠ dest := by
      intro h
      rw [h] at hsrc
      rw [isFile_existsPath hsrc] at hex
      cases hex
    have hlt : dest.dropLast.length < dest.length := by
      cases dest with
      | nil => exact absurd rfl hne
      | cons a l => simp
    have hnd : dest.isPrefixOf dest.dropLast = false := by
      cases hpf : dest.isPrefixOf dest.dropLast with
      | false => rfl
      | true =>
        have hpre := List.isPrefixOf_iff_prefix.mp hpf
        have hlen := hpre.length_le
        omega
    have hdne : dest.dropLast ≠ dest := fun h => by rw [h] at hlt; omega
    have hdf := existsPath_false_parts hex
    have hdirparts :
        s.dirs.any (fun dd => dest.isPrefixOf dd) = false ∧
        s.files.any (fun e => dest.isPrefixOf e.1 && dest ≠ e.1) = false := by
      have := hdf.2
      rw [St.isDir, Bool.or_eq_false_iff] at this
      exact this
    -- trace-independent restatements of the hypotheses, so that they can
    -- rewrite intermediate states regardless of the accumulated event log
    have hexS : ∀ tr : List Ev,
        (St.mk s.files s.dirs tr).existsPath dest = false := fun _ => hex
    have hparS : ∀ (dd : List Path) (tr : List Ev),
        (St.mk s.files dd tr).isFile dest.dropLast = false := fun _ _ => hpar
    have hfileS : ∀ (dd : List Path) (tr : List Ev),
        (St.mk s.files dd tr).file? src = some d := fun _ _ => hd
    have hexS2 : ∀ tr : List Ev,
        (St.mk s.files (s.dirs ++ [dest.dropLast]) tr).existsPath dest =
          false := by
      intro tr
      rw [St.existsPath, St.isFile, Bool.or_eq_false_iff]
      refine ⟨?_, ?_⟩
      · show ((s.files.find? (fun e => e.1 = dest)).map (fun e => e.2)).isSome = false
        have := hdf.1
        rw [St.isFile, St.file?] at this
        exact this
      · rw [St.isDir]
        simp only [List.any_append, List.any_cons, List.any_nil,
          Bool.or_false, Bool.or_eq_false_iff]
        exact ⟨⟨hdirparts.1, hnd⟩, hdirparts.2⟩
    -- compute the result in each ensureDir branch
    have hrun : (safeMove src dest s).1 = Except.ok dest ∧
        (safeMove src dest s).2.files =
          setEntry (s.files.filter (fun e => e.1 ≠ src)) dest d ∧
        ∃ tr2, (safeMove src dest s).2 =
          St.mk (setEntry (s.files.filter (fun e => e.1 ≠ src)) dest d)
            (safeMove src dest s).2.dirs tr2 := by
      cases hdir : s.isDir dest.dropLast with
      | true =>
        have hdirS : ∀ tr : List Ev,
            (St.mk s.files s.dirs tr).isDir dest.dropLast = true := fun _ => hdir
        have hstep : safeMove src dest s =
            (Except.ok dest,
              St.mk (setEntry (s.files.filter (fun e => e.1 ≠ src)) dest d)
                s.dirs
                (s.trace ++ [.statE dest] ++ [.mkdirE dest.dropLast] ++
                  [.moveE src dest])) := by
          simp [safeMove, bind_apply, fsPathExists, fsEnsureDir, fsMove,
            St.log, pure_apply, hexS, hparS, hdirS, hfileS]
        rw [hstep]
        exact ⟨rfl, rfl, _, rfl⟩
      | false =>
        have hdirS : ∀ tr : List Ev,
            (St.mk s.files s.dirs tr).isDir dest.dropLast = false :=
          fun _ => hdir
        have hstep : safeMove src dest s =
            (Except.ok dest,
              St.mk (setEntry (s.files.filter (fun e => e.1 ≠ src)) dest d)
                (s.dirs ++ [dest.dropLast])
                (s.trace ++ [.statE dest] ++ [.mkdirE dest.dropLast] ++
                  [.moveE src dest])) := by
          simp [safeMove, bind_apply, fsPathExists, fsEnsureDir, fsMove,
            St.log, pure_apply, hexS, hexS2, hparS, hdirS, hfileS]
        rw [hstep]
        exact ⟨rfl, rfl, _, rfl⟩
    refine ⟨hrun.1, fun h => by simp at h, fun _ => ⟨?_, ?_, ?_⟩⟩
    · rw [St.file?, hrun.2.1, find?_setEntry]
      simp [hd]
    · rw [St.file?, hrun.2.1, find?_setEntry]
      simp only [if_neg (Ne.symm hns), find?_filter_ne, Option.map_none']
    · obtain ⟨tr2, hst⟩ := hrun.2.2
      rw [hst, St.isDir]
      have hmem : (dest, d) ∈ setEntry (s.files.filter (fun e => e.1 ≠ src)) dest d := by
        have := find?_setEntry (s.files.filter (fun e => e.1 ≠ src)) dest dest d
        rw [if_pos rfl] at this
        exact List.mem_of_find?_eq_some this
      have : (setEntry (s.files.filter (fun e => e.1 ≠ src)) dest d).any
          (fun e => dest.dropLast.isPrefixOf e.1 && dest.dropLast ≠ e.1) = true := by
        rw [List.any_eq_true]
        refine ⟨(dest, d), hmem, ?_⟩
        simp only [Bool.and_eq_true, decide_eq_true_eq]
        exact ⟨List.isPrefixOf_iff_prefix.mpr (List.dropLast_prefix dest), hdne⟩
      rw [this, Bool.or_true]

/-- C8 witness: a concrete relocation into a fresh destination succeeds
and lands the source's content at the destination. -/
theorem claim_C8_witness :
    (safeMove ["inbox", "s.mp3"] ["lib", "B", "y.mp3"] stC8).1 =
      Except.ok ["lib", "B", "y.mp3"] ∧
    (safeMove ["inbox", "s.mp3"] ["lib", "B", "y.mp3"] stC8).2.file?
        ["lib", "B", "y.mp3"] = stC8.file? ["inbox", "s.mp3"] :=
  ⟨(claim_C8 ["inbox", "s.mp3"] ["lib", "B", "y.mp3"] stC8 (by decide)
      (by decide) (by decide)).1,
   ((claim_C8 ["inbox", "s.mp3"] ["lib", "B", "y.mp3"] stC8 (by decide)
      (by decide) (by decide)).2.2 (by decide)).1⟩

/-- Characterisation of a successful `removeFromPlaylist` run: primary
file present with data `d`. -/
theorem removeFromPlaylist_ok_run (name : String) (track lib : Path)
    (s : St) (d : FData)
    (hnm : jsIncludes name masterName = false)
    (hf : s.file? (playlistDirOf lib ++ [name ++ ".m3u8"]) = some d) :
    removeFromPlaylist name track lib s =
      (Except.ok (), St.mk
        (setEntry s.files (playlistDirOf lib ++ [name ++ ".m3u8"])
          (.text (removeResultContent (playlistDirOf lib) track d.asText)))
        s.dirs
        (s.trace ++ [Ev.statE (playlistDirOf lib ++ [name ++ ".m3u8"])] ++
          [Ev.readE (playlistDirOf lib ++ [name ++ ".m3u8"])] ++
          [Ev.writeE (playlistDirOf lib ++ [name ++ ".m3u8"])])) := by
  have hfS : ∀ tr : List Ev,
      (St.mk s.files s.dirs tr).file? (playlistDirOf lib ++ [name ++ ".m3u8"]) =
        some d := fun _ => hf
  have hext : s.existsPath (playlistDirOf lib ++ [name ++ ".m3u8"]) = true := by
    apply isFile_existsPath
    rw [St.isFile, hf]
    rfl
  have hextS : ∀ tr : List Ev,
      (St.mk s.files s.dirs tr).existsPath
        (playlistDirOf lib ++ [name ++ ".m3u8"]) = true := fun _ => hext
  simp [removeFromPlaylist, bind_apply, fsPathExists, fsReadFile,
    fsOutputFile, throwE, St.log, pure_apply, hnm, hextS, hfS,
    removeResultContent, playlistEntryLines]

/-- Characterisation of `removeFromPlaylist` when the primary file is
absent: NotFound, whether or not the legacy file exists. -/
theorem removeFromPlaylist_notFound_run (name : String) (track lib : Path)
    (s : St)
    (hnm : jsIncludes name masterName = false)
    (hnp : s.existsPath (playlistDirOf lib ++ [name ++ ".m3u8"]) = false) :
    removeFromPlaylist name track lib s =
      (Except.error (Err.notFound ("Playlist " ++ name ++ " not found")),
        St.mk s.files s.dirs
          (s.trace ++ [Ev.statE (playlistDirOf lib ++ [name ++ ".m3u8"])] ++
            [Ev.statE (playlistDirOf lib ++ [name ++ ".m3u"])])) := by
  have hnpS : ∀ tr : List Ev,
      (St.mk s.files s.dirs tr).existsPath
        (playlistDirOf lib ++ [name ++ ".m3u8"]) = false := fun _ => hnp
  cases hleg : s.existsPath (playlistDirOf lib ++ [name ++ ".m3u"]) with
  | true =>
    have hlegS : ∀ tr : List Ev,
        (St.mk s.files s.dirs tr).existsPath
          (playlistDirOf lib ++ [name ++ ".m3u"]) = true := fun _ => hleg
    simp [removeFromPlaylist, bind_apply, fsPathExists, throwE, St.log,
      pure_apply, hnm, hnpS, hlegS]
  | false =>
    have hlegS : ∀ tr : List Ev,
        (St.mk s.files s.dirs tr).existsPath
          (playlistDirOf lib ++ [name ++ ".m3u"]) = false := fun _ => hleg
    simp [removeFromPlaylist, bind_apply, fsPathExists, throwE, St.log,
      pure_apply, hnm, hnpS, hlegS]

/-- Characterisation of `removeFromPlaylist` when something exists at the
primary path but no file is there (a directory): an I/O failure from the
read, not a NotFound. -/
theorem removeFromPlaylist_dir_run (name : String) (track lib : Path)
    (s : St)
    (hnm : jsIncludes name masterName = false)
    (hex : s.existsPath (playlistDirOf lib ++ [name ++ ".m3u8"]) = true)
    (hnone : s.file? (playlistDirOf lib ++ [name ++ ".m3u8"]) = none) :
    (removeFromPlaylist name track lib s).1 =
      Except.error (Err.ioFailure "ENOENT readFile") := by
  have hexS : ∀ tr : List Ev,
      (St.mk s.files s.dirs tr).existsPath
        (playlistDirOf lib ++ [name ++ ".m3u8"]) = true := fun _ => hex
  have hnoneS : ∀ tr : List Ev,
      (St.mk s.files s.dirs tr).file?
        (playlistDirOf lib ++ [name ++ ".m3u8"]) = none := fun _ => hnone
  simp [removeFromPlaylist, bind_apply, fsPathExists, fsReadFile, throwE,
    St.log, pure_apply, hnm, hexS, hnoneS]

/-- C3 (amended): for a non-Master name, `removeFromPlaylist` fails with
NotFound exactly when the primary-extension (.m3u8) backing file is absent
— the legacy (.m3u) file is probed but does not avert the failure — and
when the primary file exists it is rewritten with the matching normalised
line removed. -/
theorem claim_C3 (name : String) (track lib : Path) (s : St)
    (hnm : jsIncludes name masterName = false) :
    ((∃ msg, (removeFromPlaylist name track lib s).1 =
        Except.error (Err.notFound msg)) ↔
      s.existsPath (playlistDirOf lib ++ [name ++ ".m3u8"]) = false) ∧
    (∀ d, s.file? (playlistDirOf lib ++ [name ++ ".m3u8"]) = some d →
      (removeFromPlaylist name track lib s).1 = Except.ok () ∧
      (removeFromPlaylist name track lib s).2.file?
          (playlistDirOf lib ++ [name ++ ".m3u8"]) =
        some (.text (removeResultContent (playlistDirOf lib) track
          d.asText))) := by
  constructor
  · constructor
    · rintro ⟨msg, hmsg⟩
      cases hex : s.existsPath (playlistDirOf lib ++ [name ++ ".m3u8"]) with
      | false => rfl
      | true =>
        cases hfd : s.file? (playlistDirOf lib ++ [name ++ ".m3u8"]) with
        | some d =>
          rw [removeFromPlaylist_ok_run name track lib s d hnm hfd] at hmsg
          cases hmsg
        | none =>
          rw [removeFromPlaylist_dir_run name track lib s hnm hex hfd] at hmsg
          cases hmsg
    · intro hex
      rw [removeFromPlaylist_notFound_run name track lib s hnm hex]
      exact ⟨"Playlist " ++ name ++ " not found", rfl⟩
  · intro d hfd
    rw [removeFromPlaylist_ok_run name track lib s d hnm hfd]
    exact ⟨rfl, by rw [St.file?, find?_setEntry, if_pos rfl]; rfl⟩

/-- C3 counterexample: with only the legacy `.m3u` backing file present,
the claim says removal should rewrite that file, but the operation fails
with NotFound. -/
theorem claim_C3_cx :
    stPlLegacy.existsPath ["lib", "Playlists", "Foo.m3u"] = true ∧
    stPlLegacy.existsPath ["lib", "Playlists", "Foo.m3u8"] = false ∧
    (removeFromPlaylist "Foo" ["lib", "x.mp3"] ["lib"] stPlLegacy).1 =
      Except.error (Err.notFound "Playlist Foo not found") := by
  refine ⟨by decide, by decide, by decide⟩

/-- C3 witness: NotFound on the legacy-only library, success on a library
with the primary file. -/
theorem claim_C3_witness :
    ((∃ msg, (removeFromPlaylist "Foo" ["lib", "a.mp3"] ["lib"]
        stPlLegacy).1 = Except.error (Err.notFound msg)) ↔
      stPlLegacy.existsPath
        (playlistDirOf ["lib"] ++ ["Foo" ++ ".m3u8"]) = false) ∧
    (removeFromPlaylist "Foo" ["lib", "a.mp3"] ["lib"] stPlFoo).1 =
      Except.ok () :=
  ⟨(claim_C3 "Foo" ["lib", "a.mp3"] ["lib"] stPlLegacy (by decide)).1,
   ((claim_C3 "Foo" ["lib", "a.mp3"] ["lib"] stPlFoo (by decide)).2
      (FData.text "#EXTM3U\n../a.mp3\n../b.mp3") (by decide)).1⟩

theorem splitSep_no_sep (sep : Char) (xs : List Char) (h : sep ∉ xs) :
    splitSep sep xs = [xs] := by
  induction xs with
  | nil => rfl
  | cons c t ih =>
    have hc : ¬ c = sep := fun hh => h (hh ▸ List.mem_cons_self c t)
    have ht : sep ∉ t := fun hh => h (List.mem_cons_of_mem c hh)
    simp [splitSep, hc, ih ht]

theorem splitSep_append (sep : Char) (xs ys : List Char) (h : sep ∉ xs) :
    splitSep sep (xs ++ sep :: ys) = xs :: splitSep sep ys := by
  induction xs with
  | nil => simp [splitSep]
  | cons c t ih =>
    have hc : ¬ c = sep := fun hh => h (hh ▸ List.mem_cons_self c t)
    have ht : sep ∉ t := fun hh => h (List.mem_cons_of_mem c hh)
    have hstep : splitSep sep ((c :: t) ++ sep :: ys) =
        match splitSep sep (t ++ sep :: ys) with
        | [] => [[c]]
        | h :: t' => (c :: h) :: t' := by
      simp [splitSep, hc]
    rw [hstep, ih ht]

theorem mk_data (s : String) : String.mk s.data = s := by
  cases s
  rfl

theorem splitNl_join (ls : List String) (h : ∀ l ∈ ls, '\n' ∉ l.data)
    (hne : ls ≠ []) : splitNl (joinNl ls) = ls := by
  induction ls with
  | nil => exact absurd rfl hne
  | cons l rest ih =>
    cases rest with
    | nil =>
      rw [joinNl, splitNl, splitSep_no_sep '\n' l.data
        (h l (List.mem_cons_self l []))]
      simp [mk_data]
    | cons l2 r2 =>
      have hdata : (joinNl (l :: l2 :: r2)).data =
          l.data ++ '\n' :: (joinNl (l2 :: r2)).data := by
        show (l ++ "\n" ++ joinNl (l2 :: r2)).data = _
        simp [String.data_append]
      rw [splitNl, hdata, splitSep_append '\n' l.data _
        (h l (List.mem_cons_self l _))]
      have ih2 := ih (fun x hx => h x (List.mem_cons_of_mem l hx))
        (by simp)
      rw [splitNl] at ih2
      simp only [List.map_cons, mk_data, ih2]

theorem splitNl_header_join (ls : List String)
    (h : ∀ l ∈ ls, '\n' ∉ l.data) (hne : ls ≠ []) :
    splitNl (playlistHeader ++ joinNl ls) = "#EXTM3U" :: ls := by
  have hdata : (playlistHeader ++ joinNl ls).data =
      "#EXTM3U".data ++ '\n' :: (joinNl ls).data := by
    simp [playlistHeader, String.data_append]
  rw [splitNl, hdata, splitSep_append '\n' "#EXTM3U".data _ (by decide)]
  have hj := splitNl_join ls h hne
  rw [splitNl] at hj
  simp only [List.map_cons, mk_data, hj]

/-- C5 (amended): for a non-Master playlist whose primary file exists,
removing a track whose normalised relative path occurs in none of the
entry lines succeeds and rewrites the file as the canonical header plus
the unchanged entry lines; when the file is in the canonical form the
engine itself writes (a single `#EXTM3U` header, newline-joined non-blank
non-comment lines), the rewritten file is byte-identical.  Files with
extra comment or blank lines are normalised rather than preserved. -/
theorem claim_C5 (name : String) (track lib : Path) (s : St) (c : String)
    (hnm : jsIncludes name masterName = false)
    (hf : s.file? (playlistDirOf lib ++ [name ++ ".m3u8"]) =
      some (FData.text c))
    (habs : ∀ l ∈ playlistEntryLines c,
      ¬ (slashify (jsTrimS l) = slashify (relStr (playlistDirOf lib) track))) :
    (removeFromPlaylist name track lib s).1 = Except.ok () ∧
    (removeFromPlaylist name track lib s).2.file?
        (playlistDirOf lib ++ [name ++ ".m3u8"]) =
      some (.text (playlistHeader ++ joinNl (playlistEntryLines c))) ∧
    (∀ ls : List String, c = playlistHeader ++ joinNl ls →
      (∀ l ∈ ls, '\n' ∉ l.data ∧ jsTrimS l ≠ "" ∧ startsWithHash l = false) →
      (removeFromPlaylist name track lib s).2.file?
          (playlistDirOf lib ++ [name ++ ".m3u8"]) = some (.text c)) := by
  have hkeep : (playlistEntryLines c).filter (fun line =>
      ¬ (slashify (jsTrimS line) = slashify (relStr (playlistDirOf lib) track)))
      = playlistEntryLines c := by
    apply List.filter_eq_self.mpr
    intro a ha
    simpa using habs a ha
  have hrun := removeFromPlaylist_ok_run name track lib s (FData.text c)
    hnm hf
  have hcontent : removeResultContent (playlistDirOf lib) track
      (FData.text c).asText =
      playlistHeader ++ joinNl (playlistEntryLines c) := by
    rw [removeResultContent]
    rw [show (FData.text c).asText = c from rfl, hkeep]
  refine ⟨by rw [hrun], ?_, ?_⟩
  · rw [hrun]
    show (St.mk _ _ _).file? _ = _
    rw [St.file?, find?_setEntry, if_pos rfl, hcontent]
    rfl
  · intro ls hc hclean
    have hentry : playlistEntryLines c = ls := by
      cases ls with
      | nil =>
        rw [hc]
        rfl
      | cons l0 r0 =>
        rw [playlistEntryLines, hc,
          splitNl_header_join (l0 :: r0) (fun x hx => (hclean x hx).1)
            (by simp)]
        rw [List.filter_cons]
        have hhdr : (decide (jsTrimS "#EXTM3U" ≠ "") &&
            !startsWithHash "#EXTM3U") = false := by decide
        rw [hhdr]
        apply List.filter_eq_self.mpr
        intro a ha
        have := hclean a ha
        simp [this.2.1, this.2.2]
    rw [hrun]
    show (St.mk _ _ _).file? _ = _
    rw [St.file?, find?_setEntry, if_pos rfl, hcontent, hentry, ← hc]
    rfl

/-- C5 counterexample: removing an absent track from a playlist file that
contains an extended-info comment line rewrites the file without that
line — a change beyond line-ending normalisation, refuting byte-identity
for arbitrary existing playlist files. -/
theorem claim_C5_cx :
    (removeFromPlaylist "P" ["lib", "zz.mp3"] ["lib"] stPlMessy).1 =
      Except.ok () ∧
    stPlMessy.file? ["lib", "Playlists", "P.m3u8"] =
      some (.text "#EXTM3U\n#EXTINF:1,x\n../a.mp3") ∧
    (removeFromPlaylist "P" ["lib", "zz.mp3"] ["lib"] stPlMessy).2.file?
        ["lib", "Playlists", "P.m3u8"] =
      some (.text "#EXTM3U\n../a.mp3") := by
  refine ⟨by decide, by decide, by decide⟩

/-- C5 witness: on a canonical playlist file, removing an absent track is
byte-identical. -/
theorem claim_C5_witness :
    (removeFromPlaylist "Foo" ["lib", "zz.mp3"] ["lib"] stPlFoo).1 =
      Except.ok () ∧
    (removeFromPlaylist "Foo" ["lib", "zz.mp3"] ["lib"] stPlFoo).2.file?
        (playlistDirOf ["lib"] ++ ["Foo" ++ ".m3u8"]) =
      some (.text "#EXTM3U\n../a.mp3\n../b.mp3") := by
  have h := claim_C5 "Foo" ["lib", "zz.mp3"] ["lib"] stPlFoo
    "#EXTM3U\n../a.mp3\n../b.mp3" (by decide) (by decide) (by decide)
  exact ⟨h.1, h.2.2 ["../a.mp3", "../b.mp3"] (by decide) (by decide)⟩

theorem mem_jsSetList (x : String) :
    ∀ l : List String, x ∈ jsSetList l ↔ x ∈ l := by
  intro l
  induction l with
  | nil => simp [jsSetList]
  | cons y ys ih =>
    rw [jsSetList]
    by_cases hxy : x = y
    · simp [hxy]
    · simp only [List.mem_cons, hxy, false_or, List.mem_filter, ih]
      constructor
      · intro hh
        exact hh.1
      · intro hh
        exact ⟨hh, by simpa using hxy⟩

theorem jsSetList_nodup : ∀ l : List String, (jsSetList l).Nodup := by
  intro l
  induction l with
  | nil => simp [jsSetList]
  | cons y ys ih =>
    rw [jsSetList]
    refine List.nodup_cons.mpr ⟨?_, List.Nodup.filter _ ih⟩
    intro hmem
    have := (List.mem_filter.mp hmem).2
    simp at this

theorem jsSetList_sublist : ∀ l : List String, (jsSetList l).Sublist l := by
  intro l
  induction l with
  | nil => simp [jsSetList]
  | cons y ys ih =>
    rw [jsSetList]
    exact List.Sublist.cons₂ y ((List.filter_sublist _).trans ih)

theorem jsSetList_of_nodup : ∀ l : List String, l.Nodup → jsSetList l = l := by
  intro l
  induction l with
  | nil => intro _; rw [jsSetList]
  | cons y ys ih =>
    intro hnd
    rw [jsSetList, ih (List.nodup_cons.mp hnd).2]
    have hys : ys.filter (fun z => z ≠ y) = ys := by
      apply List.filter_eq_self.mpr
      intro a ha
      have : a ≠ y := by
        intro hay
        exact (List.nodup_cons.mp hnd).1 (hay ▸ ha)
      simpa using this
    rw [hys]

theorem jsSetList_append_split :
    ∀ a b : List String, ∃ rest,
      jsSetList (a ++ b) = jsSetList a ++ rest ∧
      ∀ x ∈ rest, x ∈ b ∧ x ∉ a := by
  intro a
  induction a with
  | nil =>
    intro b
    exact ⟨jsSetList b, by simp [jsSetList], fun x hx =>
      ⟨(mem_jsSetList x b).mp hx, by simp⟩⟩
  | cons y ys ih =>
    intro b
    obtain ⟨rest, hr, hrm⟩ := ih b
    refine ⟨rest.filter (fun z => z ≠ y), ?_, ?_⟩
    · rw [List.cons_append, jsSetList, hr, List.filter_append, jsSetList]
      rfl
    · intro x hx
      have hxf := List.mem_filter.mp hx
      obtain ⟨hxb, hxys⟩ := hrm x hxf.1
      refine ⟨hxb, ?_⟩
      intro hxya
      rcases List.mem_cons.mp hxya with h1 | h2
      · have := hxf.2
        simp [h1] at this
      · exact hxys h2

theorem jsSetList_append_subset (a b : List String)
    (h : ∀ x ∈ b, x ∈ a) : jsSetList (a ++ b) = jsSetList a := by
  obtain ⟨rest, hr, hrm⟩ := jsSetList_append_split a b
  cases rest with
  | nil => simpa using hr
  | cons r rs =>
    have := hrm r (List.mem_cons_self r rs)
    exact absurd (h r this.1) this.2

theorem splitSep_pieces (sep : Char) :
    ∀ cs : List Char, ∀ p ∈ splitSep sep cs, sep ∉ p := by
  intro cs
  induction cs with
  | nil =>
    intro p hp
    rw [splitSep] at hp
    simp at hp
    simp [hp]
  | cons c t ih =>
    intro p hp
    rw [splitSep] at hp
    by_cases hc : c = sep
    · rw [if_pos hc] at hp
      rcases List.mem_cons.mp hp with h1 | h2
      · simp [h1]
      · exact ih p h2
    · rw [if_neg hc] at hp
      cases hr : splitSep sep t with
      | nil =>
        rw [hr] at hp
        simp at hp
        intro hmem
        rw [hp] at hmem
        rcases List.mem_singleton.mp hmem with h
        exact hc h.symm
      | cons h0 t0 =>
        rw [hr] at hp
        rcases List.mem_cons.mp hp with h1 | h2
        · intro hmem
          rw [h1] at hmem
          rcases List.mem_cons.mp hmem with ha | hb
          · exact hc ha.symm
          · exact ih h0 (hr ▸ List.mem_cons_self h0 t0) hb
        · exact ih p (hr ▸ List.mem_cons_of_mem h0 h2)

theorem splitNl_no_nl (c : String) : ∀ x ∈ splitNl c, '\n' ∉ x.data := by
  intro x hx
  rw [splitNl] at hx
  obtain ⟨p, hp, hpx⟩ := List.mem_map.mp hx
  rw [← hpx]
  exact splitSep_pieces '\n' c.data p hp

theorem addEntryLines_wf (c : String) :
    ∀ x ∈ addEntryLines c,
      x ≠ "" ∧ startsWithHash x = false ∧ '\n' ∉ x.data := by
  intro x hx
  rw [addEntryLines] at hx
  have h1 := List.mem_filter.mp hx
  have h2 := h1.2
  simp only [Bool.and_eq_true, decide_eq_true_eq, Bool.not_eq_true'] at h2
  exact ⟨h2.1, h2.2, splitNl_no_nl c x h1.1⟩

theorem addEntryLines_header_join (ls : List String)
    (h : ∀ l ∈ ls, l ≠ "" ∧ startsWithHash l = false ∧ '\n' ∉ l.data) :
    addEntryLines (playlistHeader ++ joinNl ls) = ls := by
  cases ls with
  | nil =>
    have : playlistHeader ++ joinNl [] = playlistHeader := by
      show playlistHeader ++ "" = playlistHeader
      simp
    rw [this]
    decide
  | cons l0 r0 =>
    rw [addEntryLines, splitNl_header_join (l0 :: r0)
      (fun x hx => (h x hx).2.2) (by simp)]
    rw [List.filter_cons]
    have hhdr : (decide ("#EXTM3U" ≠ "") && !startsWithHash "#EXTM3U")
        = false := by decide
    rw [hhdr]
    apply List.filter_eq_self.mpr
    intro a ha
    have := h a ha
    simp [this.1, this.2.1]

theorem isPrefixOf_false_of_longer (p q : Path) (h : q.length < p.length) :
    p.isPrefixOf q = false := by
  cases hpf : p.isPrefixOf q with
  | false => rfl
  | true =>
    have := (List.isPrefixOf_iff_prefix.mp hpf).length_le
    omega

theorem existsPath_push_dir (s : St) (p extra : Path) (tr : List Ev)
    (h : s.existsPath p = false) (hnp : p.isPrefixOf extra = false) :
    (St.mk s.files (s.dirs ++ [extra]) tr).existsPath p = false := by
  obtain ⟨hf, hd⟩ := existsPath_false_parts h
  rw [St.existsPath, St.isFile, Bool.or_eq_false_iff]
  refine ⟨?_, ?_⟩
  · show ((s.files.find? (fun e => e.1 = p)).map (fun e => e.2)).isSome = false
    rw [St.isFile, St.file?] at hf
    exact hf
  · rw [St.isDir]
    rw [St.isDir, Bool.or_eq_false_iff] at hd
    simp only [List.any_append, List.any_cons, List.any_nil, Bool.or_false,
      Bool.or_eq_false_iff]
    exact ⟨⟨hd.1, hnp⟩, hd.2⟩

theorem file?_setEntry_state (files : List (Path × FData)) (dirs : List Path)
    (tr : List Ev) (p q : Path) (d : FData) :
    (St.mk (setEntry files p d) dirs tr).file? q =
      if p = q then some d else (St.mk files dirs tr).file? q := by
  rw [St.file?]
  show ((setEntry files p d).find? (fun e => e.1 = q)).map (fun e => e.2) = _
  rw [find?_setEntry]
  by_cases h : p = q <;> simp [h, St.file?]

/-- Characterisation of `addToPlaylist` when the playlist file already
exists with text `c`: success, and only that file changes, to the header
plus the deduplicated union of existing entry lines and new relative
paths. -/
theorem addToPlaylist_run_present (name : String) (tracks : List Path)
    (lib : Path) (s : St) (c : String)
    (hpd : s.isFile (playlistDirOf lib) = false)
    (hf : s.file? (playlistDirOf lib ++ [jsTrimS name ++ ".m3u8"]) =
      some (FData.text c)) :
    (addToPlaylist name tracks lib s).1 = Except.ok () ∧
    ∀ q : Path, (addToPlaylist name tracks lib s).2.file? q =
      if (playlistDirOf lib ++ [jsTrimS name ++ ".m3u8"]) = q then
        some (FData.text (playlistHeader ++ joinNl (jsSetList
          (addEntryLines c ++
            tracks.map (fun t => relStr (playlistDirOf lib) t)))))
      else s.file? q := by
  have hisf : s.isFile (playlistDirOf lib ++ [jsTrimS name ++ ".m3u8"]) =
      true := by
    rw [St.isFile, hf]
    rfl
  have hfileq : ∀ (dd : List Path) (tr : List Ev) (q : Path),
      (St.mk s.files dd tr).file? q = s.file? q := fun _ _ _ => rfl
  have hextS : ∀ (dd : List Path) (tr : List Ev),
      (St.mk s.files dd tr).existsPath
        (playlistDirOf lib ++ [jsTrimS name ++ ".m3u8"]) = true :=
    fun _ _ => isFile_existsPath hisf
  cases hdir : s.isDir (playlistDirOf lib) with
  | true =>
    constructor
    · simp [addToPlaylist, bind_apply, fsEnsureDir, fsPathExists, fsReadFile,
        fsOutputFile, St.log, pure_apply, hpd, hdir, hextS, hfileq, hf]
    · intro q
      simp [addToPlaylist, bind_apply, fsEnsureDir, fsPathExists, fsReadFile,
        fsOutputFile, St.log, pure_apply, hpd, hdir, hextS, hfileq, hf,
        file?_setEntry_state, addEntryLines, FData.asText]
  | false =>
    constructor
    · simp [addToPlaylist, bind_apply, fsEnsureDir, fsPathExists, fsReadFile,
        fsOutputFile, St.log, pure_apply, hpd, hdir, hextS, hfileq, hf]
    · intro q
      simp [addToPlaylist, bind_apply, fsEnsureDir, fsPathExists, fsReadFile,
        fsOutputFile, St.log, pure_apply, hpd, hdir, hextS, hfileq, hf,
        file?_setEntry_state, addEntryLines, FData.asText]

/-- Characterisation of `addToPlaylist` when the playlist file does not
exist: it is created with exactly the new relative paths (deduplicated). -/
theorem addToPlaylist_run_absent (name : String) (tracks : List Path)
    (lib : Path) (s : St)
    (hpd : s.isFile (playlistDirOf lib) = false)
    (hnf : s.existsPath (playlistDirOf lib ++ [jsTrimS name ++ ".m3u8"]) =
      false) :
    (addToPlaylist name tracks lib s).1 = Except.ok () ∧
    ∀ q : Path, (addToPlaylist name tracks lib s).2.file? q =
      if (playlistDirOf lib ++ [jsTrimS name ++ ".m3u8"]) = q then
        some (FData.text (playlistHeader ++ joinNl (jsSetList
          (tracks.map (fun t => relStr (playlistDirOf lib) t)))))
      else s.file? q := by
  have hfileq : ∀ (dd : List Path) (tr : List Ev) (q : Path),
      (St.mk s.files dd tr).file? q = s.file? q := fun _ _ _ => rfl
  have hnfS : ∀ tr : List Ev,
      (St.mk s.files s.dirs tr).existsPath
        (playlistDirOf lib ++ [jsTrimS name ++ ".m3u8"]) = false :=
    fun _ => hnf
  have hnfS2 : ∀ tr : List Ev,
      (St.mk s.files (s.dirs ++ [playlistDirOf lib]) tr).existsPath
        (playlistDirOf lib ++ [jsTrimS name ++ ".m3u8"]) = false :=
    fun tr => existsPath_push_dir s _ (playlistDirOf lib) tr hnf
      (isPrefixOf_false_of_longer _ _ (by simp))
  cases hdir : s.isDir (playlistDirOf lib) with
  | true =>
    constructor
    · simp [addToPlaylist, bind_apply, fsEnsureDir, fsPathExists, fsReadFile,
        fsOutputFile, St.log, pure_apply, hpd, hdir, hnfS]
    · intro q
      simp [addToPlaylist, bind_apply, fsEnsureDir, fsPathExists, fsReadFile,
        fsOutputFile, St.log, pure_apply, hpd, hdir, hnfS, hfileq,
        file?_setEntry_state]
  | false =>
    constructor
    · simp [addToPlaylist, bind_apply, fsEnsureDir, fsPathExists, fsReadFile,
        fsOutputFile, St.log, pure_apply, hpd, hdir, hnfS, hnfS2]
    · intro q
      simp [addToPlaylist, bind_apply, fsEnsureDir, fsPathExists, fsReadFile,
        fsOutputFile, St.log, pure_apply, hpd, hdir, hnfS, hnfS2, hfileq,
        file?_setEntry_state]

/-- C9: after `addToPlaylist` on an existing playlist file, the file holds
the canonical header plus a duplicate-free line list; the (deduplicated)
pre-existing entry lines keep their relative order and precede the newly
added paths; when every new path already occurs among the entry lines the
membership of lines is unchanged; and running the identical add again
leaves the file byte-identical (adding twice equals adding once). -/
theorem claim_C9 (name : String) (tracks : List Path) (lib : Path) (s : St)
    (c : String)
    (hpd : s.isFile (playlistDirOf lib) = false)
    (hf : s.file? (playlistDirOf lib ++ [jsTrimS name ++ ".m3u8"]) =
      some (FData.text c))
    (hwf : ∀ t ∈ tracks, relStr (playlistDirOf lib) t ≠ "" ∧
      startsWithHash (relStr (playlistDirOf lib) t) = false ∧
      '\n' ∉ (relStr (playlistDirOf lib) t).data) :
    (addToPlaylist name tracks lib s).1 = Except.ok () ∧
    (addToPlaylist name tracks lib s).2.file?
        (playlistDirOf lib ++ [jsTrimS name ++ ".m3u8"]) =
      some (FData.text (playlistHeader ++ joinNl (jsSetList
        (addEntryLines c ++
          tracks.map (fun t => relStr (playlistDirOf lib) t))))) ∧
    (jsSetList (addEntryLines c ++
      tracks.map (fun t => relStr (playlistDirOf lib) t))).Nodup ∧
    (∃ rest, jsSetList (addEntryLines c ++
        tracks.map (fun t => relStr (playlistDirOf lib) t)) =
        jsSetList (addEntryLines c) ++ rest ∧
      (jsSetList (addEntryLines c)).Sublist (addEntryLines c) ∧
      ∀ x ∈ rest, x ∈ tracks.map (fun t => relStr (playlistDirOf lib) t) ∧
        x ∉ addEntryLines c) ∧
    ((∀ t ∈ tracks, relStr (playlistDirOf lib) t ∈ addEntryLines c) →
      ∀ x, x ∈ jsSetList (addEntryLines c ++
          tracks.map (fun t => relStr (playlistDirOf lib) t)) ↔
        x ∈ addEntryLines c) ∧
    (addToPlaylist name tracks lib
        ((addToPlaylist name tracks lib s).2)).2.file?
        (playlistDirOf lib ++ [jsTrimS name ++ ".m3u8"]) =
      (addToPlaylist name tracks lib s).2.file?
        (playlistDirOf lib ++ [jsTrimS name ++ ".m3u8"]) := by
  obtain ⟨h1, h2⟩ := addToPlaylist_run_present name tracks lib s c hpd hf
  have hfpne : (playlistDirOf lib ++ [jsTrimS name ++ ".m3u8"]) ≠
      playlistDirOf lib := by
    intro hh
    have := congrArg List.length hh
    simp at this
  refine ⟨h1, by rw [h2 _, if_pos rfl], jsSetList_nodup _, ?_, ?_, ?_⟩
  · obtain ⟨rest, hr, hrm⟩ := jsSetList_append_split (addEntryLines c)
      (tracks.map (fun t => relStr (playlistDirOf lib) t))
    exact ⟨rest, hr, jsSetList_sublist _, hrm⟩
  · intro hsub x
    rw [mem_jsSetList, List.mem_append]
    constructor
    · rintro (hx | hx)
      · exact hx
      · obtain ⟨t, ht, rfl⟩ := List.mem_map.mp hx
        exact hsub t ht
    · exact Or.inl
  · have hs1f : ((addToPlaylist name tracks lib s).2).file?
        (playlistDirOf lib ++ [jsTrimS name ++ ".m3u8"]) =
        some (FData.text (playlistHeader ++ joinNl (jsSetList
          (addEntryLines c ++
            tracks.map (fun t => relStr (playlistDirOf lib) t))))) := by
      rw [h2 _, if_pos rfl]
    have hs1pd : ((addToPlaylist name tracks lib s).2).isFile
        (playlistDirOf lib) = false := by
      rw [St.isFile, h2 _, if_neg hfpne]
      rw [St.isFile] at hpd
      exact hpd
    obtain ⟨_, h2b⟩ := addToPlaylist_run_present name tracks lib
      ((addToPlaylist name tracks lib s).2) _ hs1pd hs1f
    rw [h2b _, if_pos rfl, hs1f]
    have hwfL : ∀ l ∈ jsSetList (addEntryLines c ++
        tracks.map (fun t => relStr (playlistDirOf lib) t)),
        l ≠ "" ∧ startsWithHash l = false ∧ '\n' ∉ l.data := by
      intro l hl
      rcases List.mem_append.mp ((mem_jsSetList l _).mp hl) with hA | hB
      · exact addEntryLines_wf c l hA
      · obtain ⟨t, ht, rfl⟩ := List.mem_map.mp hB
        exact hwf t ht
    rw [addEntryLines_header_join _ hwfL]
    rw [jsSetList_append_subset _ _ (fun x hx => (mem_jsSetList x _).mpr
      (List.mem_append.mpr (Or.inr hx)))]
    rw [jsSetList_of_nodup _ (jsSetList_nodup _)]

/-- C9 witness: merging one duplicate and one fresh path into a concrete
playlist keeps the file duplicate-free and in order. -/
theorem claim_C9_witness :
    (addToPlaylist "Foo" [["lib", "b.mp3"], ["lib", "c.mp3"]] ["lib"]
      stPlFoo).1 = Except.ok () ∧
    (addToPlaylist "Foo" [["lib", "b.mp3"], ["lib", "c.mp3"]] ["lib"]
        stPlFoo).2.file?
        (playlistDirOf ["lib"] ++ [jsTrimS "Foo" ++ ".m3u8"]) =
      some (FData.text "#EXTM3U\n../a.mp3\n../b.mp3\n../c.mp3") := by
  have h := claim_C9 "Foo" [["lib", "b.mp3"], ["lib", "c.mp3"]] ["lib"]
    stPlFoo "#EXTM3U\n../a.mp3\n../b.mp3" (by decide) (by decide) (by decide)
  refine ⟨h.1, ?_⟩
  rw [h.2.1]
  decide

theorem file?_congr {s s' : St} (h : s'.files = s.files) (q : Path) :
    s'.file? q = s.file? q := by
  rw [St.file?, St.file?, h]

theorem isFile_congr {s s' : St} (h : s'.files = s.files) (q : Path) :
    s'.isFile q = s.isFile q := by
  rw [St.isFile, St.isFile, file?_congr h]

theorem file?_none_of_isFile_false {s : St} {q : Path}
    (h : s.isFile q = false) : s.file? q = none := by
  rw [St.isFile] at h
  cases hq : s.file? q with
  | none => rfl
  | some d => rw [hq] at h; cases h

theorem isPrefixOf_false_of_ne {p q : Path} (hlen : p.length = q.length)
    (hne : p ≠ q) : p.isPrefixOf q = false := by
  cases hpf : p.isPrefixOf q with
  | false => rfl
  | true =>
    have := List.isPrefixOf_iff_prefix.mp hpf
    exact absurd (this.eq_of_length hlen) hne

/-- `fsEnsureDir` on a non-file path always succeeds, changes no files,
preserves non-existence away from the new directory and preserves
existence everywhere. -/
theorem ensureDir_ok (p : Path) (s : St) (h : s.isFile p = false) :
    ∃ s' : St, fsEnsureDir p s = (Except.ok (), s') ∧
      s'.files = s.files ∧
      (∀ q, s.existsPath q = false → q.isPrefixOf p = false →
        s'.existsPath q = false) ∧
      (∀ q, s.existsPath q = true → s'.existsPath q = true) := by
  cases hdir : s.isDir p with
  | true =>
    refine ⟨s.log (.mkdirE p), by simp [fsEnsureDir, h, hdir], rfl, ?_, ?_⟩
    · intro q hq _
      simpa using hq
    · intro q hq
      simpa using hq
  | false =>
    refine ⟨St.mk s.files (s.dirs ++ [p]) (s.trace ++ [.mkdirE p]),
      by simp [fsEnsureDir, h, hdir, St.log], rfl, ?_, ?_⟩
    · intro q hq hnp
      exact existsPath_push_dir s q p _ hq hnp
    · intro q hq
      rw [St.existsPath, Bool.or_eq_true] at hq
      rw [St.existsPath, Bool.or_eq_true]
      rcases hq with h1 | h2
      · exact Or.inl h1
      · right
        rw [St.isDir, Bool.or_eq_true] at h2
        rw [St.isDir, Bool.or_eq_true]
        rcases h2 with h3 | h4
        · left
          rw [List.any_append, h3, Bool.true_or]
        · right
          exact h4

/-- A relocation whose source is missing and whose destination is free
fails with the move error, leaving the file table unchanged. -/
theorem safeMove_fail (src dest : Path) (s : St)
    (hsrc : s.isFile src = false) (hdest : s.existsPath dest = false)
    (hpar : s.isFile dest.dropLast = false) (hne : dest ≠ []) :
    ∃ s', safeMove src dest s =
      (Except.error (Err.ioFailure "ENOENT move"), s') ∧
      s'.files = s.files := by
  have hs1 : fsPathExists dest s = (Except.ok false, s.log (.statE dest)) := by
    simp [fsPathExists, hdest]
  obtain ⟨s2, he2, hf2, hkeep2, _⟩ :=
    ensureDir_ok dest.dropLast (s.log (.statE dest)) (by simpa using hpar)
  have hlt : dest.dropLast.length < dest.length := by
    cases dest with
    | nil => exact absurd rfl hne
    | cons a l => simp
  have hd2 : s2.existsPath dest = false :=
    hkeep2 dest (by simpa using hdest)
      (isPrefixOf_false_of_longer _ _ hlt)
  have hsrc2 : s2.file? src = none := by
    rw [file?_congr hf2]
    show (s.log (.statE dest)).file? src = none
    rw [file?_log]
    exact file?_none_of_isFile_false hsrc
  have hmv : fsMove src dest s2 =
      (Except.error (.ioFailure "ENOENT move"), s2.log (.moveE src dest)) := by
    simp [fsMove, hd2, hsrc2]
  refine ⟨s2.log (.moveE src dest), ?_, by simpa using hf2⟩
  simp only [safeMove, bind_apply, hs1, Bool.false_eq_true, if_false]
  simp only [bind_apply, he2, hmv]

theorem dbPath_not_in_lib (lib : Path) :
    (dbPathOf lib).isPrefixOf lib = false :=
  isPrefixOf_false_of_longer _ _ (by simp [dbPathOf])

theorem dbPath_not_in_pd (lib : Path) :
    (dbPathOf lib).isPrefixOf (playlistDirOf lib) = false := by
  apply isPrefixOf_false_of_ne (by simp [dbPathOf, playlistDirOf])
  intro h
  rw [dbPathOf, playlistDirOf] at h
  have := List.append_cancel_left h
  simp at this

/-- C1 (amended): `organize` returns no aggregate result (its result type
is unit), and a relocation failure aborts the batch: the error propagates,
later proposals are not relocated, the inventory is not persisted and no
playlist is touched — the file table is exactly the input's.  Per-item
tolerance with success/failure counts belongs to the export engine, not to
`organize`. -/
theorem claim_C1 (p : ScanResult) (rest : List ScanResult) (lib : Path)
    (s : St) (inv : List Song)
    (hlibf : s.isFile lib = false)
    (hpdf : s.isFile (playlistDirOf lib) = false)
    (hdb : s.file? (dbPathOf lib) = some (FData.json inv) ∨
      s.existsPath (dbPathOf lib) = false)
    (hsrc : s.isFile p.file = false)
    (hdest : s.existsPath p.proposedPath = false)
    (hdl : p.proposedPath.isPrefixOf lib = false)
    (hdp : p.proposedPath.isPrefixOf (playlistDirOf lib) = false)
    (hpar : s.isFile p.proposedPath.dropLast = false)
    (hne : p.proposedPath ≠ []) :
    ∃ s', organize (p :: rest) lib s =
      (Except.error (Err.ioFailure "ENOENT move"), s') ∧
      s'.files = s.files := by
  obtain ⟨s1, he1, hf1, hkeep1, _⟩ := ensureDir_ok lib s hlibf
  obtain ⟨s2, he2, hf2, hkeep2, _⟩ := ensureDir_ok (playlistDirOf lib) s1
    (by rw [isFile_congr hf1]; exact hpdf)
  have hfiles2 : s2.files = s.files := hf2.trans hf1
  -- evaluate organize stepwise
  rw [organize]
  cases hdb with
  | inl hjson =>
    have hdbe : s2.existsPath (dbPathOf lib) = true :=
      isFile_existsPath (by rw [St.isFile, file?_congr hfiles2, hjson]; rfl)
    have hdbf : (s2.log (.statE (dbPathOf lib))).file? (dbPathOf lib) =
        some (FData.json inv) := by
      rw [file?_log, file?_congr hfiles2]
      exact hjson
    have hpe : fsPathExists (dbPathOf lib) s2 =
        (Except.ok true, s2.log (.statE (dbPathOf lib))) := by
      simp [fsPathExists, hdbe]
    have hrj : fsReadJson (dbPathOf lib) (s2.log (.statE (dbPathOf lib))) =
        (Except.ok inv,
          (s2.log (.statE (dbPathOf lib))).log (.readE (dbPathOf lib))) := by
      simp [fsReadJson, hdbf]
    set s3 := (s2.log (.statE (dbPathOf lib))).log (.readE (dbPathOf lib))
      with hs3
    have hf3 : s3.files = s.files := by
      rw [hs3]
      simpa using hfiles2
    obtain ⟨s4, hsm, hf4⟩ := safeMove_fail p.file p.proposedPath s3
      (by rw [isFile_congr hf3]; exact hsrc)
      (by
        rw [hs3]
        show s2.existsPath p.proposedPath = false
        exact hkeep2 _ (hkeep1 _ hdest hdl) hdp)
      (by rw [isFile_congr hf3]; exact hpar) hne
    refine ⟨s4, ?_, hf4.trans hf3⟩
    simp only [bind_apply, he1, he2, hpe, if_true, hrj, orgLoop, hsm]
  | inr habs =>
    have hdbe : s2.existsPath (dbPathOf lib) = false :=
      hkeep2 _ (hkeep1 _ habs (dbPath_not_in_lib lib)) (dbPath_not_in_pd lib)
    have hpe : fsPathExists (dbPathOf lib) s2 =
        (Except.ok false, s2.log (.statE (dbPathOf lib))) := by
      simp [fsPathExists, hdbe]
    set s3 := s2.log (.statE (dbPathOf lib)) with hs3
    have hf3 : s3.files = s.files := by
      rw [hs3]
      simpa using hfiles2
    obtain ⟨s4, hsm, hf4⟩ := safeMove_fail p.file p.proposedPath s3
      (by rw [isFile_congr hf3]; exact hsrc)
      (by
        rw [hs3]
        show s2.existsPath p.proposedPath = false
        exact hkeep2 _ (hkeep1 _ hdest hdl) hdp)
      (by rw [isFile_congr hf3]; exact hpar) hne
    refine ⟨s4, ?_, hf4.trans hf3⟩
    simp only [bind_apply, he1, he2, hpe, Bool.false_eq_true, if_false,
      pure_apply, orgLoop, hsm]

/-- C1 counterexample: with two proposals of which the first one's source
file is missing, `organize` aborts with the relocation error — the second
proposal is never relocated, the inventory database is never written, and
no aggregate success/failure counts exist (the operation's result type
carries none). -/
theorem claim_C1_cx :
    (organize [scanGone, scanThere] ["lib"] stC1).1 =
      Except.error (Err.ioFailure "ENOENT move") ∧
    (organize [scanGone, scanThere] ["lib"] stC1).2.file?
      (dbPathOf ["lib"]) = none ∧
    (organize [scanGone, scanThere] ["lib"] stC1).2.file?
      ["inbox", "there.mp3"] = some (FData.blob 2) ∧
    (organize [scanGone, scanThere] ["lib"] stC1).2.file?
      scanThere.proposedPath = none := by
  refine ⟨by decide, by decide, by decide, by decide⟩

/-- C1 witness: the amended abort behaviour at the concrete input. -/
theorem claim_C1_witness :
    (organize [scanGone, scanThere] ["lib"] stC1).1 =
      Except.error (Err.ioFailure "ENOENT move") ∧
    (organize [scanGone, scanThere] ["lib"] stC1).2.files = stC1.files := by
  obtain ⟨s', h1, h2⟩ := claim_C1 scanGone [scanThere] ["lib"] stC1 []
    (by decide) (by decide) (Or.inr (by decide)) (by decide) (by decide)
    (by decide) (by decide) (by decide) (by decide)
  rw [h1]
  exact ⟨rfl, h2⟩

theorem pres_bind {α β : Type} {x : M α} {f : α → M β}
    (hx : PreservesFiles x) (hf : ∀ a, PreservesFiles (f a)) :
    PreservesFiles (x >>= f) := by
  intro s q d h
  rw [bind_apply]
  rcases hx2 : x s with ⟨v, s'⟩
  have hs' : s'.file? q = some d := by
    have := hx s q d h
    rw [hx2] at this
    exact this
  cases v with
  | ok a => exact hf a s' q d hs'
  | error e => exact hs'

theorem pres_pure {α : Type} (a : α) : PreservesFiles (pure a : M α) :=
  fun _ _ _ h => h

theorem pres_throw {α : Type} (e : Err) :
    PreservesFiles (throwE e : M α) := fun _ _ _ h => h

theorem pres_of_files_eq {α : Type} {m : M α}
    (h : ∀ s, ((m s).2).files = s.files) : PreservesFiles m :=
  fun s q d hq => by rw [file?_congr (h s)]; exact hq

theorem pres_ite {c : Prop} [Decidable c] {α : Type} {m1 m2 : M α}
    (h1 : PreservesFiles m1) (h2 : PreservesFiles m2) :
    PreservesFiles (if c then m1 else m2) := by
  by_cases hc : c
  · rw [if_pos hc]; exact h1
  · rw [if_neg hc]; exact h2

theorem pres_pathExists (p : Path) : PreservesFiles (fsPathExists p) :=
  pres_of_files_eq (fun _ => rfl)

theorem pres_readFile (p : Path) : PreservesFiles (fsReadFile p) :=
  pres_of_files_eq (fun s => by rw [fsReadFile]; cases s.file? p <;> rfl)

theorem pres_readJson (p : Path) : PreservesFiles (fsReadJson p) :=
  pres_of_files_eq (fun s => by
    rw [fsReadJson]
    cases hd : s.file? p with
    | none => rfl
    | some d => cases d <;> rfl)

theorem pres_ensureDir (p : Path) : PreservesFiles (fsEnsureDir p) :=
  pres_of_files_eq (fun s => by
    rw [fsEnsureDir]
    by_cases h1 : s.isFile p = true
    · rw [if_pos h1]
      rfl
    · rw [if_neg h1]
      by_cases h2 : s.isDir p = true
      · rw [if_pos h2]
        rfl
      · rw [if_neg h2])

theorem pres_copy (src dst : Path) : PreservesFiles (fsCopy src dst) := by
  intro s q d h
  cases hs : s.file? src with
  | none =>
    have hrun : fsCopy src dst s =
        (Except.error (.ioFailure "ENOENT copy"), s.log (.copyE src dst)) := by
      simp [fsCopy, hs]
    rw [hrun]
    simpa using h
  | some dd =>
    by_cases hex : s.existsPath dst = true
    · have hrun : fsCopy src dst s =
          (Except.ok (), s.log (.copyE src dst)) := by
        simp [fsCopy, hs, hex]
      rw [hrun]
      simpa using h
    · have hexf : s.existsPath dst = false := by simpa using hex
      have hrun : fsCopy src dst s =
          (Except.ok (), St.mk (setEntry s.files dst dd) s.dirs
            (s.trace ++ [.copyE src dst])) := by
        simp [fsCopy, hs, hexf]
      rw [hrun]
      have hdq : dst ≠ q := by
        intro hh
        rw [hh] at hexf
        have hisf : s.isFile q = true := by rw [St.isFile, h]; rfl
        rw [isFile_existsPath hisf] at hexf
        cases hexf
      show (St.mk (setEntry s.files dst dd) _ _).file? q = some d
      rw [file?_setEntry_state, if_neg hdq]
      exact h

theorem pres_attempt {α : Type} {x : M α} (h : PreservesFiles x) :
    PreservesFiles (attempt x) := by
  intro s q d hq
  rw [attempt]
  rcases hx : x s with ⟨v, s'⟩
  have hs' : s'.file? q = some d := by
    have := h s q d hq
    rw [hx] at this
    exact this
  cases v <;> exact hs'

theorem pres_expItem_copy (dest : Path) (ps : Bool) (t : Song) :
    PreservesFiles (expItem dest .copy ps t) := by
  rw [expItem]
  apply pres_bind (pres_pathExists _)
  intro ex
  apply pres_ite (pres_pure _)
  apply pres_bind (pres_ensureDir _)
  intro _
  rw [if_pos rfl]
  exact pres_bind (pres_copy _ _) (fun _ => pres_pure _)

theorem pres_expLoop_copy (dest : Path) (ps : Bool) :
    ∀ (tracks : List Song) (acc : Nat × Nat × List Path),
      PreservesFiles (expLoop dest .copy ps tracks acc) := by
  intro tracks
  induction tracks with
  | nil => intro acc; exact pres_pure _
  | cons t rest ih =>
    intro acc
    rcases acc with ⟨sc, fc, mv⟩
    rw [expLoop]
    apply pres_bind (pres_attempt (pres_expItem_copy dest ps t))
    intro r
    match r with
    | some .missing => exact ih _
    | some (.done mp) => exact ih _
    | none => exact ih _

theorem pres_getPlaylistDetails (name : String) (lib : Path) :
    PreservesFiles (getPlaylistDetails name lib) := by
  rw [getPlaylistDetails]
  dsimp only
  apply pres_bind (pres_pathExists _)
  intro exP
  apply pres_ite
  · apply pres_bind (pres_pure _)
    intro filePath
    apply pres_bind (pres_pathExists _)
    intro exDb
    apply pres_ite
    · apply pres_bind (pres_readJson _)
      intro inventory
      apply pres_bind (pres_readFile _)
      intro content
      exact pres_pure _
    · apply pres_bind (pres_pure _)
      intro inventory
      apply pres_bind (pres_readFile _)
      intro content
      exact pres_pure _
  · apply pres_bind (pres_pathExists _)
    intro exL
    apply pres_ite
    · apply pres_bind (pres_pure _)
      intro filePath
      apply pres_bind (pres_pathExists _)
      intro exDb
      apply pres_ite
      · apply pres_bind (pres_readJson _)
        intro inventory
        apply pres_bind (pres_readFile _)
        intro content
        exact pres_pure _
      · apply pres_bind (pres_pure _)
        intro inventory
        apply pres_bind (pres_readFile _)
        intro content
        exact pres_pure _
    · apply pres_bind (pres_throw _)
      intro filePath
      apply pres_bind (pres_pathExists _)
      intro exDb
      apply pres_ite
      · apply pres_bind (pres_readJson _)
        intro inventory
        apply pres_bind (pres_readFile _)
        intro content
        exact pres_pure _
      · apply pres_bind (pres_pure _)
        intro inventory
        apply pres_bind (pres_readFile _)
        intro content
        exact pres_pure _

theorem pres_exportPlaylist_copy (name : String) (dest lib : Path)
    (ps : Bool) : PreservesFiles (exportPlaylist name dest .copy ps lib) := by
  rw [exportPlaylist]
  apply pres_ite (pres_throw _)
  apply pres_bind (pres_getPlaylistDetails _ _)
  intro tracks
  apply pres_bind (pres_ensureDir _)
  intro _
  apply pres_bind (pres_expLoop_copy _ _ _ _)
  intro acc
  rcases acc with ⟨sc, fc, mv⟩
  dsimp only
  rw [if_neg (fun h => Mode.noConfusion h.1)]
  exact pres_pure _

theorem pres_exportLibrary_copy (dest lib : Path) (ps : Bool) :
    PreservesFiles (exportLibrary dest .copy ps lib) := by
  rw [exportLibrary]
  dsimp only
  apply pres_bind (pres_pathExists _)
  intro exDb
  apply pres_ite (pres_throw _)
  apply pres_bind (pres_readJson _)
  intro inventory
  apply pres_bind (pres_ensureDir _)
  intro _
  apply pres_bind (pres_expLoop_copy _ _ _ _)
  intro acc
  rcases acc with ⟨sc, fc, mv⟩
  dsimp only
  rw [if_neg (fun h => Mode.noConfusion h.1)]
  exact pres_pure _

theorem attempt_ok {α : Type} (x : M α) (s : St) :
    ∃ (r : Option α) (s' : St), attempt x s = (Except.ok r, s') := by
  rw [attempt]
  rcases hx : x s with ⟨v, s'⟩
  cases v with
  | ok a => exact ⟨some a, s', rfl⟩
  | error e => exact ⟨none, s', rfl⟩

theorem expLoop_copy_ok (dest : Path) (ps : Bool) :
    ∀ (tracks : List Song) (acc : Nat × Nat × List Path) (s : St),
      ∃ (res : Nat × Nat × List Path) (s' : St),
        expLoop dest .copy ps tracks acc s = (Except.ok res, s') := by
  intro tracks
  induction tracks with
  | nil => intro acc s; exact ⟨acc, s, rfl⟩
  | cons t rest ih =>
    intro acc s
    rcases acc with ⟨sc, fc, mv⟩
    obtain ⟨r, s1, hstep⟩ := attempt_ok (expItem dest .copy ps t) s
    have hbind : expLoop dest .copy ps (t :: rest) (sc, fc, mv) s =
        (match r with
          | some .missing => expLoop dest .copy ps rest (sc, fc + 1, mv)
          | some (.done mp) =>
            expLoop dest .copy ps rest (sc + 1, fc, mv ++ mp.toList)
          | none => expLoop dest .copy ps rest (sc, fc + 1, mv)) s1 := by
      rw [expLoop, bind_apply, hstep]
    cases r with
    | none => rw [hbind]; exact ih _ s1
    | some ir =>
      cases ir with
      | missing => rw [hbind]; exact ih _ s1
      | done mp => rw [hbind]; exact ih _ s1

theorem exportLibrary_copy_ok (dest lib : Path) (ps : Bool) (s : St)
    (inv : List Song)
    (hdb : s.file? (dbPathOf lib) = some (FData.json inv))
    (hdf : s.isFile dest = false) :
    ∃ n m : Nat, (exportLibrary dest .copy ps lib s).1 = Except.ok (n, m) := by
  have hdbe : s.existsPath (dbPathOf lib) = true :=
    isFile_existsPath (by rw [St.isFile, hdb]; rfl)
  have hpe : fsPathExists (dbPathOf lib) s =
      (Except.ok true, s.log (.statE (dbPathOf lib))) := by
    simp [fsPathExists, hdbe]
  have hrj : fsReadJson (dbPathOf lib) (s.log (.statE (dbPathOf lib))) =
      (Except.ok inv,
        (s.log (.statE (dbPathOf lib))).log (.readE (dbPathOf lib))) := by
    simp [fsReadJson, hdb]
  obtain ⟨s2, he2, hf2, _, _⟩ := ensureDir_ok dest
    ((s.log (.statE (dbPathOf lib))).log (.readE (dbPathOf lib)))
    (by simpa using hdf)
  obtain ⟨res, s3, hloop⟩ := expLoop_copy_ok dest ps inv (0, 0, []) s2
  rcases res with ⟨n, m, mv⟩
  have hmode : ¬ (Mode.copy = Mode.move ∧ mv ≠ []) :=
    fun h => Mode.noConfusion h.1
  refine ⟨n, m, ?_⟩
  rw [exportLibrary]
  simp only [bind_apply, hpe, Bool.not_true, Bool.false_eq_true, if_false,
    hrj, he2, hloop, if_neg hmode, pure_apply]

theorem exportLibrary_copy_single (dest lib : Path) (ps : Bool) (s : St)
    (t : Song)
    (hdb : s.file? (dbPathOf lib) = some (FData.json [t]))
    (hdf : s.isFile dest = false)
    (hsrc : s.isFile t.absPath = true)
    (hpar : s.isFile ((destOf dest ps t).dropLast) = false)
    (hex : s.existsPath (destOf dest ps t) = true) :
    (exportLibrary dest .copy ps lib s).1 = Except.ok (1, 0) := by
  have hdbe : s.existsPath (dbPathOf lib) = true :=
    isFile_existsPath (by rw [St.isFile, hdb]; rfl)
  have hpe : fsPathExists (dbPathOf lib) s =
      (Except.ok true, s.log (.statE (dbPathOf lib))) := by
    simp [fsPathExists, hdbe]
  have hrj : fsReadJson (dbPathOf lib) (s.log (.statE (dbPathOf lib))) =
      (Except.ok [t],
        (s.log (.statE (dbPathOf lib))).log (.readE (dbPathOf lib))) := by
    simp [fsReadJson, hdb]
  obtain ⟨s2, he2, hf2, hkeep2, hmono2⟩ := ensureDir_ok dest
    ((s.log (.statE (dbPathOf lib))).log (.readE (dbPathOf lib)))
    (by simpa using hdf)
  have hf2s : s2.files = s.files := hf2
  have habs2 : s2.existsPath t.absPath = true :=
    hmono2 _ (by simpa using isFile_existsPath hsrc)
  have hpe2 : fsPathExists t.absPath s2 =
      (Except.ok true, s2.log (.statE t.absPath)) := by
    simp [fsPathExists, habs2]
  obtain ⟨s3, he3, hf3, hkeep3, hmono3⟩ := ensureDir_ok
    ((destOf dest ps t).dropLast) (s2.log (.statE t.absPath))
    (by rw [isFile_log, isFile_congr hf2s]; exact hpar)
  have hf3s : s3.files = s.files := by
    rw [hf3]
    show (s2.log (.statE t.absPath)).files = s.files
    rw [log_files, hf2s]
  have hdex3 : s3.existsPath (destOf dest ps t) = true := by
    apply hmono3
    rw [existsPath_log]
    exact hmono2 _ (by simpa using hex)
  obtain ⟨dsrc, hdsrc⟩ : ∃ d, s3.file? t.absPath = some d := by
    have : s3.isFile t.absPath = true := by
      rw [isFile_congr hf3s]
      exact hsrc
    rw [St.isFile] at this
    cases hq : s3.file? t.absPath with
    | none => rw [hq] at this; cases this
    | some d => exact ⟨d, rfl⟩
  have hcopy : fsCopy t.absPath (destOf dest ps t) s3 =
      (Except.ok (), s3.log (.copyE t.absPath (destOf dest ps t))) := by
    simp [fsCopy, hdsrc, hdex3]
  have hitem : expItem dest .copy ps t s2 =
      (Except.ok (.done none),
        s3.log (.copyE t.absPath (destOf dest ps t))) := by
    rw [expItem]
    dsimp only
    simp only [bind_apply, hpe2, Bool.not_true, Bool.false_eq_true, if_false,
      he3, hcopy, pure_apply, if_pos rfl, if_true]
  have hatt : attempt (expItem dest .copy ps t) s2 =
      (Except.ok (some (.done none)),
        s3.log (.copyE t.absPath (destOf dest ps t))) := by
    rw [attempt, hitem]
  have hloop : expLoop dest .copy ps [t] (0, 0, []) s2 =
      (Except.ok (1, 0, []),
        s3.log (.copyE t.absPath (destOf dest ps t))) := by
    simp [expLoop, bind_apply, hatt, pure_apply]
  have hmode : ¬ (Mode.copy = Mode.move ∧ ([] : List Path) ≠ []) :=
    fun h => Mode.noConfusion h.1
  rw [exportLibrary]
  simp only [bind_apply, hpe, Bool.not_true, Bool.false_eq_true, if_false,
    hrj, he2, hloop, if_neg hmode, pure_apply]

/-- C7 (amended): a copy-mode export (either a playlist or the whole
library) never changes or removes any pre-existing file — the inventory
database and every playlist file are untouched and no existing destination
file is overwritten; with a well-formed database the batch completes with
success/failure counts; but a copy onto an already-existing destination
path is silently skipped by fs-extra and counted as a success, not a
failure. -/
theorem claim_C7 :
    (∀ (name : String) (dest lib : Path) (ps : Bool),
      PreservesFiles (exportPlaylist name dest .copy ps lib)) ∧
    (∀ (dest lib : Path) (ps : Bool),
      PreservesFiles (exportLibrary dest .copy ps lib)) ∧
    (∀ (dest lib : Path) (ps : Bool) (s : St) (inv : List Song),
      s.file? (dbPathOf lib) = some (FData.json inv) →
      s.isFile dest = false →
      ∃ n m : Nat, (exportLibrary dest .copy ps lib s).1 = Except.ok (n, m)) ∧
    (∀ (dest lib : Path) (ps : Bool) (s : St) (t : Song),
      s.file? (dbPathOf lib) = some (FData.json [t]) →
      s.isFile dest = false →
      s.isFile t.absPath = true →
      s.isFile ((destOf dest ps t).dropLast) = false →
      s.existsPath (destOf dest ps t) = true →
      (exportLibrary dest .copy ps lib s).1 = Except.ok (1, 0)) :=
  ⟨fun name dest lib ps => pres_exportPlaylist_copy name dest lib ps,
   fun dest lib ps => pres_exportLibrary_copy dest lib ps,
   fun dest lib ps s inv hdb hdf => exportLibrary_copy_ok dest lib ps s inv hdb hdf,
   fun dest lib ps s t hdb hdf hsrc hpar hex =>
     exportLibrary_copy_single dest lib ps s t hdb hdf hsrc hpar hex⟩

/-- C7 counterexample: copying the library onto a destination that already
holds a file of the same name does not overwrite it, but the item is
counted as a success — the batch result is 1 success, 0 failures, not the
failure the claim requires. -/
theorem claim_C7_cx :
    stC7.file? ["dst", "01 - t.mp3"] = some (FData.blob 9) ∧
    (exportLibrary ["dst"] .copy false ["lib"] stC7).1 = Except.ok (1, 0) ∧
    (exportLibrary ["dst"] .copy false ["lib"] stC7).2.file?
      ["dst", "01 - t.mp3"] = some (FData.blob 9) ∧
    (exportLibrary ["dst"] .copy false ["lib"] stC7).2.file?
      (dbPathOf ["lib"]) = some (FData.json [tJazz]) := by
  refine ⟨by decide, by decide, by decide, by decide⟩

/-- C7 witness: the amended counting at the concrete collision state. -/
theorem claim_C7_witness :
    (exportLibrary ["dst"] .copy false ["lib"] stC7).1 = Except.ok (1, 0) :=
  claim_C7.2.2.2 ["dst"] ["lib"] false stC7 tJazz (by decide) (by decide)
    (by decide) (by decide) (by decide)

theorem bind_ok_inv {α β : Type} {x : M α} {f : α → M β} {s s' : St}
    {b : β} (h : (x >>= f) s = (Except.ok b, s')) :
    ∃ a s1, x s = (Except.ok a, s1) ∧ f a s1 = (Except.ok b, s') := by
  rw [bind_apply] at h
  rcases hx : x s with ⟨v, s1⟩
  rw [hx] at h
  cases v with
  | ok a => exact ⟨a, s1, rfl, h⟩
  | error e => simp at h

theorem attempt_inv {α : Type} {x : M α} {s s' : St} {r : Option α}
    (h : attempt x s = (Except.ok r, s')) :
    (∃ a, r = some a ∧ x s = (Except.ok a, s')) ∨
    (r = none ∧ ∃ e, x s = (Except.error e, s')) := by
  rw [attempt] at h
  rcases hx : x s with ⟨v, s1⟩
  rw [hx] at h
  cases v with
  | ok a =>
    left
    obtain ⟨h1, h2⟩ := Prod.mk.injEq .. ▸ h
    exact ⟨a, by injection h1 with hh; exact hh.symm ▸ rfl, by rw [h2]⟩
  | error e =>
    right
    obtain ⟨h1, h2⟩ := Prod.mk.injEq .. ▸ h
    exact ⟨by injection h1 with hh; exact hh.symm ▸ rfl, e, by rw [h2]⟩

theorem find?_filter_ne_of_ne (fs : List (Path × FData)) (src q : Path)
    (h : q ≠ src) :
    (fs.filter (fun e => e.1 ≠ src)).find? (fun e => e.1 = q) =
      fs.find? (fun e => e.1 = q) := by
  induction fs with
  | nil => rfl
  | cons e fs ih =>
    by_cases hes : e.1 = src
    · have heq : ¬ (e.1 = q) := fun hh => h (hh ▸ hes ▸ rfl)
      have hpred : ¬ (decide (e.1 ≠ src) = true) := by simp [hes]
      rw [List.filter_cons, if_neg hpred,
        List.find?_cons_of_neg _ (by simpa using heq), ih]
    · have hpred : decide (e.1 ≠ src) = true := by simpa using hes
      rw [List.filter_cons, if_pos hpred]
      by_cases heq : e.1 = q
      · rw [List.find?_cons_of_pos _ (by simpa using heq),
          List.find?_cons_of_pos _ (by simpa using heq)]
      · rw [List.find?_cons_of_neg _ (by simpa using heq),
          List.find?_cons_of_neg _ (by simpa using heq), ih]

/-- Total file frame for `fsMove`: paths other than source and destination
are untouched whether or not the move succeeds. -/
theorem fsMove_frame (src dst : Path) (s : St) (q : Path)
    (h1 : q ≠ src) (h2 : q ≠ dst) :
    ((fsMove src dst s).2).file? q = s.file? q := by
  rw [fsMove]
  by_cases hex : s.existsPath dst = true
  · rw [if_pos hex]
    rfl
  · rw [if_neg hex]
    cases hs : s.file? src with
    | none => rfl
    | some d =>
      show (St.mk (setEntry (s.files.filter (fun e => e.1 ≠ src)) dst d)
        s.dirs (s.trace ++ [Ev.moveE src dst])).file? q = s.file? q
      rw [file?_setEntry_state, if_neg (fun hh => h2 hh.symm)]
      show ((s.files.filter (fun e => e.1 ≠ src)).find?
        (fun e => e.1 = q)).map (fun e => e.2) = s.file? q
      rw [find?_filter_ne_of_ne _ _ _ h1]
      rfl

theorem fsMove_dirs (src dst : Path) (s : St) :
    ((fsMove src dst s).2).dirs = s.dirs := by
  rw [fsMove]
  by_cases hex : s.existsPath dst = true
  · rw [if_pos hex]
    rfl
  · rw [if_neg hex]
    cases hs : s.file? src with
    | none => rfl
    | some d => rfl

theorem fsCopy_frame (src dst : Path) (s : St) (q : Path) (h2 : q ≠ dst) :
    ((fsCopy src dst s).2).file? q = s.file? q := by
  cases hs : s.file? src with
  | none =>
    have hrun : fsCopy src dst s =
        (Except.error (.ioFailure "ENOENT copy"), s.log (.copyE src dst)) := by
      simp [fsCopy, hs]
    rw [hrun]
    rfl
  | some d =>
    by_cases hex : s.existsPath dst = true
    · have hrun : fsCopy src dst s = (Except.ok (), s.log (.copyE src dst)) := by
        simp [fsCopy, hs, hex]
      rw [hrun]
      rfl
    · have hexf : s.existsPath dst = false := by simpa using hex
      have hrun : fsCopy src dst s = (Except.ok (), St.mk
          (setEntry s.files dst d) s.dirs (s.trace ++ [.copyE src dst])) := by
        simp [fsCopy, hs, hexf]
      rw [hrun]
      rw [file?_setEntry_state, if_neg (fun hh => h2 hh.symm)]
      rfl

theorem fsCopy_dirs (src dst : Path) (s : St) :
    ((fsCopy src dst s).2).dirs = s.dirs := by
  cases hs : s.file? src with
  | none =>
    have hrun : fsCopy src dst s =
        (Except.error (.ioFailure "ENOENT copy"), s.log (.copyE src dst)) := by
      simp [fsCopy, hs]
    rw [hrun]
    rfl
  | some d =>
    by_cases hex : s.existsPath dst = true
    · have hrun : fsCopy src dst s = (Except.ok (), s.log (.copyE src dst)) := by
        simp [fsCopy, hs, hex]
      rw [hrun]
      rfl
    · have hexf : s.existsPath dst = false := by simpa using hex
      have hrun : fsCopy src dst s = (Except.ok (), St.mk
          (setEntry s.files dst d) s.dirs (s.trace ++ [.copyE src dst])) := by
        simp [fsCopy, hs, hexf]
      rw [hrun]

theorem fsEnsureDir_files (p : Path) (s : St) :
    ((fsEnsureDir p s).2).files = s.files := by
  rw [fsEnsureDir]
  by_cases h1 : s.isFile p = true
  · rw [if_pos h1]
    rfl
  · rw [if_neg h1]
    by_cases h2 : s.isDir p = true
    · rw [if_pos h2]
      rfl
    · rw [if_neg h2]

theorem fsEnsureDir_dirs_le (p : Path) (s : St) :
    s.dirs.IsPrefix ((fsEnsureDir p s).2).dirs := by
  rw [fsEnsureDir]
  by_cases h1 : s.isFile p = true
  · rw [if_pos h1]
    exact List.prefix_refl _
  · rw [if_neg h1]
    by_cases h2 : s.isDir p = true
    · rw [if_pos h2]
      exact List.prefix_refl _
    · rw [if_neg h2]
      exact ⟨[p], rfl⟩

/-! ### Inversion helpers for the export/organise pipelines -/

theorem append_singleton_inj {pd : Path} {f g : String}
    (h : pd ++ [f] = pd ++ [g]) : f = g := by
  have h2 := List.append_cancel_left h
  injection h2

theorem file?_some_mem {s : St} {p : Path} {d : FData}
    (h : s.file? p = some d) : (p, d) ∈ s.files := by
  rw [St.file?] at h
  rcases he : s.files.find? (fun e => e.1 = p) with _ | e
  · rw [he] at h
    simp at h
  · rw [he] at h
    have hm := List.mem_of_find?_eq_some he
    have hp : e.1 = p := by simpa using List.find?_some he
    have hd : e.2 = d := by simpa using h
    have : (p, d) = e := by
      rw [← hp, ← hd]
    rw [this]
    exact hm

theorem isDir_of_child_file {s : St} {p : Path} {f : String} {d : FData}
    (h : s.file? (p ++ [f]) = some d) : s.isDir p = true := by
  have hm := file?_some_mem h
  rw [St.isDir, Bool.or_eq_true]
  right
  rw [List.any_eq_true]
  refine ⟨(p ++ [f], d), hm, ?_⟩
  rw [Bool.and_eq_true]
  refine ⟨List.isPrefixOf_iff_prefix.mpr (List.prefix_append p [f]), ?_⟩
  have hlen : p.length < (p ++ [f]).length := by
    simp
  refine decide_eq_true (fun hh => ?_)
  have := congrArg List.length hh
  simp at this

theorem file?_child_none_of_not_dir {s : St} {p : Path}
    (h : s.isDir p = false) (f : String) : s.file? (p ++ [f]) = none := by
  cases hf : s.file? (p ++ [f]) with
  | none => rfl
  | some d =>
    rw [isDir_of_child_file hf] at h
    exact absurd h (by simp)

theorem childName_self_append (p : Path) (f : String) :
    childName p (p ++ [f]) = some f := by
  rw [childName,
    if_pos (List.isPrefixOf_iff_prefix.mpr (List.prefix_append p [f]))]
  rw [List.drop_left]
  rfl

theorem mem_readdir_names {s : St} {pd : Path} {f : String} {d : FData}
    (h : s.file? (pd ++ [f]) = some d) :
    f ∈ jsSetList ((s.files.map (fun e => e.1) ++ s.dirs).filterMap
      (childName pd)) := by
  refine (mem_jsSetList f _).mpr ?_
  refine List.mem_filterMap.mpr ⟨pd ++ [f], ?_, childName_self_append pd f⟩
  exact List.mem_append_left _
    (List.mem_map.mpr ⟨(pd ++ [f], d), file?_some_mem h, rfl⟩)

theorem startsWithS_append (pre rest : String) :
    startsWithS (pre ++ rest) pre = true := by
  rw [startsWithS, String.data_append]
  exact List.isPrefixOf_iff_prefix.mpr (List.prefix_append _ _)

theorem genreFileName_starts (g : String) :
    startsWithS (genreFileName g) "Genre_" = true := by
  rw [genreFileName, startsWithS, String.data_append, String.data_append]
  exact List.isPrefixOf_iff_prefix.mpr
    ((List.prefix_append _ _).trans (List.prefix_append _ _))

theorem sweepCond_false_of_genre {f : String}
    (h : startsWithS f "Genre_" = true) : sweepCond f = false := by
  rw [sweepCond, h]
  simp

theorem fsReadFile_ok_inv {p : Path} {s s1 : St} {ct : String}
    (h : fsReadFile p s = (Except.ok ct, s1)) :
    ∃ d, s.file? p = some d ∧ ct = d.asText ∧ s1 = s.log (.readE p) := by
  rw [fsReadFile] at h
  cases hf : s.file? p with
  | none =>
    rw [hf] at h
    exact absurd h (by simp)
  | some d =>
    rw [hf] at h
    obtain ⟨h1, h2⟩ := Prod.mk.injEq .. ▸ h
    refine ⟨d, rfl, ?_, h2.symm⟩
    injection h1 with hh
    exact hh.symm

theorem fsReadJson_ok_inv {p : Path} {s s1 : St} {inv : List Song}
    (h : fsReadJson p s = (Except.ok inv, s1)) :
    s.file? p = some (.json inv) ∧ s1 = s.log (.readE p) := by
  rw [fsReadJson] at h
  cases hf : s.file? p with
  | none =>
    rw [hf] at h
    exact absurd h (by simp)
  | some d =>
    rw [hf] at h
    cases d with
    | text c => exact absurd h (by simp)
    | blob n => exact absurd h (by simp)
    | json inv2 =>
      obtain ⟨h1, h2⟩ := Prod.mk.injEq .. ▸ h
      have hinv : inv2 = inv := by
        injection h1
      subst hinv
      exact ⟨rfl, h2.symm⟩

theorem fsPathExists_inv {p : Path} {s s1 : St} {v : Bool}
    (h : fsPathExists p s = (Except.ok v, s1)) :
    v = s.existsPath p ∧ s1 = s.log (.statE p) := by
  obtain ⟨h1, h2⟩ := Prod.mk.injEq .. ▸ h
  refine ⟨?_, h2.symm⟩
  injection h1 with hh
  exact hh.symm

theorem fsReaddir_ok_inv {p : Path} {s s1 : St} {names : List String}
    (h : fsReaddir p s = (Except.ok names, s1)) :
    names = jsSetList ((s.files.map (fun e => e.1) ++ s.dirs).filterMap
      (childName p)) ∧ s1 = s.log (.listE p) := by
  rw [fsReaddir] at h
  by_cases h1 : s.isFile p = true
  · rw [if_pos h1] at h
    exact absurd h (by simp)
  · rw [if_neg h1] at h
    by_cases h2 : s.isDir p = true
    · rw [if_pos h2] at h
      obtain ⟨ha, hb⟩ := Prod.mk.injEq .. ▸ h
      refine ⟨?_, hb.symm⟩
      injection ha with hh
      exact hh.symm
    · rw [if_neg h2] at h
      exact absurd h (by simp)

theorem fsOutputFile_apply (p : Path) (c : String) (s : St) :
    fsOutputFile p c s = (Except.ok (), St.mk (setEntry s.files p
      (FData.text c)) s.dirs (s.trace ++ [Ev.writeE p])) := rfl

theorem fsOutputJson_apply (p : Path) (inv : List Song) (s : St) :
    fsOutputJson p inv s = (Except.ok (), St.mk (setEntry s.files p
      (FData.json inv)) s.dirs (s.trace ++ [Ev.writeE p])) := rfl

theorem fsOutputFile_ok_inv {p : Path} {c : String} {s s1 : St} {u : Unit}
    (h : fsOutputFile p c s = (Except.ok u, s1)) :
    s1 = St.mk (setEntry s.files p (FData.text c)) s.dirs
      (s.trace ++ [Ev.writeE p]) := by
  rw [fsOutputFile_apply] at h
  obtain ⟨_, h2⟩ := Prod.mk.injEq .. ▸ h
  exact h2.symm

theorem fsOutputJson_ok_inv {p : Path} {inv : List Song} {s s1 : St}
    {u : Unit} (h : fsOutputJson p inv s = (Except.ok u, s1)) :
    s1 = St.mk (setEntry s.files p (FData.json inv)) s.dirs
      (s.trace ++ [Ev.writeE p]) := by
  rw [fsOutputJson_apply] at h
  obtain ⟨_, h2⟩ := Prod.mk.injEq .. ▸ h
  exact h2.symm

/-- Full characterisation of a successful sweep over distinct names: every
listed name passing the filter had a readable file and now holds the
filtered content; every other path is untouched. -/
theorem sweepLoop_run (pd : Path) (moved : List Path) (names : List String) :
    ∀ (s s' : St), names.Nodup →
    sweepLoop pd moved names s = (Except.ok (), s') →
    (∀ f ∈ names, sweepCond f = true →
      ∃ d, s.file? (pd ++ [f]) = some d ∧
        s'.file? (pd ++ [f]) =
          some (FData.text (sweepContent pd moved d.asText))) ∧
    (∀ q : Path, (∀ f ∈ names, sweepCond f = true → q ≠ pd ++ [f]) →
      s'.file? q = s.file? q) := by
  induction names with
  | nil =>
    intro s s' _ h
    have h' : ((Except.ok () : Except Err Unit), s) = (Except.ok (), s') := h
    obtain ⟨_, h2⟩ := Prod.mk.injEq .. ▸ h'
    subst h2
    exact ⟨fun f hf => absurd hf (List.not_mem_nil f), fun q _ => rfl⟩
  | cons file rest ih =>
    intro s s' hnd h
    obtain ⟨hfnotin, hndrest⟩ := List.nodup_cons.mp hnd
    by_cases hc : sweepCond file = true
    · simp only [sweepLoop] at h
      rw [if_pos hc] at h
      obtain ⟨ct, s1, hread, h2⟩ := bind_ok_inv h
      obtain ⟨d, hd, hcteq, hs1⟩ := fsReadFile_ok_inv hread
      obtain ⟨u2, s2, hwrite, hrec⟩ := bind_ok_inv h2
      have hs2 := fsOutputFile_ok_inv hwrite
      subst hs1
      subst hs2
      subst hcteq
      obtain ⟨ihA, ihB⟩ := ih _ s' hndrest hrec
      have hwrittenpath : ∀ g ∈ rest, sweepCond g = true →
          (pd ++ [file] : Path) ≠ pd ++ [g] := by
        intro g hg _ heq
        exact hfnotin (append_singleton_inj heq ▸ hg)
      constructor
      · intro f hf hcondf
        rcases List.mem_cons.mp hf with hfe | hfr
        · subst hfe
          refine ⟨d, hd, ?_⟩
          rw [ihB (pd ++ [f]) hwrittenpath]
          rw [file?_setEntry_state, if_pos rfl]
        · obtain ⟨d', hd', hres⟩ := ihA f hfr hcondf
          refine ⟨d', ?_, hres⟩
          rw [file?_setEntry_state] at hd'
          rw [if_neg (fun hh => hfnotin
            (by rw [append_singleton_inj hh]; exact hfr))] at hd'
          exact hd'
      · intro q hq
        rw [ihB q (fun g hg hcg => hq g (List.mem_cons_of_mem _ hg) hcg)]
        rw [file?_setEntry_state,
          if_neg (fun hh => hq file (List.mem_cons_self _ _) hc hh.symm)]
        rfl
    · simp only [sweepLoop] at h
      rw [if_neg hc] at h
      obtain ⟨ihA, ihB⟩ := ih _ s' hndrest h
      constructor
      · intro f hf hcondf
        rcases List.mem_cons.mp hf with hfe | hfr
        · subst hfe
          exact absurd hcondf hc
        · exact ihA f hfr hcondf
      · intro q hq
        exact ihB q (fun g hg hcg => hq g (List.mem_cons_of_mem _ hg) hcg)

/-- No line surviving the sweep resolves to a moved path (non-comment,
non-blank lines only). -/
theorem sweepClean (pd : Path) (moved : List Path) (c line : String)
    (hline : line ∈ splitNl (sweepContent pd moved c))
    (hh : startsWithHash line = false) (hb : jsTrimS line ≠ "") :
    moved.contains (joinNorm pd (jsTrimS line)) = false := by
  rw [sweepContent] at hline
  rcases hkept : (splitNl c).filter (sweepKeep pd moved) with _ | ⟨k, ks⟩
  · rw [hkept] at hline
    have hemp : line = "" := by
      simpa [joinNl, splitNl, splitSep] using hline
    subst hemp
    exact absurd rfl hb
  · rw [hkept] at hline
    have hnl : ∀ l ∈ k :: ks, (Char.ofNat 10) ∉ l.data := by
      intro l hl
      have hl2 : l ∈ splitNl c := List.mem_of_mem_filter (hkept ▸ hl)
      exact splitNl_no_nl c l hl2
    rw [splitNl_join (k :: ks) hnl (by simp)] at hline
    have hkeep : sweepKeep pd moved line = true :=
      List.of_mem_filter (hkept ▸ hline)
    cases hcontains : moved.contains (joinNorm pd (jsTrimS line)) with
    | false => rfl
    | true =>
      rw [sweepKeep, hh, hcontains] at hkeep
      simp [hb] at hkeep

/-- Trichotomy for one move-mode export item: the track file is missing,
or it is moved (reported via `ItemRes.done`), or an error occurs; in the
first and last cases no file entry changes. -/
theorem expItem_move_run (dest : Path) (ps : Bool) (t : Song) (s : St) :
    (∃ s1, expItem dest Mode.move ps t s = (Except.ok ItemRes.missing, s1) ∧
      s1.files = s.files) ∨
    (∃ s1, expItem dest Mode.move ps t s =
      (Except.ok (ItemRes.done (some t.absPath)), s1)) ∨
    (∃ e s1, expItem dest Mode.move ps t s = (Except.error e, s1) ∧
      s1.files = s.files) := by
  by_cases hex : s.existsPath t.absPath = true
  · have hstep : expItem dest Mode.move ps t s =
        (fsEnsureDir (destOf dest ps t).dropLast >>= fun _ =>
          fsMove t.absPath (destOf dest ps t) >>= fun _ =>
            pure (ItemRes.done (some t.absPath)))
          (s.log (.statE t.absPath)) := by
      simp [expItem, bind_apply, fsPathExists, hex, pure_apply]
    by_cases hfile : (s.log (Ev.statE t.absPath)).isFile
        (destOf dest ps t).dropLast = true
    · have hens : fsEnsureDir (destOf dest ps t).dropLast
          (s.log (.statE t.absPath)) =
          (Except.error (.ioFailure "EEXIST ensureDir"),
            (s.log (.statE t.absPath)).log
              (.mkdirE (destOf dest ps t).dropLast)) := by
        rw [fsEnsureDir, if_pos hfile]
      have hall : expItem dest Mode.move ps t s =
          (Except.error (.ioFailure "EEXIST ensureDir"),
            (s.log (.statE t.absPath)).log
              (.mkdirE (destOf dest ps t).dropLast)) := by
        rw [hstep, bind_apply, hens]
      rw [hall]
      exact Or.inr (Or.inr ⟨_, _, rfl, rfl⟩)
    · obtain ⟨s2, h2, hf2⟩ : ∃ s2, fsEnsureDir (destOf dest ps t).dropLast
          (s.log (.statE t.absPath)) = (Except.ok (), s2) ∧
          s2.files = s.files := by
        rw [fsEnsureDir, if_neg hfile]
        by_cases hdir : (s.log (Ev.statE t.absPath)).isDir
            (destOf dest ps t).dropLast = true
        · rw [if_pos hdir]
          exact ⟨_, rfl, rfl⟩
        · rw [if_neg hdir]
          exact ⟨_, rfl, rfl⟩
      have hall1 : expItem dest Mode.move ps t s =
          (fsMove t.absPath (destOf dest ps t) >>= fun _ =>
            pure (ItemRes.done (some t.absPath))) s2 := by
        rw [hstep, bind_apply, h2]
      by_cases hexd : s2.existsPath (destOf dest ps t) = true
      · have hmv : fsMove t.absPath (destOf dest ps t) s2 =
            (Except.error (.ioFailure "dest already exists"),
              s2.log (.moveE t.absPath (destOf dest ps t))) := by
          rw [fsMove, if_pos hexd]
        have hall2 : expItem dest Mode.move ps t s =
            (Except.error (.ioFailure "dest already exists"),
              s2.log (.moveE t.absPath (destOf dest ps t))) := by
          rw [hall1, bind_apply, hmv]
        rw [hall2]
        exact Or.inr (Or.inr ⟨_, _, rfl, hf2⟩)
      · have hexf : s2.existsPath (destOf dest ps t) = false := by
          simpa using hexd
        cases hsrc : s2.file? t.absPath with
        | none =>
          have hmv : fsMove t.absPath (destOf dest ps t) s2 =
              (Except.error (.ioFailure "ENOENT move"),
                s2.log (.moveE t.absPath (destOf dest ps t))) := by
            simp [fsMove, hexf, hsrc]
          have hall2 : expItem dest Mode.move ps t s =
              (Except.error (.ioFailure "ENOENT move"),
                s2.log (.moveE t.absPath (destOf dest ps t))) := by
            rw [hall1, bind_apply, hmv]
          rw [hall2]
          exact Or.inr (Or.inr ⟨_, _, rfl, hf2⟩)
        | some d =>
          have hmv : fsMove t.absPath (destOf dest ps t) s2 =
              (Except.ok (), St.mk (setEntry
                  (s2.files.filter (fun e => e.1 ≠ t.absPath))
                  (destOf dest ps t) d)
                s2.dirs (s2.trace ++
                  [.moveE t.absPath (destOf dest ps t)])) := by
            simp [fsMove, hexf, hsrc]
          have hall2 : expItem dest Mode.move ps t s =
              (Except.ok (ItemRes.done (some t.absPath)),
                St.mk (setEntry
                  (s2.files.filter (fun e => e.1 ≠ t.absPath))
                  (destOf dest ps t) d)
                s2.dirs (s2.trace ++
                  [.moveE t.absPath (destOf dest ps t)])) := by
            rw [hall1, bind_apply, hmv]
            rfl
          exact Or.inr (Or.inl ⟨_, hall2⟩)
  · have hexf : s.existsPath t.absPath = false := by simpa using hex
    left
    refine ⟨s.log (.statE t.absPath), ?_, rfl⟩
    simp [expItem, bind_apply, fsPathExists, hexf, pure_apply]

/-- A successful move-mode export loop: the collected `moved` list extends
the accumulator with absolute paths of listed tracks, and when nothing new
was moved the file table is unchanged. -/
theorem expLoop_move_run (dest : Path) (ps : Bool) (tracks : List Song) :
    ∀ (a b : Nat) (mv : List Path) (s s' : St) (res : Nat × Nat × List Path),
    expLoop dest Mode.move ps tracks (a, b, mv) s = (Except.ok res, s') →
    ∃ nmv, res.2.2 = mv ++ nmv ∧
      (∀ p ∈ nmv, ∃ t ∈ tracks, p = t.absPath) ∧
      (nmv = [] → s'.files = s.files) := by
  induction tracks with
  | nil =>
    intro a b mv s s' res h
    have h' : ((Except.ok (a, b, mv) : Except Err (Nat × Nat × List Path)), s)
        = (Except.ok res, s') := h
    obtain ⟨h1, h2⟩ := Prod.mk.injEq .. ▸ h'
    have hres : (a, b, mv) = res := by injection h1
    subst h2
    refine ⟨[], ?_, fun p hp => absurd hp (List.not_mem_nil p), fun _ => rfl⟩
    rw [← hres]
    simp
  | cons t rest ih =>
    intro a b mv s s' res h
    simp only [expLoop] at h
    obtain ⟨rr, s1, hatt, hrest⟩ := bind_ok_inv h
    rcases expItem_move_run dest ps t s with ⟨sm, hm, hmf⟩ | ⟨sm, hm⟩ |
      ⟨e, sm, hm, hmf⟩
    · have hatt2 : attempt (expItem dest Mode.move ps t) s =
          (Except.ok (some ItemRes.missing), sm) := by
        rw [attempt, hm]
      rw [hatt2] at hatt
      obtain ⟨h1, h2⟩ := Prod.mk.injEq .. ▸ hatt
      have hrr : (some ItemRes.missing : Option ItemRes) = rr := by
        injection h1
      subst h2
      rw [← hrr] at hrest
      obtain ⟨nmv, hres, hsub, hfe⟩ := ih a (b + 1) mv sm s' res hrest
      refine ⟨nmv, hres, ?_, fun hn => (hfe hn).trans hmf⟩
      intro p hp
      obtain ⟨t', ht', he⟩ := hsub p hp
      exact ⟨t', List.mem_cons_of_mem _ ht', he⟩
    · have hatt2 : attempt (expItem dest Mode.move ps t) s =
          (Except.ok (some (ItemRes.done (some t.absPath))), sm) := by
        rw [attempt, hm]
      rw [hatt2] at hatt
      obtain ⟨h1, h2⟩ := Prod.mk.injEq .. ▸ hatt
      have hrr : (some (ItemRes.done (some t.absPath)) : Option ItemRes)
          = rr := by
        injection h1
      subst h2
      rw [← hrr] at hrest
      obtain ⟨nmv, hres, hsub, _⟩ := ih (a + 1) b (mv ++ [t.absPath]) sm s'
        res hrest
      refine ⟨t.absPath :: nmv, ?_, ?_, ?_⟩
      · rw [hres]
        simp
      · intro p hp
        rcases List.mem_cons.mp hp with hpe | hpr
        · exact ⟨t, List.mem_cons_self _ _, hpe⟩
        · obtain ⟨t', ht', he⟩ := hsub p hpr
          exact ⟨t', List.mem_cons_of_mem _ ht', he⟩
      · intro hn
        exact absurd hn (by simp)
    · have hatt2 : attempt (expItem dest Mode.move ps t) s =
          (Except.ok (none : Option ItemRes), sm) := by
        rw [attempt, hm]
      rw [hatt2] at hatt
      obtain ⟨h1, h2⟩ := Prod.mk.injEq .. ▸ hatt
      have hrr : (none : Option ItemRes) = rr := by
        injection h1
      subst h2
      rw [← hrr] at hrest
      obtain ⟨nmv, hres, hsub, hfe⟩ := ih a (b + 1) mv sm s' res hrest
      refine ⟨nmv, hres, ?_, fun hn => (hfe hn).trans hmf⟩
      intro p hp
      obtain ⟨t', ht', he⟩ := hsub p hp
      exact ⟨t', List.mem_cons_of_mem _ ht', he⟩

/-- A successful Master regeneration writes exactly the Master playlist
file and touches nothing else. -/
theorem generateMaster_inv {inv : List Song} {lib : Path} {s s' : St}
    {u : Unit} (h : generateMasterPlaylist inv lib s = (Except.ok u, s')) :
    s'.file? (playlistDirOf lib ++ [masterName ++ ".m3u8"]) =
      some (FData.text (playlistHeader ++ joinNl (inv.map (fun song =>
        relStr (playlistDirOf lib) song.absPath)))) ∧
    ∀ q : Path, q ≠ playlistDirOf lib ++ [masterName ++ ".m3u8"] →
      s'.file? q = s.file? q := by
  rw [generateMasterPlaylist] at h
  obtain ⟨a, s1, hens, hout⟩ := bind_ok_inv h
  have hs' := fsOutputFile_ok_inv hout
  subst hs'
  have hs1f : s1.files = s.files := by
    have h2 : (fsEnsureDir (playlistDirOf lib) s).2 = s1 :=
      congrArg Prod.snd hens
    rw [← h2]
    exact fsEnsureDir_files _ s
  constructor
  · rw [file?_setEntry_state, if_pos rfl]
  · intro q hq
    rw [file?_setEntry_state, if_neg (fun hh => hq hh.symm)]
    show (St.mk s1.files s1.dirs s1.trace).file? q = s.file? q
    exact file?_congr (show (St.mk s1.files s1.dirs s1.trace).files =
      s.files from hs1f) q

/-- A run of the genre write loop over entries with pairwise-distinct file
names: every entry's genre file holds the header plus its tracks, and all
other paths are untouched. -/
theorem writeGenreLoop_run (pd : Path)
    (entries : List (String × List String)) :
    ∀ (s s' : St) (u : Unit),
    (entries.map (fun e => genreFileName e.1)).Nodup →
    writeGenreLoop pd entries s = (Except.ok u, s') →
    (∀ e ∈ entries, s'.file? (pd ++ [genreFileName e.1]) =
      some (FData.text (playlistHeader ++ joinNl e.2))) ∧
    (∀ q : Path, (∀ e ∈ entries, q ≠ pd ++ [genreFileName e.1]) →
      s'.file? q = s.file? q) := by
  induction entries with
  | nil =>
    intro s s' u _ h
    have h' : ((Except.ok () : Except Err Unit), s) = (Except.ok u, s') := h
    obtain ⟨_, h2⟩ := Prod.mk.injEq .. ▸ h'
    subst h2
    exact ⟨fun e he => absurd he (List.not_mem_nil e), fun q _ => rfl⟩
  | cons e rest ih =>
    intro s s' u hnd h
    obtain ⟨g, ts⟩ := e
    obtain ⟨hgnotin, hndrest⟩ := List.nodup_cons.mp hnd
    simp only [writeGenreLoop] at h
    obtain ⟨_, s1, hout, hrec⟩ := bind_ok_inv h
    have hs1 := fsOutputFile_ok_inv hout
    subst hs1
    obtain ⟨ihA, ihB⟩ := ih _ s' u hndrest hrec
    have hgpath : ∀ e2 ∈ rest,
        (pd ++ [genreFileName g] : Path) ≠ pd ++ [genreFileName e2.1] := by
      intro e2 he2 heq
      refine hgnotin ?_
      show genreFileName g ∈ List.map (fun e => genreFileName e.1) rest
      rw [append_singleton_inj heq]
      exact List.mem_map.mpr ⟨e2, he2, rfl⟩
    constructor
    · intro e2 he2
      rcases List.mem_cons.mp he2 with hee | her
      · rw [hee]
        rw [ihB (pd ++ [genreFileName g]) hgpath]
        rw [file?_setEntry_state, if_pos rfl]
      · exact ihA e2 her
    · intro q hq
      rw [ihB q (fun e2 he2 => hq e2 (List.mem_cons_of_mem _ he2))]
      rw [file?_setEntry_state,
        if_neg (fun hh => hq (g, ts) (List.mem_cons_self _ _) hh.symm)]
      rfl

/-- Structural inversion of a successful move-mode `exportLibrary` run:
the inventory database existed, and either nothing was moved (then no file
entry changed), or the inventory was filtered, Master and genre playlists
regenerated, and (when the Playlists directory existed) the custom sweep
ran over the directory listing. -/
theorem exportLibrary_move_inv {dest lib : Path} {ps : Bool} {s s' : St}
    {r : Nat × Nat}
    (h : exportLibrary dest Mode.move ps lib s = (Except.ok r, s')) :
    ∃ (inv0 : List Song) (moved : List Path),
      s.file? (dbPathOf lib) = some (FData.json inv0) ∧
      (∀ p ∈ moved, ∃ t ∈ inv0, p = t.absPath) ∧
      ((moved = [] ∧ s'.files = s.files) ∨
       (moved ≠ [] ∧
        ∃ s3 s3a s3b s4 : St,
          fsOutputJson (dbPathOf lib)
            (inv0.filter (fun song => !moved.contains song.absPath)) s3 =
            (Except.ok (), s3a) ∧
          generateMasterPlaylist
            (inv0.filter (fun song => !moved.contains song.absPath)) lib
            s3a = (Except.ok (), s3b) ∧
          generateGenrePlaylists
            (inv0.filter (fun song => !moved.contains song.absPath)) lib
            s3b = (Except.ok (), s4) ∧
          ((s4.existsPath (playlistDirOf lib) = true ∧
            ∃ s6 : St, s6.files = s4.files ∧ s6.dirs = s4.dirs ∧
              sweepLoop (playlistDirOf lib) moved
                (jsSetList ((s4.files.map (fun e => e.1) ++
                  s4.dirs).filterMap (childName (playlistDirOf lib)))) s6 =
                (Except.ok (), s')) ∨
           (s4.existsPath (playlistDirOf lib) = false ∧
            s'.files = s4.files)))) := by
  rw [exportLibrary] at h
  obtain ⟨exDb, sA, hstat, h2⟩ := bind_ok_inv h
  obtain ⟨hexDb, hsA⟩ := fsPathExists_inv hstat
  subst hsA
  cases hval : exDb with
  | false =>
    rw [hval] at h2
    rw [if_pos (show (!false) = true from rfl)] at h2
    exact absurd h2 (by simp [throwE])
  | true =>
    rw [hval] at h2
    rw [if_neg (show ¬ ((!true) = true) from by simp)] at h2
    obtain ⟨inv0, sB, hread, h3⟩ := bind_ok_inv h2
    obtain ⟨hdbA, hsB⟩ := fsReadJson_ok_inv hread
    subst hsB
    have hdb : s.file? (dbPathOf lib) = some (FData.json inv0) := hdbA
    obtain ⟨a3, sC, hens, h4⟩ := bind_ok_inv h3
    have hsCfiles : sC.files = s.files := by
      have hc : (fsEnsureDir dest ((s.log
          (Ev.statE (dbPathOf lib))).log
          (Ev.readE (dbPathOf lib)))).2 = sC := congrArg Prod.snd hens
      rw [← hc, fsEnsureDir_files]
      rfl
    obtain ⟨acc, s3, hloop, h5⟩ := bind_ok_inv h4
    obtain ⟨succ, fl, moved⟩ := acc
    obtain ⟨nmv, hmv_eq, hsub, hfe⟩ :=
      expLoop_move_run dest ps inv0 0 0 [] sC s3 (succ, fl, moved) hloop
    have hmoved : moved = nmv := by simpa using hmv_eq
    subst hmoved
    dsimp only at h5
    refine ⟨inv0, moved, hdb, hsub, ?_⟩
    by_cases hmv0 : moved = []
    · rw [if_neg (fun hc => hc.2 hmv0)] at h5
      have h5' : ((Except.ok (succ, fl) : Except Err (Nat × Nat)), s3) =
          (Except.ok r, s') := h5
      obtain ⟨_, hs'⟩ := Prod.mk.injEq .. ▸ h5'
      subst hs'
      exact Or.inl ⟨hmv0, ((hfe hmv0).trans hsCfiles)⟩
    · rw [if_pos ⟨rfl, hmv0⟩] at h5
      obtain ⟨a5, s3a, hjson, h6⟩ := bind_ok_inv h5
      obtain ⟨a6, s3b, hmaster, h7⟩ := bind_ok_inv h6
      obtain ⟨a7, s4, hgenre, h8⟩ := bind_ok_inv h7
      obtain ⟨exPl, s5, hstat2, h9⟩ := bind_ok_inv h8
      obtain ⟨hexPl, hs5⟩ := fsPathExists_inv hstat2
      subst hs5
      rw [hexPl] at h9
      refine Or.inr ⟨hmv0, s3, s3a, s3b, s4, hjson, hmaster, hgenre, ?_⟩
      by_cases hpd : s4.existsPath (playlistDirOf lib) = true
      · rw [if_pos hpd] at h9
        obtain ⟨names, s6, hls, h10⟩ := bind_ok_inv h9
        obtain ⟨hnames, hs6⟩ := fsReaddir_ok_inv hls
        subst hs6
        obtain ⟨a10, s7, hsweep, hpure⟩ := bind_ok_inv h10
        have hpure' : ((Except.ok (succ, fl) : Except Err (Nat × Nat)), s7) =
            (Except.ok r, s') := hpure
        obtain ⟨_, hs'⟩ := Prod.mk.injEq .. ▸ hpure'
        subst hs'
        have hnames' : names = jsSetList ((s4.files.map (fun e => e.1) ++
            s4.dirs).filterMap (childName (playlistDirOf lib))) := hnames
        refine Or.inl ⟨hpd, (s4.log (Ev.statE (playlistDirOf lib))).log
          (Ev.listE (playlistDirOf lib)), rfl, rfl, ?_⟩
        rw [← hnames']
        exact hsweep
      · rw [if_neg hpd] at h9
        have h9' : ((Except.ok (succ, fl) : Except Err (Nat × Nat)),
            s4.log (Ev.statE (playlistDirOf lib))) = (Except.ok r, s') := h9
        obtain ⟨_, hs'⟩ := Prod.mk.injEq .. ▸ h9'
        subst hs'
        have hpdf : s4.existsPath (playlistDirOf lib) = false := by
          simpa using hpd
        exact Or.inr ⟨hpdf, rfl⟩

theorem dbPath_ne_pd_child (lib : Path) (f : String) :
    dbPathOf lib ≠ playlistDirOf lib ++ [f] := by
  intro h
  have hl := congrArg List.length h
  simp [dbPathOf, playlistDirOf] at hl

/-- Unconditional frame for the genre write loop: paths that are not a
genre playlist file of a listed entry are untouched. -/
theorem writeGenreLoop_frame (pd : Path)
    (entries : List (String × List String)) :
    ∀ (s s' : St) (u : Unit),
    writeGenreLoop pd entries s = (Except.ok u, s') →
    ∀ q : Path, (∀ e ∈ entries, q ≠ pd ++ [genreFileName e.1]) →
      s'.file? q = s.file? q := by
  induction entries with
  | nil =>
    intro s s' u h q _
    have h' : ((Except.ok () : Except Err Unit), s) = (Except.ok u, s') := h
    obtain ⟨_, h2⟩ := Prod.mk.injEq .. ▸ h'
    subst h2
    rfl
  | cons e rest ih =>
    intro s s' u h q hq
    obtain ⟨g, ts⟩ := e
    simp only [writeGenreLoop] at h
    obtain ⟨_, s1, hout, hrec⟩ := bind_ok_inv h
    have hs1 := fsOutputFile_ok_inv hout
    subst hs1
    rw [ih _ s' u hrec q (fun e2 he2 => hq e2 (List.mem_cons_of_mem _ he2))]
    rw [file?_setEntry_state,
      if_neg (fun hh => hq (g, ts) (List.mem_cons_self _ _) hh.symm)]
    rfl

/-- C6 (amended): after a successful move-mode whole-library export, the
inventory either is unchanged (nothing was moved) or drops exactly the
moved tracks; and every playlist file whose *file name* passes the sweep
filter (`sweepCond`: recognised extension, and neither the `00_Master` nor
the `Genre_` name *prefix*) holds the swept content of a pre-sweep state —
line-filtered by `sweepKeep`, which keeps comment lines, blank lines and
lines whose joined absolute path was not moved — so none of its remaining
entry lines resolves to a moved path.  Files skipped because the
`00_Master` *prefix* check also matches custom names such as
`00_Masterpieces` are not rewritten (see the counterexample). -/
theorem claim_C6 (dest lib : Path) (ps : Bool) (s s' : St) (r : Nat × Nat)
    (hrun : exportLibrary dest Mode.move ps lib s = (Except.ok r, s')) :
    ∃ (inv0 : List Song) (moved : List Path),
      s.file? (dbPathOf lib) = some (FData.json inv0) ∧
      ((moved = [] ∧ s'.files = s.files) ∨
       (moved ≠ [] ∧
        s'.file? (dbPathOf lib) =
          some (FData.json (inv0.filter
            (fun song => !moved.contains song.absPath))) ∧
        ∃ mid : St,
          (∀ f : String, sweepCond f = true →
            s'.file? (playlistDirOf lib ++ [f]) =
              (mid.file? (playlistDirOf lib ++ [f])).map
                (fun d => FData.text
                  (sweepContent (playlistDirOf lib) moved d.asText))) ∧
          (∀ f : String, sweepCond f = true → ∀ ct : FData,
            s'.file? (playlistDirOf lib ++ [f]) = some ct →
            ∀ line ∈ splitNl ct.asText,
              startsWithHash line = false → jsTrimS line ≠ "" →
              moved.contains
                (joinNorm (playlistDirOf lib) (jsTrimS line)) = false))) := by
  obtain ⟨inv0, moved, hdb, hsub, hbr⟩ := exportLibrary_move_inv hrun
  refine ⟨inv0, moved, hdb, ?_⟩
  rcases hbr with ⟨hmv, hfiles⟩ | ⟨hmv, s3, s3a, s3b, s4, hjson, hmaster,
    hgenre, hfin⟩
  · exact Or.inl ⟨hmv, hfiles⟩
  · have hs3a := fsOutputJson_ok_inv hjson
    have hdb3a : s3a.file? (dbPathOf lib) = some (FData.json (inv0.filter
        (fun song => !moved.contains song.absPath))) := by
      rw [hs3a, file?_setEntry_state, if_pos rfl]
    obtain ⟨_, hmframe⟩ := generateMaster_inv hmaster
    have hdb3b : s3b.file? (dbPathOf lib) = some (FData.json (inv0.filter
        (fun song => !moved.contains song.absPath))) := by
      rw [hmframe _ (dbPath_ne_pd_child lib _), hdb3a]
    have hgenre' : writeGenreLoop (playlistDirOf lib)
        (genreMapOf (playlistDirOf lib) (inv0.filter
          (fun song => !moved.contains song.absPath))) s3b =
        (Except.ok (), s4) := hgenre
    have hdb4 : s4.file? (dbPathOf lib) = some (FData.json (inv0.filter
        (fun song => !moved.contains song.absPath))) := by
      rw [writeGenreLoop_frame _ _ _ _ _ hgenre' _
        (fun e _ => dbPath_ne_pd_child lib _), hdb3b]
    rcases hfin with ⟨hpd, s6, hs6f, hs6d, hsweep⟩ | ⟨hpdf, hfiles4⟩
    · have hnd := jsSetList_nodup ((s4.files.map (fun e => e.1) ++
        s4.dirs).filterMap (childName (playlistDirOf lib)))
      obtain ⟨swA, swB⟩ := sweepLoop_run (playlistDirOf lib) moved _ s6 s'
        hnd hsweep
      have hdbfin : s'.file? (dbPathOf lib) = some (FData.json (inv0.filter
          (fun song => !moved.contains song.absPath))) := by
        rw [swB (dbPathOf lib)
          (fun g _ _ => dbPath_ne_pd_child lib g),
          file?_congr hs6f, hdb4]
      have hmap : ∀ f : String, sweepCond f = true →
          s'.file? (playlistDirOf lib ++ [f]) =
            (s4.file? (playlistDirOf lib ++ [f])).map
              (fun d => FData.text
                (sweepContent (playlistDirOf lib) moved d.asText)) := by
        intro f hcond
        cases hmidf : s4.file? (playlistDirOf lib ++ [f]) with
        | some d =>
          have hfmem := mem_readdir_names hmidf
          obtain ⟨d', hd', hres⟩ := swA f hfmem hcond
          rw [file?_congr hs6f, hmidf] at hd'
          have hdd : d' = d := by
            injection hd' with hdd2
            exact hdd2.symm
          subst hdd
          rw [hres]
          rfl
        | none =>
          by_cases hfmem : f ∈ jsSetList ((s4.files.map (fun e => e.1) ++
              s4.dirs).filterMap (childName (playlistDirOf lib)))
          · obtain ⟨d', hd', _⟩ := swA f hfmem hcond
            rw [file?_congr hs6f, hmidf] at hd'
            exact absurd hd' (by simp)
          · rw [swB _ (fun g hg _ heq => hfmem
              (by rw [append_singleton_inj heq]; exact hg)),
              file?_congr hs6f, hmidf]
            rfl
      refine Or.inr ⟨hmv, hdbfin, s4, hmap, ?_⟩
      intro f hcond ct hct line hline hh hb
      rw [hmap f hcond] at hct
      obtain ⟨d, _, hctd⟩ := Option.map_eq_some'.mp hct
      subst hctd
      exact sweepClean _ _ _ _ hline hh hb
    · have hmap : ∀ f : String, sweepCond f = true →
          s'.file? (playlistDirOf lib ++ [f]) =
            (s4.file? (playlistDirOf lib ++ [f])).map
              (fun d => FData.text
                (sweepContent (playlistDirOf lib) moved d.asText)) := by
        intro f hcond
        obtain ⟨_, hdm⟩ := existsPath_false_parts hpdf
        rw [file?_congr hfiles4, file?_child_none_of_not_dir hdm f]
        rfl
      refine Or.inr ⟨hmv, by rw [file?_congr hfiles4, hdb4], s4, hmap, ?_⟩
      intro f hcond ct hct line hline hh hb
      rw [hmap f hcond] at hct
      obtain ⟨d, _, hctd⟩ := Option.map_eq_some'.mp hct
      subst hctd
      exact sweepClean _ _ _ _ hline hh hb

/-- C6 counterexample: a move-mode whole-library export moves the only
track (it is removed from the inventory), and the sweep rewrites the
custom playlist `Mine.m3u8` — but the custom playlist
`00_Masterpieces.m3u8`, whose name is *not* the Master name and carries no
`Genre_` prefix, is skipped by the sweep's `startsWith("00_Master")`
prefix test and keeps a line resolving to the moved track's path,
contradicting the claim that *every* such custom playlist is purged. -/
theorem claim_C6_cx :
    (exportLibrary ["out"] Mode.move false ["lib"] stC6).1 =
      Except.ok (1, 0) ∧
    ((exportLibrary ["out"] Mode.move false ["lib"] stC6).2).file?
        ["lib", "Playlists", "00_Masterpieces.m3u8"] =
      some (.text "#EXTM3U\n../A/Al/01 - t.mp3") ∧
    ((exportLibrary ["out"] Mode.move false ["lib"] stC6).2).file?
        ["lib", "Playlists", "Mine.m3u8"] = some (.text "#EXTM3U") ∧
    ((exportLibrary ["out"] Mode.move false ["lib"] stC6).2).file?
        (dbPathOf ["lib"]) = some (.json []) ∧
    joinNorm ["lib", "Playlists"] (jsTrimS "../A/Al/01 - t.mp3") =
      tJazz.absPath ∧
    "00_Masterpieces" ≠ masterName ∧
    startsWithS "00_Masterpieces.m3u8" "Genre_" = false ∧
    endsWithS "00_Masterpieces.m3u8" ".m3u8" = true := by
  refine ⟨by decide, by decide, by decide, by decide, by decide, by decide,
    by decide, by decide⟩

/-- C6 witness: the amended statement instantiated on a concrete
successful move-mode export. -/
theorem claim_C6_witness :
    ∃ (inv0 : List Song) (moved : List Path),
      stC6.file? (dbPathOf ["lib"]) = some (FData.json inv0) ∧
      ((moved = [] ∧
        ((exportLibrary ["out"] Mode.move false ["lib"] stC6).2).files =
          stC6.files) ∨
       (moved ≠ [] ∧
        ((exportLibrary ["out"] Mode.move false ["lib"] stC6).2).file?
            (dbPathOf ["lib"]) =
          some (FData.json (inv0.filter
            (fun song => !moved.contains song.absPath))) ∧
        ∃ mid : St,
          (∀ f : String, sweepCond f = true →
            ((exportLibrary ["out"] Mode.move false ["lib"] stC6).2).file?
                (playlistDirOf ["lib"] ++ [f]) =
              (mid.file? (playlistDirOf ["lib"] ++ [f])).map
                (fun d => FData.text
                  (sweepContent (playlistDirOf ["lib"]) moved d.asText))) ∧
          (∀ f : String, sweepCond f = true → ∀ ct : FData,
            ((exportLibrary ["out"] Mode.move false ["lib"] stC6).2).file?
                (playlistDirOf ["lib"] ++ [f]) = some ct →
            ∀ line ∈ splitNl ct.asText,
              startsWithHash line = false → jsTrimS line ≠ "" →
              moved.contains
                (joinNorm (playlistDirOf ["lib"]) (jsTrimS line)) =
                false))) :=
  claim_C6 ["out"] ["lib"] false stC6
    ((exportLibrary ["out"] Mode.move false ["lib"] stC6).2) (1, 0)
    (by decide)

/-! ### Genre-map lemmas (for C2) -/

theorem find?_append_none {α : Type} {p : α → Bool} {l1 : List α}
    (h : l1.find? p = none) (l2 : List α) :
    (l1 ++ l2).find? p = l2.find? p := by
  induction l1 with
  | nil => rfl
  | cons a t ih =>
    rw [List.find?_cons] at h
    rcases hpa : p a with _ | _
    · rw [hpa] at h
      rw [List.cons_append, List.find?_cons, hpa]
      exact ih h
    · rw [hpa] at h
      exact absurd h (by simp)

theorem find?_append_some {α : Type} {p : α → Bool} {l1 : List α} {a : α}
    (h : l1.find? p = some a) (l2 : List α) :
    (l1 ++ l2).find? p = some a := by
  induction l1 with
  | nil => exact absurd h (by simp)
  | cons b t ih =>
    rw [List.find?_cons] at h
    rcases hpb : p b with _ | _
    · rw [hpb] at h
      rw [List.cons_append, List.find?_cons, hpb]
      exact ih h
    · rw [hpb] at h
      rw [List.cons_append, List.find?_cons, hpb]
      exact h

theorem find?_mapPushFn (k v k' : String)
    (m : List (String × List String)) :
    (m.map (fun e => if e.1 = k then (e.1, e.2 ++ [v]) else e)).find?
      (fun e => e.1 = k') =
    Option.map (fun e => if e.1 = k then (e.1, e.2 ++ [v]) else e)
      (m.find? (fun e => e.1 = k')) := by
  induction m with
  | nil => rfl
  | cons e rest ih =>
    have hfk : ((if e.1 = k then (e.1, e.2 ++ [v]) else e)).1 = e.1 := by
      by_cases h2 : e.1 = k <;> simp [h2]
    by_cases hek : e.1 = k'
    · rw [List.map_cons, List.find?_cons_of_pos _
        (by rw [decide_eq_true_eq, hfk]; exact hek),
        List.find?_cons_of_pos _ (by simp [hek])]
      rfl
    · rw [List.map_cons, List.find?_cons_of_neg _
        (by intro hh; rw [decide_eq_true_eq, hfk] at hh; exact hek hh),
        List.find?_cons_of_neg _ (by simp [hek]), ih]

theorem mapGet_mapPush_same (m : List (String × List String))
    (k v : String) :
    mapGet (mapPush m k v) k = some (((mapGet m k).getD []) ++ [v]) := by
  rw [mapPush]
  by_cases hany : m.any (fun e => e.1 = k) = true
  · rw [if_pos hany]
    obtain ⟨e, he, hpe⟩ := List.any_eq_true.mp hany
    have hek : e.1 = k := by simpa using hpe
    rcases hfind : m.find? (fun e => e.1 = k) with _ | e0
    · rw [List.find?_eq_none] at hfind
      exact absurd hpe (by simpa using hfind e he)
    · have he0k : e0.1 = k := by simpa using List.find?_some hfind
      rw [mapGet, find?_mapPushFn, hfind]
      rw [mapGet, hfind]
      simp [he0k]
  · rw [if_neg hany]
    have hfind : m.find? (fun e => e.1 = k) = none := by
      rw [List.find?_eq_none]
      intro e he
      simp only [List.any_eq_true, not_exists] at hany
      intro hpe
      exact hany e ⟨he, hpe⟩
    rw [mapGet, find?_append_none hfind, mapGet, hfind]
    simp [List.find?]

theorem mapGet_mapPush_other (m : List (String × List String))
    (k v k' : String) (hne : k' ≠ k) :
    mapGet (mapPush m k v) k' = mapGet m k' := by
  rw [mapPush]
  by_cases hany : m.any (fun e => e.1 = k) = true
  · rw [if_pos hany]
    rw [mapGet, find?_mapPushFn, mapGet]
    rcases hfind : m.find? (fun e => e.1 = k') with _ | e0
    · rw [hfind]
      rfl
    · have he0 : e0.1 = k' := by simpa using List.find?_some hfind
      have hne0 : ¬ (e0.1 = k) := fun hh => hne (he0 ▸ hh)
      rw [hfind]
      simp [hne0]
  · rw [if_neg hany]
    rw [mapGet, mapGet]
    rcases hfind : m.find? (fun e => e.1 = k') with _ | e0
    · rw [find?_append_none hfind]
      have hdk : decide ((k, [v]).1 = k') = false :=
        decide_eq_false (fun hh => hne hh.symm)
      have : (([(k, [v])] : List (String × List String)).find?
          (fun e => e.1 = k')) = none := by
        simp only [List.find?, hdk]
      rw [this, hfind]
    · rw [find?_append_some hfind, hfind]

/-- Membership of a value in a map entry, preserved by pushes. -/
def MapMem (m : List (String × List String)) (k x : String) : Prop :=
  ∃ ts, mapGet m k = some ts ∧ x ∈ ts

theorem mapMem_push {m : List (String × List String)} {k' x : String}
    (k v : String) (h : MapMem m k' x) : MapMem (mapPush m k v) k' x := by
  obtain ⟨ts, hts, hx⟩ := h
  by_cases hk : k' = k
  · subst hk
    refine ⟨((mapGet m k').getD []) ++ [v], mapGet_mapPush_same m k' v, ?_⟩
    rw [hts]
    exact List.mem_append_left _ hx
  · exact ⟨ts, (mapGet_mapPush_other m k v k' hk).symm ▸ hts, hx⟩

theorem mapMem_push_self (m : List (String × List String)) (k v : String) :
    MapMem (mapPush m k v) k v :=
  ⟨((mapGet m k).getD []) ++ [v], mapGet_mapPush_same m k v,
    List.mem_append_right _ (List.mem_singleton.mpr rfl)⟩

theorem mapMem_innerFold_of (rel : String) (gs : List String)
    {m : List (String × List String)} {k x : String} (h : MapMem m k x) :
    MapMem (gs.foldl (fun m g => mapPush m (jsTrimS g) rel) m) k x := by
  induction gs generalizing m with
  | nil => exact h
  | cons g rest ih => exact ih (mapMem_push _ rel h)

theorem mapMem_innerFold_self (rel : String) (gs : List String)
    {g : String} (hg : g ∈ gs) (m : List (String × List String)) :
    MapMem (gs.foldl (fun m g => mapPush m (jsTrimS g) rel) m)
      (jsTrimS g) rel := by
  induction gs generalizing m with
  | nil => exact absurd hg (List.not_mem_nil g)
  | cons g0 rest ih =>
    rcases List.mem_cons.mp hg with hge | hgr
    · subst hge
      exact mapMem_innerFold_of rel rest (mapMem_push_self m _ rel)
    · exact ih hgr _

theorem mapMem_outerFold_of (pd : Path) (inv : List Song)
    {m : List (String × List String)} {k x : String} (h : MapMem m k x) :
    MapMem (inv.foldl (fun m song => song.genre.foldl (fun m g =>
      mapPush m (jsTrimS g) (relStr pd song.absPath)) m) m) k x := by
  induction inv generalizing m with
  | nil => exact h
  | cons song rest ih => exact ih (mapMem_innerFold_of _ _ h)

theorem genreMap_mem (pd : Path) (inv : List Song) {song : Song}
    (hs : song ∈ inv) {g : String} (hg : g ∈ song.genre) :
    MapMem (genreMapOf pd inv) (jsTrimS g) (relStr pd song.absPath) := by
  rw [genreMapOf]
  have main : ∀ (l : List Song) (m : List (String × List String)),
      song ∈ l →
      MapMem (l.foldl (fun m song => song.genre.foldl (fun m g =>
        mapPush m (jsTrimS g) (relStr pd song.absPath)) m) m)
        (jsTrimS g) (relStr pd song.absPath) := by
    intro l
    induction l with
    | nil => intro m hm; exact absurd hm (List.not_mem_nil song)
    | cons s0 rest ih =>
      intro m hm
      rcases List.mem_cons.mp hm with hse | hsr
      · subst hse
        exact mapMem_outerFold_of pd rest
          (mapMem_innerFold_self _ song.genre hg m)
      · exact ih _ hsr
  exact main inv [] hs

/-- The key list of an association map. -/
def keysOf (m : List (String × List String)) : List String :=
  m.map (fun e => e.1)

theorem keysOf_mapPush_mem {m : List (String × List String)}
    {k v x : String} (h : x ∈ keysOf (mapPush m k v)) :
    x = k ∨ x ∈ keysOf m := by
  rw [mapPush] at h
  by_cases hany : m.any (fun e => e.1 = k) = true
  · rw [if_pos hany] at h
    right
    rw [keysOf, List.map_map] at h
    obtain ⟨e, he, hx⟩ := List.mem_map.mp h
    have : ((fun e => if e.1 = k then (e.1, e.2 ++ [v]) else e) e).1
        = e.1 := by
      by_cases h2 : e.1 = k <;> simp [h2]
    rw [show ((fun e => e.1) ∘ fun e =>
      if e.1 = k then (e.1, e.2 ++ [v]) else e) e
        = ((fun e => if e.1 = k then (e.1, e.2 ++ [v]) else e) e).1
      from rfl, this] at hx
    exact hx ▸ List.mem_map.mpr ⟨e, he, rfl⟩
  · rw [if_neg hany] at h
    rw [keysOf, List.map_append] at h
    rcases List.mem_append.mp h with hm | hs
    · exact Or.inr hm
    · left
      simpa using hs

theorem keysOf_mapPush_nodup {m : List (String × List String)}
    (k v : String) (h : (keysOf m).Nodup) :
    (keysOf (mapPush m k v)).Nodup := by
  rw [mapPush]
  by_cases hany : m.any (fun e => e.1 = k) = true
  · rw [if_pos hany]
    have : keysOf (m.map (fun e =>
        if e.1 = k then (e.1, e.2 ++ [v]) else e)) = keysOf m := by
      rw [keysOf, List.map_map, keysOf]
      apply List.map_congr_left
      intro e _
      by_cases h2 : e.1 = k <;> simp [h2]
    rw [this]
    exact h
  · rw [if_neg hany]
    rw [keysOf, List.map_append]
    rw [List.nodup_append]
    refine ⟨h, by simp, ?_⟩
    intro x hx hy
    simp only [List.map_cons, List.map_nil, List.mem_singleton] at hy
    subst hy
    simp only [List.any_eq_true, not_exists] at hany
    obtain ⟨e, he, hx2⟩ := List.mem_map.mp hx
    exact hany e ⟨he, by simpa using hx2⟩

theorem keysOf_innerFold_mem (rel : String) (gs : List String)
    {m : List (String × List String)} {x : String}
    (h : x ∈ keysOf (gs.foldl (fun m g => mapPush m (jsTrimS g) rel) m)) :
    x ∈ keysOf m ∨ ∃ g ∈ gs, x = jsTrimS g := by
  induction gs generalizing m with
  | nil => exact Or.inl h
  | cons g0 rest ih =>
    rcases ih h with hk | ⟨g, hg, he⟩
    · rcases keysOf_mapPush_mem hk with he | hm
      · exact Or.inr ⟨g0, List.mem_cons_self _ _, he⟩
      · exact Or.inl hm
    · exact Or.inr ⟨g, List.mem_cons_of_mem _ hg, he⟩

theorem keysOf_innerFold_nodup (rel : String) (gs : List String)
    {m : List (String × List String)} (h : (keysOf m).Nodup) :
    (keysOf (gs.foldl (fun m g => mapPush m (jsTrimS g) rel) m)).Nodup := by
  induction gs generalizing m with
  | nil => exact h
  | cons g0 rest ih => exact ih (keysOf_mapPush_nodup _ rel h)

theorem genreMap_keys_mem (pd : Path) (inv : List Song) {x : String}
    (h : x ∈ keysOf (genreMapOf pd inv)) :
    ∃ song ∈ inv, ∃ g ∈ song.genre, x = jsTrimS g := by
  rw [genreMapOf] at h
  have main : ∀ (l : List Song) (m : List (String × List String)),
      x ∈ keysOf (l.foldl (fun m song => song.genre.foldl (fun m g =>
        mapPush m (jsTrimS g) (relStr pd song.absPath)) m) m) →
      x ∈ keysOf m ∨ ∃ song ∈ l, ∃ g ∈ song.genre, x = jsTrimS g := by
    intro l
    induction l with
    | nil => intro m hm; exact Or.inl hm
    | cons s0 rest ih =>
      intro m hm
      rcases ih _ hm with hk | ⟨song, hsong, hg⟩
      · rcases keysOf_innerFold_mem _ _ hk with hm2 | ⟨g, hg, he⟩
        · exact Or.inl hm2
        · exact Or.inr ⟨s0, List.mem_cons_self _ _, g, hg, he⟩
      · exact Or.inr ⟨song, List.mem_cons_of_mem _ hsong, hg⟩
  rcases main inv [] h with hk | hm
  · exact absurd hk (by simp [keysOf])
  · exact hm

theorem genreMap_keys_nodup (pd : Path) (inv : List Song) :
    (keysOf (genreMapOf pd inv)).Nodup := by
  rw [genreMapOf]
  have main : ∀ (l : List Song) (m : List (String × List String)),
      (keysOf m).Nodup →
      (keysOf (l.foldl (fun m song => song.genre.foldl (fun m g =>
        mapPush m (jsTrimS g) (relStr pd song.absPath)) m) m)).Nodup := by
    intro l
    induction l with
    | nil => intro m hm; exact hm
    | cons s0 rest ih =>
      intro m hm
      exact ih _ (keysOf_innerFold_nodup _ _ hm)
  exact main inv [] (by simp [keysOf])

theorem mapGet_some_mem {m : List (String × List String)}
    {k : String} {ts : List String} (h : mapGet m k = some ts) :
    (k, ts) ∈ m := by
  rw [mapGet] at h
  rcases hfind : m.find? (fun e => e.1 = k) with _ | e
  · rw [hfind] at h
    simp at h
  · rw [hfind] at h
    have he : e ∈ m := List.mem_of_find?_eq_some hfind
    have hk : e.1 = k := by simpa using List.find?_some hfind
    have hts : e.2 = ts := by simpa using h
    have : (k, ts) = e := by rw [← hk, ← hts]
    rw [this]
    exact he

theorem mem_keysOf_of_mapMem {m : List (String × List String)}
    {k x : String} (h : MapMem m k x) : k ∈ keysOf m := by
  obtain ⟨ts, hts, _⟩ := h
  exact List.mem_map.mpr ⟨(k, ts), mapGet_some_mem hts, rfl⟩

theorem keysOf_mapAddSet_mem {m : List (String × List String)}
    {k v x : String} (h : x ∈ keysOf (mapAddSet m k v)) :
    x = k ∨ x ∈ keysOf m := by
  rw [mapAddSet] at h
  by_cases hany : m.any (fun e => e.1 = k) = true
  · rw [if_pos hany] at h
    right
    rw [keysOf, List.map_map] at h
    obtain ⟨e, he, hx⟩ := List.mem_map.mp h
    have hkey : ((fun e => if e.1 = k then
        (e.1, if e.2.contains v then e.2 else e.2 ++ [v]) else e) e).1
        = e.1 := by
      by_cases h2 : e.1 = k <;> simp [h2]
    rw [show ((fun e => e.1) ∘ fun e => if e.1 = k then
      (e.1, if e.2.contains v then e.2 else e.2 ++ [v]) else e) e
        = ((fun e => if e.1 = k then
          (e.1, if e.2.contains v then e.2 else e.2 ++ [v]) else e) e).1
      from rfl, hkey] at hx
    exact hx ▸ List.mem_map.mpr ⟨e, he, rfl⟩
  · rw [if_neg hany] at h
    rw [keysOf, List.map_append] at h
    rcases List.mem_append.mp h with hm | hs
    · exact Or.inr hm
    · left
      simpa using hs

theorem keysOf_addSetFold_mem (v : String) (pls : List String)
    {m : List (String × List String)} {x : String}
    (h : x ∈ keysOf (pls.foldl (fun m pl => mapAddSet m pl v) m)) :
    x ∈ keysOf m ∨ x ∈ pls := by
  induction pls generalizing m with
  | nil => exact Or.inl h
  | cons pl rest ih =>
    rcases ih h with hk | hr
    · rcases keysOf_mapAddSet_mem hk with he | hm
      · exact Or.inr (he ▸ List.mem_cons_self _ _)
      · exact Or.inl hm
    · exact Or.inr (List.mem_cons_of_mem _ hr)

theorem safeMove_value {src dst : Path} {s s' : St} {v : Path}
    (h : safeMove src dst s = (Except.ok v, s')) : v = dst := by
  rw [safeMove] at h
  obtain ⟨ex, s1, hstat, h2⟩ := bind_ok_inv h
  cases hexv : ex with
  | true =>
    rw [hexv] at h2
    rw [if_pos (show (true : Bool) = true from rfl)] at h2
    have h2' : ((Except.ok dst : Except Err Path), s1) =
        (Except.ok v, s') := h2
    obtain ⟨h3, _⟩ := Prod.mk.injEq .. ▸ h2'
    injection h3 with h4
    exact h4.symm
  | false =>
    rw [hexv] at h2
    rw [if_neg (show ¬ ((false : Bool) = true) from by simp)] at h2
    obtain ⟨_, s2, _, h3⟩ := bind_ok_inv h2
    obtain ⟨_, s3, _, h4⟩ := bind_ok_inv h3
    have h4' : ((Except.ok dst : Except Err Path), s3) =
        (Except.ok v, s') := h4
    obtain ⟨h5, _⟩ := Prod.mk.injEq .. ▸ h4'
    injection h5 with h6
    exact h6.symm

/-- A successful organise loop returns the input inventory extended by the
remapped proposals in order, and every custom-playlist key it accumulates
comes from some proposal's hint list. -/
theorem orgLoop_run (lib pd : Path) (items : List ScanResult) :
    ∀ (inv : List Song) (cps : List (String × List String)) (s s' : St)
      (res : List Song × List (String × List String)),
    orgLoop lib pd items inv cps s = (Except.ok res, s') →
    res.1 = inv ++ items.map (updatedSongOf lib) ∧
    (∀ k ∈ keysOf res.2,
      k ∈ keysOf cps ∨ ∃ item ∈ items, k ∈ item.playlists) := by
  induction items with
  | nil =>
    intro inv cps s s' res h
    have h' : ((Except.ok (inv, cps) :
        Except Err (List Song × List (String × List String))), s) =
        (Except.ok res, s') := h
    obtain ⟨h1, _⟩ := Prod.mk.injEq .. ▸ h'
    have hres : (inv, cps) = res := by injection h1
    subst hres
    exact ⟨by simp, fun k hk => Or.inl hk⟩
  | cons item rest ih =>
    intro inv cps s s' res h
    simp only [orgLoop] at h
    obtain ⟨fp, s1, hmv, h2⟩ := bind_ok_inv h
    have hfp : fp = item.proposedPath := safeMove_value hmv
    subst hfp
    obtain ⟨ih1, ih2⟩ := ih (inv ++ [updatedSongOf lib item])
      (item.playlists.foldl (fun m pl =>
        mapAddSet m pl (relStr pd item.proposedPath)) cps) s1 s' res h2
    constructor
    · rw [ih1]
      simp [updatedSongOf]
    · intro k hk
      rcases ih2 k hk with hkin | ⟨it, hit, hpl⟩
      · rcases keysOf_addSetFold_mem _ _ hkin with hc | hp
        · exact Or.inl hc
        · exact Or.inr ⟨item, List.mem_cons_self _ _, hp⟩
      · exact Or.inr ⟨it, List.mem_cons_of_mem _ hit, hpl⟩

/-- Frame for a successful custom-playlist append pass: paths that are not
one of its entry files are untouched. -/
theorem appendCustom_frame (pd : Path)
    (entries : List (String × List String)) :
    ∀ (s s' : St) (u : Unit),
    appendCustomPlaylists pd entries s = (Except.ok u, s') →
    ∀ q : Path, (∀ e ∈ entries, q ≠ pd ++ [jsTrimS e.1 ++ ".m3u8"]) →
      s'.file? q = s.file? q := by
  induction entries with
  | nil =>
    intro s s' u h q _
    have h' : ((Except.ok () : Except Err Unit), s) = (Except.ok u, s') := h
    obtain ⟨_, h2⟩ := Prod.mk.injEq .. ▸ h'
    subst h2
    rfl
  | cons e rest ih =>
    intro s s' u h q hq
    obtain ⟨nm, ts⟩ := e
    simp only [appendCustomPlaylists] at h
    obtain ⟨ex, s1, hstat, h2⟩ := bind_ok_inv h
    obtain ⟨_, hs1⟩ := fsPathExists_inv hstat
    subst hs1
    cases hexv : ex with
    | true =>
      rw [hexv] at h2
      rw [if_pos (show (true : Bool) = true from rfl)] at h2
      obtain ⟨ct, sA, hread, hb⟩ := bind_ok_inv h2
      obtain ⟨d, _, _, hsA⟩ := fsReadFile_ok_inv hread
      subst hsA
      obtain ⟨y, sB, hpure, hc⟩ := bind_ok_inv hb
      have hp' : ((Except.ok ((splitNl ct).filter fun l =>
          decide (l ≠ "") && !startsWithHash l) : Except Err (List String)),
          (s.log (Ev.statE (pd ++ [jsTrimS nm ++ ".m3u8"]))).log
            (Ev.readE (pd ++ [jsTrimS nm ++ ".m3u8"]))) =
          (Except.ok y, sB) := hpure
      obtain ⟨_, hsB⟩ := Prod.mk.injEq .. ▸ hp'
      subst hsB
      obtain ⟨_, sC, hout, hrec⟩ := bind_ok_inv hc
      have hsC := fsOutputFile_ok_inv hout
      subst hsC
      rw [ih _ s' u hrec q
        (fun e2 he2 => hq e2 (List.mem_cons_of_mem _ he2))]
      rw [file?_setEntry_state,
        if_neg (fun hh => hq (nm, ts) (List.mem_cons_self _ _) hh.symm)]
      rfl
    | false =>
      rw [hexv] at h2
      rw [if_neg (show ¬ ((false : Bool) = true) from by simp)] at h2
      obtain ⟨y, sB, hpure, hc⟩ := bind_ok_inv h2
      have hp' : ((Except.ok ([] : List String) : Except Err (List String)),
          s.log (Ev.statE (pd ++ [jsTrimS nm ++ ".m3u8"]))) =
          (Except.ok y, sB) := hpure
      obtain ⟨_, hsB⟩ := Prod.mk.injEq .. ▸ hp'
      subst hsB
      obtain ⟨_, sC, hout, hrec⟩ := bind_ok_inv hc
      have hsC := fsOutputFile_ok_inv hout
      subst hsC
      rw [ih _ s' u hrec q
        (fun e2 he2 => hq e2 (List.mem_cons_of_mem _ he2))]
      rw [file?_setEntry_state,
        if_neg (fun hh => hq (nm, ts) (List.mem_cons_self _ _) hh.symm)]
      rfl

/-- Structural inversion of a successful `organize` run on a library whose
inventory database exists: the database is rewritten with the extended
inventory, Master and genre playlists are regenerated from it, and the
custom-playlist append pass runs over keys drawn from the proposals'
hint lists. -/
theorem organize_inv {results : List ScanResult} {lib : Path} {s s' : St}
    {u : Unit} {inv0 : List Song}
    (h : organize results lib s = (Except.ok u, s'))
    (hdb : s.file? (dbPathOf lib) = some (FData.json inv0)) :
    ∃ (cps : List (String × List String)) (s5 s6 s7 s8 : St),
      (∀ k ∈ keysOf cps, ∃ item ∈ results, k ∈ item.playlists) ∧
      fsOutputJson (dbPathOf lib) (inv0 ++ results.map (updatedSongOf lib))
        s5 = (Except.ok (), s6) ∧
      generateMasterPlaylist (inv0 ++ results.map (updatedSongOf lib)) lib
        s6 = (Except.ok (), s7) ∧
      generateGenrePlaylists (inv0 ++ results.map (updatedSongOf lib)) lib
        s7 = (Except.ok (), s8) ∧
      appendCustomPlaylists (playlistDirOf lib) cps s8 =
        (Except.ok u, s') := by
  rw [organize] at h
  obtain ⟨a1, s1, hens1, h2⟩ := bind_ok_inv h
  obtain ⟨a2, s2, hens2, h3⟩ := bind_ok_inv h2
  obtain ⟨exDb, s3, hstat, h4⟩ := bind_ok_inv h3
  obtain ⟨hexDb, hs3⟩ := fsPathExists_inv hstat
  subst hs3
  have hs1f : s1.files = s.files := by
    have hc : (fsEnsureDir lib s).2 = s1 := congrArg Prod.snd hens1
    rw [← hc, fsEnsureDir_files]
  have hs2f : s2.files = s.files := by
    have hc : (fsEnsureDir (playlistDirOf lib) s1).2 = s2 :=
      congrArg Prod.snd hens2
    rw [← hc, fsEnsureDir_files, hs1f]
  have hdb2 : (s2.log (Ev.statE (dbPathOf lib))).file? (dbPathOf lib) =
      some (FData.json inv0) := by
    rw [file?_congr (show (s2.log (Ev.statE (dbPathOf lib))).files = s.files
      from hs2f) (dbPathOf lib)]
    exact hdb
  dsimp only at h4
  cases hexv : exDb with
  | false =>
    rw [hexv] at hexDb
    have hisf : s2.isFile (dbPathOf lib) = true := by
      rw [St.isFile, file?_congr hs2f (dbPathOf lib), hdb]
      rfl
    have hex := isFile_existsPath hisf
    rw [← hexDb] at hex
    exact absurd hex (by simp)
  | true =>
    rw [hexv] at h4
    rw [if_pos (show (true : Bool) = true from rfl)] at h4
    obtain ⟨invR, s4, hinv, h5⟩ := bind_ok_inv h4
    obtain ⟨hfile, hs4⟩ := fsReadJson_ok_inv hinv
    subst hs4
    rw [hdb2] at hfile
    have hj : FData.json inv0 = FData.json invR := by injection hfile
    have hi : inv0 = invR := by injection hj
    subst hi
    obtain ⟨ic, s5, hloop, h6⟩ := bind_ok_inv h5
    obtain ⟨invF, cps⟩ := ic
    obtain ⟨hinvF, hkeys⟩ := orgLoop_run lib (playlistDirOf lib) results
      inv0 [] _ s5 (invF, cps) hloop
    have hF : invF = inv0 ++ results.map (updatedSongOf lib) := hinvF
    obtain ⟨a6, s6, hjson, h7⟩ := bind_ok_inv h6
    obtain ⟨a7, s7, hmaster, h8⟩ := bind_ok_inv h7
    obtain ⟨a8, s8, hgenre, h9⟩ := bind_ok_inv h8
    rw [hF] at hjson hmaster hgenre
    exact ⟨cps, s5, s6, s7, s8,
      fun k hk => (hkeys k hk).resolve_left (by simp [keysOf]),
      hjson, hmaster, hgenre, h9⟩

theorem genreFileName_ne_custom {k nm : String}
    (hnm : startsWithS (jsTrimS nm) "Genre_" = false) :
    genreFileName k ≠ jsTrimS nm ++ ".m3u8" := by
  intro h
  have h2 := congrArg String.data h
  rw [genreFileName] at h2
  rw [String.data_append, String.data_append, String.data_append] at h2
  have h3 := List.append_cancel_right h2
  have h4 : startsWithS (jsTrimS nm) "Genre_" = true := by
    rw [startsWithS, ← h3]
    exact List.isPrefixOf_iff_prefix.mpr (List.prefix_append _ _)
  rw [h4] at hnm
  exact absurd hnm (by simp)

theorem genreMap_filenames_nodup (pd : Path) (inv : List Song)
    (hinj : ∀ e1 ∈ genreMapOf pd inv, ∀ e2 ∈ genreMapOf pd inv,
      genreFileName e1.1 = genreFileName e2.1 → e1.1 = e2.1) :
    ((genreMapOf pd inv).map (fun e => genreFileName e.1)).Nodup := by
  have hk := genreMap_keys_nodup pd inv
  have hinj2 : ∀ x ∈ keysOf (genreMapOf pd inv),
      ∀ y ∈ keysOf (genreMapOf pd inv),
      genreFileName x = genreFileName y → x = y := by
    intro x hx y hy hxy
    obtain ⟨e1, he1, hx1⟩ := List.mem_map.mp hx
    obtain ⟨e2, he2, hy1⟩ := List.mem_map.mp hy
    subst hx1
    subst hy1
    exact hinj e1 he1 e2 he2 hxy
  have heq : (genreMapOf pd inv).map (fun e => genreFileName e.1) =
      (keysOf (genreMapOf pd inv)).map genreFileName := by
    rw [keysOf, List.map_map]
    rfl
  rw [heq]
  exact List.Nodup.map_on hinj2 hk

theorem genreMap_inj_filter (pd : Path) (inv : List Song) (P : Song → Bool)
    (hinj : ∀ e1 ∈ genreMapOf pd inv, ∀ e2 ∈ genreMapOf pd inv,
      genreFileName e1.1 = genreFileName e2.1 → e1.1 = e2.1) :
    ∀ e1 ∈ genreMapOf pd (inv.filter P),
      ∀ e2 ∈ genreMapOf pd (inv.filter P),
      genreFileName e1.1 = genreFileName e2.1 → e1.1 = e2.1 := by
  have hkey : ∀ e ∈ genreMapOf pd (inv.filter P),
      ∃ e2 ∈ genreMapOf pd inv, e2.1 = e.1 := by
    intro e he
    have hx : e.1 ∈ keysOf (genreMapOf pd (inv.filter P)) :=
      List.mem_map.mpr ⟨e, he, rfl⟩
    obtain ⟨song, hsong, g, hg, hkeq⟩ := genreMap_keys_mem pd _ hx
    have hsong2 : song ∈ inv := List.mem_of_mem_filter hsong
    obtain ⟨ts, hts, _⟩ := genreMap_mem pd inv hsong2 hg
    exact ⟨(jsTrimS g, ts), mapGet_some_mem hts, by rw [hkeq]⟩
  intro e1 he1 e2 he2 hf
  obtain ⟨e1b, he1b, hk1⟩ := hkey e1 he1
  obtain ⟨e2b, he2b, hk2⟩ := hkey e2 he2
  rw [← hk1, ← hk2] at hf ⊢
  exact hinj e1b he1b e2b he2b hf

/-- C2 (amended): after a successful `organize` (on a library with an
existing inventory database) the database holds the input inventory
extended by the remapped proposals, and — provided the sanitised genre
file names of the resulting genre map do not collide and no custom
playlist hint is `Genre_`-prefixed — the genre playlist of every genre of
every inventoried track is freshly written and lists that track's
playlist-relative path.  After a successful move-mode `exportLibrary`
that changed the inventory, the database drops exactly the moved tracks
and, under the same collision-freedom proviso, the genre playlist of
every genre of every *remaining* track is freshly written and lists its
path.  Genre files of genres that vanished entirely are *not* deleted or
rewritten and keep stale entries (see the counterexample), so membership
does not "exactly reflect" the inventory as claimed. -/
theorem claim_C2
    (results : List ScanResult) (lib dest : Path) (ps : Bool)
    (inv0 inv0e : List Song) (sO sO' sE sE' : St) (r : Nat × Nat)
    (hdbO : sO.file? (dbPathOf lib) = some (FData.json inv0))
    (hrunO : organize results lib sO = (Except.ok (), sO'))
    (hinjO : ∀ e1 ∈ genreMapOf (playlistDirOf lib)
        (inv0 ++ results.map (updatedSongOf lib)),
      ∀ e2 ∈ genreMapOf (playlistDirOf lib)
        (inv0 ++ results.map (updatedSongOf lib)),
      genreFileName e1.1 = genreFileName e2.1 → e1.1 = e2.1)
    (hhint : ∀ item ∈ results, ∀ pl ∈ item.playlists,
      startsWithS (jsTrimS pl) "Genre_" = false)
    (hdbE : sE.file? (dbPathOf lib) = some (FData.json inv0e))
    (hrunE : exportLibrary dest Mode.move ps lib sE = (Except.ok r, sE'))
    (hchE : sE'.file? (dbPathOf lib) ≠ sE.file? (dbPathOf lib))
    (hinjE : ∀ e1 ∈ genreMapOf (playlistDirOf lib) inv0e,
      ∀ e2 ∈ genreMapOf (playlistDirOf lib) inv0e,
      genreFileName e1.1 = genreFileName e2.1 → e1.1 = e2.1) :
    (sO'.file? (dbPathOf lib) = some (FData.json
        (inv0 ++ results.map (updatedSongOf lib))) ∧
     ∀ song ∈ inv0 ++ results.map (updatedSongOf lib), ∀ g ∈ song.genre,
       ∃ tracks : List String,
         mapGet (genreMapOf (playlistDirOf lib)
           (inv0 ++ results.map (updatedSongOf lib))) (jsTrimS g) =
             some tracks ∧
         relStr (playlistDirOf lib) song.absPath ∈ tracks ∧
         sO'.file? (playlistDirOf lib ++ [genreFileName (jsTrimS g)]) =
           some (FData.text (playlistHeader ++ joinNl tracks))) ∧
    (∃ moved : List Path, moved ≠ [] ∧
     sE'.file? (dbPathOf lib) = some (FData.json (inv0e.filter
       (fun song => !moved.contains song.absPath))) ∧
     ∀ song ∈ inv0e.filter (fun song => !moved.contains song.absPath),
       ∀ g ∈ song.genre,
       ∃ tracks : List String,
         mapGet (genreMapOf (playlistDirOf lib) (inv0e.filter
           (fun song => !moved.contains song.absPath))) (jsTrimS g) =
             some tracks ∧
         relStr (playlistDirOf lib) song.absPath ∈ tracks ∧
         sE'.file? (playlistDirOf lib ++ [genreFileName (jsTrimS g)]) =
           some (FData.text (playlistHeader ++ joinNl tracks))) := by
  constructor
  · -- organize half
    obtain ⟨cps, s5, s6, s7, s8, hkeys, hjson, hmaster, hgenre, happend⟩ :=
      organize_inv hrunO hdbO
    have hs6 := fsOutputJson_ok_inv hjson
    have hs6db : s6.file? (dbPathOf lib) = some (FData.json
        (inv0 ++ results.map (updatedSongOf lib))) := by
      rw [hs6, file?_setEntry_state, if_pos rfl]
    obtain ⟨_, hmframe⟩ := generateMaster_inv hmaster
    have hs7db : s7.file? (dbPathOf lib) = some (FData.json
        (inv0 ++ results.map (updatedSongOf lib))) := by
      rw [hmframe _ (dbPath_ne_pd_child lib _), hs6db]
    have hgenre2 : writeGenreLoop (playlistDirOf lib)
        (genreMapOf (playlistDirOf lib)
          (inv0 ++ results.map (updatedSongOf lib))) s7 =
        (Except.ok (), s8) := hgenre
    have hdist := genreMap_filenames_nodup (playlistDirOf lib)
      (inv0 ++ results.map (updatedSongOf lib)) hinjO
    obtain ⟨gA, gB⟩ := writeGenreLoop_run (playlistDirOf lib)
      (genreMapOf (playlistDirOf lib)
        (inv0 ++ results.map (updatedSongOf lib))) s7 s8 () hdist hgenre2
    have hs8db : s8.file? (dbPathOf lib) = some (FData.json
        (inv0 ++ results.map (updatedSongOf lib))) := by
      rw [gB _ (fun e _ => dbPath_ne_pd_child lib _), hs7db]
    have hcustomcond : ∀ (q : Path), (∃ k : String,
        q = playlistDirOf lib ++ [genreFileName k]) →
        ∀ e ∈ cps, q ≠ playlistDirOf lib ++ [jsTrimS e.1 ++ ".m3u8"] := by
      rintro q ⟨k, rfl⟩ e he heq
      obtain ⟨item, hitem, hpl⟩ := hkeys e.1
        (List.mem_map.mpr ⟨e, he, rfl⟩)
      exact genreFileName_ne_custom (hhint item hitem e.1 hpl)
        (append_singleton_inj heq)
    have hdbfin : sO'.file? (dbPathOf lib) = some (FData.json
        (inv0 ++ results.map (updatedSongOf lib))) := by
      rw [appendCustom_frame _ cps s8 sO' _ happend _
        (fun e _ => dbPath_ne_pd_child lib _), hs8db]
    refine ⟨hdbfin, ?_⟩
    intro song hsong g hg
    obtain ⟨ts, hts, hrel⟩ := genreMap_mem (playlistDirOf lib)
      (inv0 ++ results.map (updatedSongOf lib)) hsong hg
    have hentry := mapGet_some_mem hts
    have hfile8 := gA (jsTrimS g, ts) hentry
    refine ⟨ts, hts, hrel, ?_⟩
    rw [appendCustom_frame _ cps s8 sO' _ happend _
      (hcustomcond _ ⟨jsTrimS g, rfl⟩)]
    exact hfile8
  · -- export half
    obtain ⟨inv0x, moved, hdbx, hsub, hbr⟩ := exportLibrary_move_inv hrunE
    rw [hdbE] at hdbx
    have hj1 : FData.json inv0e = FData.json inv0x := by injection hdbx
    have hj2 : inv0e = inv0x := by injection hj1
    subst hj2
    rcases hbr with ⟨hmv, hfiles⟩ | ⟨hmv, s3, s3a, s3b, s4, hjson, hmaster,
      hgenre, hfin⟩
    · exact absurd (file?_congr hfiles (dbPathOf lib)) hchE
    · have hs3a := fsOutputJson_ok_inv hjson
      have hdb3a : s3a.file? (dbPathOf lib) = some (FData.json
          (inv0e.filter (fun song => !moved.contains song.absPath))) := by
        rw [hs3a, file?_setEntry_state, if_pos rfl]
      obtain ⟨_, hmframe⟩ := generateMaster_inv hmaster
      have hdb3b : s3b.file? (dbPathOf lib) = some (FData.json
          (inv0e.filter (fun song => !moved.contains song.absPath))) := by
        rw [hmframe _ (dbPath_ne_pd_child lib _), hdb3a]
      have hgenre2 : writeGenreLoop (playlistDirOf lib)
          (genreMapOf (playlistDirOf lib) (inv0e.filter
            (fun song => !moved.contains song.absPath))) s3b =
          (Except.ok (), s4) := hgenre
      have hinjF := genreMap_inj_filter (playlistDirOf lib) inv0e
        (fun song => !moved.contains song.absPath) hinjE
      have hdist := genreMap_filenames_nodup (playlistDirOf lib)
        (inv0e.filter (fun song => !moved.contains song.absPath)) hinjF
      obtain ⟨gA, gB⟩ := writeGenreLoop_run (playlistDirOf lib)
        (genreMapOf (playlistDirOf lib) (inv0e.filter
          (fun song => !moved.contains song.absPath))) s3b s4 () hdist
        hgenre2
      have hdb4 : s4.file? (dbPathOf lib) = some (FData.json
          (inv0e.filter (fun song => !moved.contains song.absPath))) := by
        rw [gB _ (fun e _ => dbPath_ne_pd_child lib _), hdb3b]
      rcases hfin with ⟨hpd, s6, hs6f, hs6d, hsweep⟩ | ⟨hpdf, hfiles4⟩
      · obtain ⟨swA, swB⟩ := sweepLoop_run (playlistDirOf lib) moved _ s6
          sE' (jsSetList_nodup _) hsweep
        have hgenresafe : ∀ (k : String) (f : String),
            f ∈ jsSetList ((s4.files.map (fun e => e.1) ++
              s4.dirs).filterMap (childName (playlistDirOf lib))) →
            sweepCond f = true →
            (playlistDirOf lib ++ [genreFileName k] : Path) ≠
              playlistDirOf lib ++ [f] := by
          intro k f _ hcf heq
          have hfk : genreFileName k = f := append_singleton_inj heq
          rw [← hfk, sweepCond_false_of_genre (genreFileName_starts k)]
            at hcf
          exact absurd hcf (by simp)
        have hdbfin : sE'.file? (dbPathOf lib) = some (FData.json
            (inv0e.filter (fun song => !moved.contains song.absPath))) := by
          rw [swB _ (fun f _ _ => dbPath_ne_pd_child lib f),
            file?_congr hs6f, hdb4]
        refine ⟨moved, hmv, hdbfin, ?_⟩
        intro song hsong g hg
        obtain ⟨ts, hts, hrel⟩ := genreMap_mem (playlistDirOf lib)
          (inv0e.filter (fun song => !moved.contains song.absPath))
          hsong hg
        have hentry := mapGet_some_mem hts
        have hfile4 := gA (jsTrimS g, ts) hentry
        refine ⟨ts, hts, hrel, ?_⟩
        rw [swB _ (hgenresafe (jsTrimS g)), file?_congr hs6f]
        exact hfile4
      · have hdbfin : sE'.file? (dbPathOf lib) = some (FData.json
            (inv0e.filter (fun song => !moved.contains song.absPath))) := by
          rw [file?_congr hfiles4, hdb4]
        refine ⟨moved, hmv, hdbfin, ?_⟩
        intro song hsong g hg
        obtain ⟨ts, hts, hrel⟩ := genreMap_mem (playlistDirOf lib)
          (inv0e.filter (fun song => !moved.contains song.absPath))
          hsong hg
        have hentry := mapGet_some_mem hts
        have hfile4 := gA (jsTrimS g, ts) hentry
        refine ⟨ts, hts, hrel, ?_⟩
        rw [file?_congr hfiles4]
        exact hfile4

/-- C2 counterexample: a move-mode whole-library export removes the only
track from the inventory (the database becomes empty), but the previously
generated `Genre_Jazz.m3u8` playlist is neither deleted nor rewritten —
the genre map of the now-empty inventory has no `Jazz` entry and the sweep
skips `Genre_`-prefixed files — so it still lists the removed track's
path: genre playlist membership does *not* exactly reflect the inventory
(a stale entry remains). -/
theorem claim_C2_cx :
    (exportLibrary ["out"] Mode.move false ["lib"] stC2x).1 =
      Except.ok (1, 0) ∧
    ((exportLibrary ["out"] Mode.move false ["lib"] stC2x).2).file?
        (dbPathOf ["lib"]) = some (.json []) ∧
    ((exportLibrary ["out"] Mode.move false ["lib"] stC2x).2).file?
        ["lib", "Playlists", "Genre_Jazz.m3u8"] =
      some (.text "#EXTM3U\n../A/Al/01 - t.mp3") ∧
    joinNorm ["lib", "Playlists"] (jsTrimS "../A/Al/01 - t.mp3") =
      tJazz.absPath ∧
    genreMapOf ["lib", "Playlists"] [] = [] := by
  refine ⟨by decide, by decide, by decide, by decide, by decide⟩

/-- C2 witness: the amended statement instantiated on a concrete
successful `organize` run and a concrete successful move-mode
`exportLibrary` run. -/
theorem claim_C2_witness :
    (((organize [scanRoad] ["lib"] stC2o).2).file? (dbPathOf ["lib"]) =
        some (FData.json
          ([] ++ [scanRoad].map (updatedSongOf ["lib"]))) ∧
     ∀ song ∈ [] ++ [scanRoad].map (updatedSongOf ["lib"]),
       ∀ g ∈ song.genre,
       ∃ tracks : List String,
         mapGet (genreMapOf (playlistDirOf ["lib"])
           ([] ++ [scanRoad].map (updatedSongOf ["lib"]))) (jsTrimS g) =
             some tracks ∧
         relStr (playlistDirOf ["lib"]) song.absPath ∈ tracks ∧
         ((organize [scanRoad] ["lib"] stC2o).2).file?
             (playlistDirOf ["lib"] ++ [genreFileName (jsTrimS g)]) =
           some (FData.text (playlistHeader ++ joinNl tracks))) ∧
    (∃ moved : List Path, moved ≠ [] ∧
     ((exportLibrary ["out"] Mode.move false ["lib"] stC2e).2).file?
         (dbPathOf ["lib"]) =
       some (FData.json ([tJazz, tRock].filter
         (fun song => !moved.contains song.absPath))) ∧
     ∀ song ∈ [tJazz, tRock].filter
         (fun song => !moved.contains song.absPath),
       ∀ g ∈ song.genre,
       ∃ tracks : List String,
         mapGet (genreMapOf (playlistDirOf ["lib"]) ([tJazz, tRock].filter
           (fun song => !moved.contains song.absPath))) (jsTrimS g) =
             some tracks ∧
         relStr (playlistDirOf ["lib"]) song.absPath ∈ tracks ∧
         ((exportLibrary ["out"] Mode.move false ["lib"] stC2e).2).file?
             (playlistDirOf ["lib"] ++ [genreFileName (jsTrimS g)]) =
           some (FData.text (playlistHeader ++ joinNl tracks))) :=
  claim_C2 [scanRoad] ["lib"] ["out"] false [] [tJazz, tRock] stC2o
    ((organize [scanRoad] ["lib"] stC2o).2) stC2e
    ((exportLibrary ["out"] Mode.move false ["lib"] stC2e).2) (1, 1)
    (by decide) (by decide) (by decide) (by decide) (by decide) (by decide)
    (by decide) (by decide)

end HMV
